import Mathlib

/-!
# vtkPlane::ComputeBestFittingPlane

A shallow embedding of the plane-fitting code of `Common/DataModel/vtkPlane.cxx`
(the functors `ComputePointsOrigin` and `ComputeCovariance` and the method
`vtkPlane::ComputeBestFittingPlane`), followed by the properties proved about it.

Numbers are the elements of an arbitrary linearly ordered field `K` (exact
arithmetic); the two primitives whose behaviour depends on the number format,
the square root and the finiteness test, are the fields of a `MathEnv`.
-/

set_option autoImplicit false

namespace vtkPlane

/-- A `double[3]`: the three coordinates of a point or a vector. -/
@[ext]
structure Vec3 (K : Type) where
  x : K
  y : K
  z : K
deriving DecidableEq

/-- The number-format primitives the code takes from the math library:
`std::sqrt` (used by `vtkMath::Norm`) and `vtkMath::IsFinite`. -/
structure MathEnv (K : Type) where
  sqrt : K → K
  isFinite : K → Bool

/-- Exact arithmetic: `sqrt` is the non-negative square root of every
non-negative number, and every number is finite. -/
structure MathEnv.Exact {K : Type} [LinearOrderedField K] (env : MathEnv K) : Prop where
  sqrt_nonneg : ∀ a : K, 0 ≤ a → 0 ≤ env.sqrt a
  sqrt_mul_self : ∀ a : K, 0 ≤ a → env.sqrt a * env.sqrt a = a
  finite : ∀ a : K, env.isFinite a = true

/-- The environment of exact arithmetic over a given square-root function. -/
def exactEnv {K : Type} (sqrt : K → K) : MathEnv K := ⟨sqrt, fun _ => true⟩

section Code

variable {K : Type} [LinearOrderedField K]

/-! ## The `vtkMath` helpers used by the fit -/

namespace vtkMath

/-- Modelled from the spec: `vtkMath::Add(a, b, c)` (vtkMath.h is not among the
sources), the vector addition `c[i] = a[i] + b[i]`. -/
def Add (a b : Vec3 K) : Vec3 K := ⟨a.x + b.x, a.y + b.y, a.z + b.z⟩

/-- Modelled from the spec: `vtkMath::Subtract(a, b, c)` (vtkMath.h is not among
the sources), the vector difference `c[i] = a[i] - b[i]`. -/
def Subtract (a b : Vec3 K) : Vec3 K := ⟨a.x - b.x, a.y - b.y, a.z - b.z⟩

/-- Modelled from the spec: `vtkMath::MultiplyScalar(a, s)` (vtkMath.h is not
among the sources), the in-place scaling `a[i] *= s`. -/
def MultiplyScalar (a : Vec3 K) (s : K) : Vec3 K := ⟨a.x * s, a.y * s, a.z * s⟩

/-- Modelled from the spec: `vtkMath::Dot(a, b)` (vtkMath.h is not among the
sources), the dot product. -/
def Dot (a b : Vec3 K) : K := a.x * b.x + a.y * b.y + a.z * b.z

/-- Modelled from the spec: `vtkMath::Norm(v)` (vtkMath.h is not among the
sources), the Euclidean length `sqrt(v[0]^2 + v[1]^2 + v[2]^2)`. -/
def Norm (env : MathEnv K) (v : Vec3 K) : K :=
  env.sqrt (v.x * v.x + v.y * v.y + v.z * v.z)

/-- Modelled from the spec: `vtkMath::Normalize(v)` (vtkMath.h is not among the
sources): "normalize the accumulated vector". It returns the length of `v` and,
when that length is not zero, divides `v` by it in place. The pair is
(returned length, `v` after the call). -/
def Normalize (env : MathEnv K) (v : Vec3 K) : K × Vec3 K :=
  let den := Norm env v
  if den ≠ 0 then (den, ⟨v.x / den, v.y / den, v.z / den⟩) else (den, v)

end vtkMath

open vtkMath

/-! ## `vtkSMPTools::For` -/

/-- Modelled from the spec: `vtkSMPTools::For(first, last, grain, functor)`
(vtkSMPTools.h is not among the sources): "partition point indices into
chunks". `cuts` lists the lengths of the successive chunks; a chunk is clipped
at `last`, and what the cuts leave over is one last chunk. The empty `cuts` is
the serial execution in one chunk. -/
def smpRanges : List Nat → Nat → Nat → List (Nat × Nat)
  | [], first, last => if first < last then [(first, last)] else []
  | k :: ks, first, last =>
      if first < last then
        (first, min (first + k) last) :: smpRanges ks (min (first + k) last) last
      else []

/-- The points `GetPoint(ptId)` for `ptId` in `[ptId, endPtId)`, in index order. -/
def pointRange (pts : List (Vec3 K)) (ptId endPtId : Nat) : List (Vec3 K) :=
  (pts.drop ptId).take (endPtId - ptId)

/-! ## `ComputePointsOrigin` -/

namespace ComputePointsOrigin

/-- `Initialize()`: the accumulator of a chunk starts at `{0, 0, 0}`. -/
def init : Vec3 K := ⟨0, 0, 0⟩

/-- `operator()(ptId, endPtId)`: add the points of the range to the local sum. -/
def call (pts : List (Vec3 K)) (sum : Vec3 K) (ptId endPtId : Nat) : Vec3 K :=
  (pointRange pts ptId endPtId).foldl (fun sum x => Add sum x) sum

/-- `Reduce()`: add up the local sums, add the total to `Origin` (which the
constructor set to `{0, 0, 0}`) and scale by `1.0 / npts`. -/
def Reduce (npts : Nat) (sums : List (Vec3 K)) : Vec3 K :=
  let sum := sums.foldl (fun sum s => Add sum s) ⟨0, 0, 0⟩
  let Origin : Vec3 K := ⟨0, 0, 0⟩
  let Origin := Add Origin sum
  MultiplyScalar Origin (1 / (npts : K))

/-- `vtkSMPTools::For(0, npts, THRESHOLD, computeOrigin)` followed by
`GetOrigin`: every chunk is summed into an accumulator that `Initialize()`
zeroed, then `Reduce` adds up the accumulators. -/
def run (cuts : List Nat) (pts : List (Vec3 K)) : Vec3 K :=
  Reduce pts.length
    ((smpRanges cuts 0 pts.length).map (fun r => call pts init r.1 r.2))

end ComputePointsOrigin

/-! ## `ComputeCovariance` -/

/-- A `double[6]` holding the entries xx, xy, xz, yy, yz, zz of a symmetric
matrix (indices 0 to 5 of `Sum` and `Covariance`). -/
structure Cov6 (K : Type) where
  xx : K
  xy : K
  xz : K
  yy : K
  yz : K
  zz : K
deriving DecidableEq

namespace ComputeCovariance

/-- `Initialize()`: the accumulator of a chunk starts at zero. -/
def init : Cov6 K := ⟨0, 0, 0, 0, 0, 0⟩

/-- The body of the loop of `operator()`: `r = x - origin`, then the six
products are added to the local sum. -/
def accum (origin : Vec3 K) (sum : Cov6 K) (x : Vec3 K) : Cov6 K :=
  let r := Subtract x origin
  ⟨sum.xx + r.x * r.x, sum.xy + r.x * r.y, sum.xz + r.x * r.z,
   sum.yy + r.y * r.y, sum.yz + r.y * r.z, sum.zz + r.z * r.z⟩

/-- `operator()(ptId, endPtId)`. -/
def call (pts : List (Vec3 K)) (origin : Vec3 K) (sum : Cov6 K) (ptId endPtId : Nat) :
    Cov6 K :=
  (pointRange pts ptId endPtId).foldl (accum origin) sum

/-- `Reduce()`: add up the local sums entry by entry and divide each entry by
`npts`. -/
def Reduce (npts : Nat) (sums : List (Cov6 K)) : Cov6 K :=
  let cov := sums.foldl
    (fun cov sum => ⟨cov.xx + sum.xx, cov.xy + sum.xy, cov.xz + sum.xz,
                     cov.yy + sum.yy, cov.yz + sum.yz, cov.zz + sum.zz⟩)
    (⟨0, 0, 0, 0, 0, 0⟩ : Cov6 K)
  ⟨cov.xx / (npts : K), cov.xy / (npts : K), cov.xz / (npts : K),
   cov.yy / (npts : K), cov.yz / (npts : K), cov.zz / (npts : K)⟩

/-- `vtkSMPTools::For(0, npts, THRESHOLD, computeCovariance)` followed by
`GetCovariance`. -/
def run (cuts : List Nat) (pts : List (Vec3 K)) (origin : Vec3 K) : Cov6 K :=
  Reduce pts.length
    ((smpRanges cuts 0 pts.length).map (fun r => call pts origin init r.1 r.2))

end ComputeCovariance

/-! ## `vtkPlane::ComputeBestFittingPlane` -/

/-- One of the three blocks of step 3/4: the weight is the square of the
determinant, negated when the candidate points against the accumulator as it
stands; the weighted candidate is added to the accumulator. -/
def axisBlock (weighted_dir : Vec3 K) (det : K) (axis_dir : Vec3 K) : Vec3 K :=
  let weight := det * det
  let weight := if Dot weighted_dir axis_dir < 0 then -weight else weight
  let axis_dir := MultiplyScalar axis_dir weight
  Add weighted_dir axis_dir

/-- The accumulated weighted direction: the blocks for the x, y and z axis, in
this order, starting from `{0, 0, 0}`. -/
def weightedDir (c : Cov6 K) : Vec3 K :=
  let weighted_dir : Vec3 K := ⟨0, 0, 0⟩
  let det_x := c.yy * c.zz - c.yz * c.yz
  let weighted_dir := axisBlock weighted_dir det_x
    ⟨det_x, c.xz * c.yz - c.xy * c.zz, c.xy * c.yz - c.xz * c.yy⟩
  let det_y := c.xx * c.zz - c.xz * c.xz
  let weighted_dir := axisBlock weighted_dir det_y
    ⟨c.xz * c.yz - c.xy * c.zz, det_y, c.xy * c.xz - c.yz * c.xx⟩
  let det_z := c.xx * c.yy - c.xy * c.xy
  axisBlock weighted_dir det_z
    ⟨c.xy * c.yz - c.xz * c.yy, c.xy * c.xz - c.yz * c.xx, det_z⟩

/-- What a call leaves behind: the returned flag and the two output arrays. -/
structure FitResult (K : Type) where
  success : Bool
  origin : Vec3 K
  normal : Vec3 K

/-- `vtkPlane::ComputeBestFittingPlane(pts, origin, normal)`. The arguments
`origin` and `normal` are the output arrays as the caller hands them over;
`cuts₁` and `cuts₂` are the chunkings of the two parallel passes. -/
def ComputeBestFittingPlane (env : MathEnv K) (cuts₁ cuts₂ : List Nat)
    (pts : List (Vec3 K)) (origin normal : Vec3 K) : FitResult K :=
  let origin := { origin with x := 0 }
  let origin := { origin with y := 0 }
  let origin := { origin with z := 0 }
  let normal := { normal with x := 0 }
  let normal := { normal with y := 0 }
  let normal := { normal with z := 1 }
  let npts := pts.length
  if npts < 3 then
    ⟨false, origin, normal⟩
  else
    let origin := ComputePointsOrigin.run cuts₁ pts
    let c := ComputeCovariance.run cuts₂ pts origin
    let r := Normalize env (weightedDir c)
    let nrm := r.1
    let weighted_dir := r.2
    if !env.isFinite nrm || nrm == 0 then
      ⟨false, origin, normal⟩
    else
      ⟨true, origin, ⟨weighted_dir.x, weighted_dir.y, weighted_dir.z⟩⟩

/-! ## The notions the properties are stated with -/

/-- The arithmetic mean of the points, `(1/N) * (sum of the points)`. -/
def centroid (pts : List (Vec3 K)) : Vec3 K :=
  ⟨1 / (pts.length : K) * (pts.map Vec3.x).sum,
   1 / (pts.length : K) * (pts.map Vec3.y).sum,
   1 / (pts.length : K) * (pts.map Vec3.z).sum⟩

/-- The sum over the points of the product of two coordinates of `p - o`. -/
def moment (f g : Vec3 K → K) (pts : List (Vec3 K)) (o : Vec3 K) : K :=
  (pts.map (fun p => f (Subtract p o) * g (Subtract p o))).sum

/-- The six values `(1/N) * sum of r_a * r_b` with `r = p - o`. -/
def covariance (pts : List (Vec3 K)) (o : Vec3 K) : Cov6 K :=
  ⟨1 / (pts.length : K) * moment Vec3.x Vec3.x pts o,
   1 / (pts.length : K) * moment Vec3.x Vec3.y pts o,
   1 / (pts.length : K) * moment Vec3.x Vec3.z pts o,
   1 / (pts.length : K) * moment Vec3.y Vec3.y pts o,
   1 / (pts.length : K) * moment Vec3.y Vec3.z pts o,
   1 / (pts.length : K) * moment Vec3.z Vec3.z pts o⟩

/-- The cross product of two vectors. -/
def cross (a b : Vec3 K) : Vec3 K :=
  ⟨a.y * b.z - a.z * b.y, a.z * b.x - a.x * b.z, a.x * b.y - a.y * b.x⟩

/-- The sum, over all ordered pairs of points, of the product of two
coordinates of the cross product `(p - o) × (q - o)`. -/
def crossMoment (f g : Vec3 K → K) (pts : List (Vec3 K)) (o : Vec3 K) : K :=
  (pts.map (fun p => (pts.map (fun q =>
    f (cross (Subtract p o) (Subtract q o)) * g (cross (Subtract p o) (Subtract q o)))).sum)).sum

/-- All the points lie on one line `a + t * d` (a single point when `d = 0`). -/
def Collinear (pts : List (Vec3 K)) : Prop :=
  ∃ a d : Vec3 K, ∀ p ∈ pts, ∃ t : K, p = Add a (MultiplyScalar d t)

/-- The sum of the squared orthogonal distances of the points to the plane
through `o` with unit normal `n`. -/
def sumSqDist (pts : List (Vec3 K)) (o n : Vec3 K) : K :=
  (pts.map (fun p => Dot n (Subtract p o) * Dot n (Subtract p o))).sum

/-- The corners of the unit square in the plane `z = 0`. -/
def unitSquare : List (Vec3 K) := [⟨0, 0, 0⟩, ⟨1, 0, 0⟩, ⟨1, 1, 0⟩, ⟨0, 1, 0⟩]

/-- The six points `(±1,0,0)`, `(0,±1,0)`, `(0,0,±2)`: not in one plane. -/
def octahedron : List (Vec3 K) :=
  [⟨1, 0, 0⟩, ⟨-1, 0, 0⟩, ⟨0, 1, 0⟩, ⟨0, -1, 0⟩, ⟨0, 0, 2⟩, ⟨0, 0, -2⟩]

/-- Three distinct points on the line through `(0,0,0)` and `(1,1,1)`. -/
def diagonalLine : List (Vec3 K) := [⟨0, 0, 0⟩, ⟨1, 1, 1⟩, ⟨2, 2, 2⟩]

/-- Three copies of the point `(1, 1, 1)`. -/
def triplePoint : List (Vec3 K) := [⟨1, 1, 1⟩, ⟨1, 1, 1⟩, ⟨1, 1, 1⟩]

end Code

end vtkPlane

/-!
# vtkWebGPUConfiguration: acquisition of the adapter and the device

A shallow embedding of the device-acquisition code of
`Rendering/WebGPU/vtkWebGPUConfiguration.cxx`: the two completion handlers
`AcquireAdapter` and `AcquireDevice`, `Initialize`, `Finalize` and
`ProcessEvents`. The object is a record that the methods pass on; what the
graphics backend does during a call of `ProcessEvents` is an input.
-/

namespace vtkWebGPUConfiguration

/-- A raw pointer as the handlers receive it in `void* calldata` and as the
handle wrappers `wgpu::Adapter` and `wgpu::Device` hold it: `nullptr`, an
adapter or a device that the backend delivered, or the address
`&(internals.DeviceReady)` of the readiness flag of the object. -/
inductive Ptr where
  | null
  | adapter (id : Nat)
  | device (id : Nat)
  | addrDeviceReady
deriving DecidableEq

/-- The event ids of a `vtkWebGPUConfiguration` (`unsigned long event`). -/
inductive EventId where
  | AdapterRequestCompletedEvent
  | DeviceRequestCompletedEvent
  | other (id : Nat)
deriving DecidableEq

/-- A call that the object issues to the graphics backend. -/
inductive BackendCall where
  | RequestAdapter
  | RequestDevice (adapter : Ptr)
  | ProcessEvents
deriving DecidableEq

/-- The state the methods read and write: the members `Adapter`, `Device` and
`DeviceReady` of the internals, the member `Timeout` (milliseconds), the static
`InstanceCount` of the internals, the calls issued to the backend so far
(oldest first) and the number of "timed out" errors reported so far. -/
structure State (K : Type) where
  Adapter : Ptr
  Device : Ptr
  DeviceReady : Bool
  Timeout : K
  InstanceCount : Nat
  calls : List BackendCall
  TimeoutErrors : Nat
deriving DecidableEq

/-- A request completion that the backend hands to the object while it
processes events. -/
inductive Completion where
  | adapter (cAdapter : Ptr)
  | device (cDevice : Ptr)
deriving DecidableEq

/-- What one call of `ProcessEvents` meets: the completions that the backend
delivers during the call, in order, and the time in milliseconds that the
steady clock measures around the call. -/
structure Pump (K : Type) where
  completions : List Completion
  duration : K

section Code

variable {K : Type} [LinearOrderedField K]

/-- Modelled from the spec: the object right after the constructor
(vtkWebGPUConfigurationInternals.h is not among the sources): both handles
"null before acquisition", not ready, `Timeout` set from `DefaultTimeout`;
`InstanceCount` is the process-wide count at that moment. -/
def construct (DefaultTimeout : K) (InstanceCount : Nat) : State K :=
  ⟨Ptr.null, Ptr.null, false, DefaultTimeout, InstanceCount, [], 0⟩

/-- Modelled from the spec: `vtkWebGPUConfigurationInternals::AddInstanceRef()`
(not among the sources): "increments the shared instance refcount". -/
def AddInstanceRef (s : State K) : State K :=
  { s with InstanceCount := s.InstanceCount + 1 }

/-- Modelled from the spec: `vtkWebGPUConfigurationInternals::ReleaseInstanceRef()`
(not among the sources): "decrements the shared instance refcount". -/
def ReleaseInstanceRef (s : State K) : State K :=
  { s with InstanceCount := s.InstanceCount - 1 }

/-- `vtkWebGPUConfiguration::AcquireDevice(caller, event, calldata)`. -/
def AcquireDevice (s : State K) (event : EventId) (calldata : Ptr) : State K :=
  if event ≠ EventId.DeviceRequestCompletedEvent then
    s
  else if calldata = Ptr.null then
    { s with DeviceReady := false }
  else
    let s := { s with DeviceReady := true }
    { s with Device := calldata }

/-- `vtkWebGPUConfiguration::AcquireAdapter(caller, event, calldata)`. The call
`this->InvokeEvent(DeviceRequestCompletedEvent, &(internals.DeviceReady))` runs
the observer that the constructor installed for that event, `AcquireDevice`,
with the address of the flag as calldata. -/
def AcquireAdapter (s : State K) (event : EventId) (calldata : Ptr) : State K :=
  if event ≠ EventId.AdapterRequestCompletedEvent then
    s
  else if calldata = Ptr.null then
    let s := { s with DeviceReady := false }
    AcquireDevice s EventId.DeviceRequestCompletedEvent Ptr.addrDeviceReady
  else
    let s := { s with Adapter := calldata }
    { s with calls := s.calls ++ [BackendCall.RequestDevice s.Adapter] }

/-- Modelled from the spec: `vtkObject::InvokeEvent(event, calldata)` on a
`vtkWebGPUConfiguration` (vtkObject is not among the sources): it runs the
observers that the constructor installed, `AcquireAdapter` for
`AdapterRequestCompletedEvent` and `AcquireDevice` for
`DeviceRequestCompletedEvent`. -/
def InvokeEvent (s : State K) (event : EventId) (calldata : Ptr) : State K :=
  match event with
  | EventId.AdapterRequestCompletedEvent => AcquireAdapter s event calldata
  | EventId.DeviceRequestCompletedEvent => AcquireDevice s event calldata
  | EventId.other _ => s

/-- Modelled from the spec: the callbacks `OnAdapterRequestCompleted` and
`OnDeviceRequestCompleted` of the internals (not among the sources): "the two
completion callbacks are invoked by the external backend from within the
process events step"; each raises its completion event with the delivered
handle as calldata. -/
def deliver (s : State K) : Completion → State K
  | Completion.adapter cAdapter =>
      InvokeEvent s EventId.AdapterRequestCompletedEvent cAdapter
  | Completion.device cDevice =>
      InvokeEvent s EventId.DeviceRequestCompletedEvent cDevice

/-- `vtkWebGPUConfiguration::ProcessEvents()` outside Emscripten:
`Instance.ProcessEvents()`, during which the backend delivers the completions
of the pump. -/
def ProcessEvents (s : State K) (pump : Pump K) : State K :=
  pump.completions.foldl deliver
    { s with calls := s.calls ++ [BackendCall.ProcessEvents] }

/-- The loop `while (!internals.DeviceReady)` of `Initialize`, entered with the
accumulated `elapsed` time. Each round takes one pump; `none` when the pumps
run out before the loop exits. The result is the state at the exit of the loop
and the pumps not yet taken. -/
def waitLoop (s : State K) (elapsed : K) : List (Pump K) → Option (State K × List (Pump K))
  | [] => if !s.DeviceReady then none else some (s, [])
  | pump :: rest =>
      if !s.DeviceReady then
        let s := ProcessEvents s pump
        let elapsed := elapsed + pump.duration
        if elapsed ≥ s.Timeout then
          some ({ s with TimeoutErrors := s.TimeoutErrors + 1 }, rest)
        else
          waitLoop s elapsed rest
      else some (s, pump :: rest)

/-- `vtkWebGPUConfiguration::Initialize()` (the branch outside Emscripten). The
result is the returned flag, the state after the call and the pumps not yet
taken; `none` when the pumps run out before the waiting loop exits. -/
def Initialize (s : State K) (pumps : List (Pump K)) :
    Option (Bool × State K × List (Pump K)) :=
  if s.DeviceReady then
    some (true, s, pumps)
  else
    let s := AddInstanceRef s
    let s := { s with calls := s.calls ++ [BackendCall.RequestAdapter] }
    let elapsed : K := 0
    match waitLoop s elapsed pumps with
    | none => none
    | some (s, rest) => some (s.DeviceReady, s, rest)

/-- `vtkWebGPUConfiguration::Finalize()`. -/
def Finalize (s : State K) : State K :=
  if !s.DeviceReady then
    s
  else
    let s := { s with Adapter := Ptr.null }
    let s := { s with Device := Ptr.null }
    let s := { s with DeviceReady := false }
    ReleaseInstanceRef s

/-! ## Concrete sessions and backend behaviours -/

/-- A session right after construction: timeout 5 ms, no instance reference
held by anyone. -/
def freshSession : State K := construct 5 0

/-- The backend answers the adapter request with a null adapter, in a pump of
1 ms. -/
def pumpsNullAdapter : List (Pump K) := [⟨[Completion.adapter Ptr.null], 1⟩]

/-- The backend delivers nothing during one pump of 10 ms. -/
def pumpsIdle : List (Pump K) := [⟨[], 10⟩]

/-- The backend delivers adapter 1 in a pump of 1 ms, then device 2 in a pump
of 1 ms. -/
def pumpsGood : List (Pump K) :=
  [⟨[Completion.adapter (Ptr.adapter 1)], 1⟩, ⟨[Completion.device (Ptr.device 2)], 1⟩]

/-- The backend delivers adapter 1 in a pump of 1 ms, then device 2 in a pump
of 10 ms. -/
def pumpsSlowDevice : List (Pump K) :=
  [⟨[Completion.adapter (Ptr.adapter 1)], 1⟩, ⟨[Completion.device (Ptr.device 2)], 10⟩]

/-- The backend delivers adapter 1 in a pump of 1 ms, then answers the device
request with a null device in a pump of 10 ms. -/
def pumpsNullDevice : List (Pump K) :=
  [⟨[Completion.adapter (Ptr.adapter 1)], 1⟩, ⟨[Completion.device Ptr.null], 10⟩]

/-- The backend delivers nothing during a pump of 10 ms, then adapter 1 and
device 2 in two pumps of 1 ms. -/
def pumpsRetry : List (Pump K) :=
  ⟨[], 10⟩ :: pumpsGood

/-- A ready session: adapter 1, device 2, one instance reference. -/
def readySession : State K :=
  ⟨Ptr.adapter 1, Ptr.device 2, true, 5, 1,
    [BackendCall.RequestAdapter, BackendCall.ProcessEvents,
     BackendCall.RequestDevice (Ptr.adapter 1), BackendCall.ProcessEvents], 0⟩

end Code

end vtkWebGPUConfiguration

/-!
# vtkPlane: projection and intersection utilities, and the partition of a pass

The static methods `GeneralizedProjectPoint`, `IntersectWithLine` and
`IntersectWithFinitePlane` of `Common/DataModel/vtkPlane.cxx`, and the two
passes of the plane fit run over an arbitrary partition of the index range.
-/

namespace vtkPlane

section Geometry

variable {K : Type} [LinearOrderedField K]

open vtkMath

/-- Modelled from the spec: `vtkMath::SquaredNorm(v)` (vtkMath.h is not among
the sources), the squared Euclidean length `v[0]^2 + v[1]^2 + v[2]^2`. -/
def vtkMath.SquaredNorm (v : Vec3 K) : K := v.x * v.x + v.y * v.y + v.z * v.z

/-- The static `vtkPlane::GeneralizedProjectPoint(x, origin, normal, xproj)`;
the result is `xproj`. -/
def GeneralizedProjectPoint (x origin normal : Vec3 K) : Vec3 K :=
  let xo : Vec3 K := ⟨x.x - origin.x, x.y - origin.y, x.z - origin.z⟩
  let t := Dot normal xo
  let n2 := vtkMath.SquaredNorm normal
  if n2 ≠ 0 then
    ⟨x.x - t * normal.x / n2, x.y - t * normal.y / n2, x.z - t * normal.z / n2⟩
  else
    ⟨x.x, x.y, x.z⟩

/-- `#define VTK_PLANE_TOL 1.0e-06`. -/
def VTK_PLANE_TOL : K := 1 / 1000000

/-- What a call of `IntersectWithLine` leaves behind: the returned `int`, the
parameter `t` and the array `x`. -/
structure LineHit (K : Type) where
  ret : Int
  t : K
  x : Vec3 K

/-- The static `vtkPlane::IntersectWithLine(p1, p2, n, p0, t, x)`. The constant
`VTK_DOUBLE_MAX` (vtkType.h is not among the sources) is a parameter; the
argument `x` is the array `x` as the caller hands it over. -/
def IntersectWithLine (VTK_DOUBLE_MAX : K) (p1 p2 n p0 x : Vec3 K) : LineHit K :=
  let p21 : Vec3 K := ⟨p2.x - p1.x, p2.y - p1.y, p2.z - p1.z⟩
  let num := Dot n p0 - (n.x * p1.x + n.y * p1.y + n.z * p1.z)
  let den := n.x * p21.x + n.y * p21.y + n.z * p21.z
  let fabsden := if den < 0 then -den else den
  let fabstolerance := if num < 0 then -num * VTK_PLANE_TOL else num * VTK_PLANE_TOL
  if fabsden ≤ fabstolerance then
    ⟨0, VTK_DOUBLE_MAX, x⟩
  else
    let t := num / den
    let x : Vec3 K := ⟨p1.x + t * p21.x, p1.y + t * p21.y, p1.z + t * p21.z⟩
    if t ≥ 0 ∧ t ≤ 1 then ⟨1, t, x⟩ else ⟨0, t, x⟩

/-- What a call of `IntersectWithFinitePlane` leaves behind: the returned `int`
and the arrays `x0` and `x1`. -/
structure FiniteHit (K : Type) where
  ret : Int
  x0 : Vec3 K
  x1 : Vec3 K

/-- The state of `IntersectWithFinitePlane` between two bounding lines:
`numInts`, whether the pointer `x` has been moved from `x0` to `x1`, and the
two arrays. -/
structure FiniteScan (K : Type) where
  numInts : Nat
  atX1 : Bool
  x0 : Vec3 K
  x1 : Vec3 K

/-- One `if (vtkPlane::IntersectWithLine(xr0, xr1, n, o, t, x)) { numInts++; x = x1; }`:
the call writes through the pointer `x`, whatever it returns. -/
def scanLine (VTK_DOUBLE_MAX : K) (n o xr0 xr1 : Vec3 K) (st : FiniteScan K) :
    FiniteScan K :=
  let h := IntersectWithLine VTK_DOUBLE_MAX xr0 xr1 n o (if st.atX1 then st.x1 else st.x0)
  let x0 := if st.atX1 then st.x0 else h.x
  let x1 := if st.atX1 then h.x else st.x1
  if h.ret ≠ 0 then ⟨st.numInts + 1, true, x0, x1⟩ else ⟨st.numInts, st.atX1, x0, x1⟩

/-- The static `vtkPlane::IntersectWithFinitePlane(n, o, pOrigin, px, py, x0, x1)`.
(After the fourth line the source does not move `x`; nothing reads it then.) -/
def IntersectWithFinitePlane (VTK_DOUBLE_MAX : K) (n o pOrigin px py x0 x1 : Vec3 K) :
    FiniteHit K :=
  let st : FiniteScan K := ⟨0, false, x0, x1⟩
  -- First line
  let xr0 : Vec3 K := ⟨pOrigin.x, pOrigin.y, pOrigin.z⟩
  let xr1 : Vec3 K := ⟨px.x, px.y, px.z⟩
  let st := scanLine VTK_DOUBLE_MAX n o xr0 xr1 st
  -- Second line
  let xr1 : Vec3 K := ⟨py.x, py.y, py.z⟩
  let st := scanLine VTK_DOUBLE_MAX n o xr0 xr1 st
  if st.numInts = 2 then ⟨1, st.x0, st.x1⟩ else
  -- Third line
  let xr0 : Vec3 K :=
    ⟨px.x + py.x - pOrigin.x, px.y + py.y - pOrigin.y, px.z + py.z - pOrigin.z⟩
  let st := scanLine VTK_DOUBLE_MAX n o xr0 xr1 st
  if st.numInts = 2 then ⟨1, st.x0, st.x1⟩ else
  -- Fourth and last line
  let xr1 : Vec3 K := ⟨px.x, px.y, px.z⟩
  let st := scanLine VTK_DOUBLE_MAX n o xr0 xr1 st
  if st.numInts = 2 then ⟨1, st.x0, st.x1⟩ else
  ⟨0, st.x0, st.x1⟩

/-- The point of the parallelogram `(pOrigin, px, py)` with coordinates `s`
along the first side and `u` along the second. -/
def parallelogramPoint (pOrigin px py : Vec3 K) (s u : K) : Vec3 K :=
  ⟨pOrigin.x + s * (px.x - pOrigin.x) + u * (py.x - pOrigin.x),
   pOrigin.y + s * (px.y - pOrigin.y) + u * (py.y - pOrigin.y),
   pOrigin.z + s * (px.z - pOrigin.z) + u * (py.z - pOrigin.z)⟩

/-- The points shifted by the vector `t`. -/
def translate (pts : List (Vec3 K)) (t : Vec3 K) : List (Vec3 K) :=
  pts.map (fun p => Add p t)

/-- The ranges partition the index range `[first, last)` into contiguous
chunks: each starts where the one before it ends. -/
def tiles : List (Nat × Nat) → Nat → Nat → Prop
  | [], first, last => first = last
  | r :: rs, first, last => r.1 = first ∧ first ≤ r.2 ∧ r.2 ≤ last ∧ tiles rs r.2 last

/-- The centroid pass run over given chunks, each with an accumulator that
`Initialize()` zeroed, followed by `Reduce`. -/
def ComputePointsOrigin.runOn (ranges : List (Nat × Nat)) (pts : List (Vec3 K)) : Vec3 K :=
  ComputePointsOrigin.Reduce pts.length
    (ranges.map (fun r => ComputePointsOrigin.call pts ComputePointsOrigin.init r.1 r.2))

/-- The covariance pass run over given chunks, each with an accumulator that
`Initialize()` zeroed, followed by `Reduce`. -/
def ComputeCovariance.runOn (ranges : List (Nat × Nat)) (pts : List (Vec3 K))
    (origin : Vec3 K) : Cov6 K :=
  ComputeCovariance.Reduce pts.length
    (ranges.map (fun r =>
      ComputeCovariance.call pts origin ComputeCovariance.init r.1 r.2))

end Geometry

end vtkPlane

namespace vtkWebGPUConfiguration

/-- `vtkWebGPUConfiguration::Align(value, alignment)` on a 64-bit `std::size_t`:
`(value + alignment - 1) & ~(alignment - 1)`, every operation modulo `2^64`. -/
def Align (value alignment : Nat) : Nat :=
  ((value + alignment + (2 ^ 64 - 1)) % 2 ^ 64)
    &&& ((2 ^ 64 - 1) - ((alignment + (2 ^ 64 - 1)) % 2 ^ 64))

/-- The value the comment in `Align` gives:
`std::ceil(value / (float)alignment) * alignment`, in exact arithmetic. -/
def ceilMultiple (value alignment : Nat) : Nat :=
  ⌈(value : ℚ) / (alignment : ℚ)⌉₊ * alignment

end vtkWebGPUConfiguration

/-!
# The `vtkPlane` object and its array evaluation

The cached fields `InternalNormal` and `InternalOrigin` of a plane, the
mutators that refresh them, and the two forms of `EvaluateFunction`.
-/

namespace vtkPlane

/-- The fields of a `vtkPlane` that `vtkPlane.cxx` reads and writes. `MTime` is
the modification time of the object. -/
structure Plane (K : Type) where
  /-- The member `Normal`. -/
  Normal : Vec3 K
  /-- The member `Origin`. -/
  Origin : Vec3 K
  /-- The member `Offset`. -/
  Offset : K
  /-- The member `AxisAligned`. -/
  AxisAligned : Bool
  /-- The member `InternalNormal`. -/
  InternalNormal : Vec3 K
  /-- The member `InternalOrigin`. -/
  InternalOrigin : Vec3 K
  /-- The modification time. -/
  MTime : Nat

/-- A one-component output array: its values and, as a record of the stores
`dstValues[pointId] = ...`, the indices stored to, in the order of the stores. -/
structure OutArray (K : Type) where
  /-- The values of the array. -/
  values : List K
  /-- The indices stored to so far. -/
  written : List Nat

section Object

variable {K : Type} [LinearOrderedField K]

/-- `vtkObject::Modified()` (declared outside `vtkPlane.cxx`), taken as a
parameter of the model: it advances the modification time and touches no field
of the plane. -/
def Modified (s : Plane K) : Plane K := { s with MTime := s.MTime + 1 }

/-- `vtkPlane::ComputeInternalNormal()`; `std::fabs` is the absolute value. -/
def ComputeInternalNormal (s : Plane K) : Plane K :=
  if s.AxisAligned then
    { s with InternalNormal :=
        ⟨if |s.Normal.x| ≥ |s.Normal.y| ∧ |s.Normal.x| ≥ |s.Normal.z| then 1 else 0,
         if |s.Normal.y| ≥ |s.Normal.x| ∧ |s.Normal.y| ≥ |s.Normal.z| then 1 else 0,
         if |s.Normal.z| ≥ |s.Normal.x| ∧ |s.Normal.z| ≥ |s.Normal.y| then 1 else 0⟩ }
  else
    { s with InternalNormal := ⟨s.Normal.x, s.Normal.y, s.Normal.z⟩ }

/-- `vtkPlane::ComputeInternalOrigin()`: the origin is copied, and the offset
along `InternalNormal` is added only when `Offset != 0.0`. -/
def ComputeInternalOrigin (s : Plane K) : Plane K :=
  let s₁ : Plane K := { s with InternalOrigin := ⟨s.Origin.x, s.Origin.y, s.Origin.z⟩ }
  if s₁.Offset ≠ 0 then
    { s₁ with InternalOrigin :=
        ⟨s₁.InternalOrigin.x + s₁.Offset * s₁.InternalNormal.x,
         s₁.InternalOrigin.y + s₁.Offset * s₁.InternalNormal.y,
         s₁.InternalOrigin.z + s₁.Offset * s₁.InternalNormal.z⟩ }
  else s₁

/-- `vtkPlane::InternalUpdates()`. -/
def InternalUpdates (s : Plane K) : Plane K :=
  ComputeInternalOrigin (ComputeInternalNormal s)

/-- `vtkPlane::SetOrigin(double x, double y, double z)`. -/
def SetOrigin (s : Plane K) (x y z : K) : Plane K :=
  if s.Origin.x ≠ x ∨ s.Origin.y ≠ y ∨ s.Origin.z ≠ z then
    InternalUpdates (Modified { s with Origin := ⟨x, y, z⟩ })
  else s

/-- `vtkPlane::SetOrigin(const double origin[3])`. -/
def SetOriginArray (s : Plane K) (origin : Vec3 K) : Plane K :=
  SetOrigin s origin.x origin.y origin.z

/-- `vtkPlane::SetNormal(double x, double y, double z)`. -/
def SetNormal (s : Plane K) (x y z : K) : Plane K :=
  if s.Normal.x ≠ x ∨ s.Normal.y ≠ y ∨ s.Normal.z ≠ z then
    InternalUpdates (Modified { s with Normal := ⟨x, y, z⟩ })
  else s

/-- `vtkPlane::SetNormal(const double normal[3])`. -/
def SetNormalArray (s : Plane K) (normal : Vec3 K) : Plane K :=
  SetNormal s normal.x normal.y normal.z

/-- `vtkPlane::SetOffset(double _arg)`. -/
def SetOffset (s : Plane K) (_arg : K) : Plane K :=
  if s.Offset ≠ _arg then InternalUpdates (Modified { s with Offset := _arg }) else s

/-- `vtkPlane::SetAxisAligned(bool _arg)`. -/
def SetAxisAligned (s : Plane K) (_arg : Bool) : Plane K :=
  if s.AxisAligned ≠ _arg then
    InternalUpdates (Modified { s with AxisAligned := _arg })
  else s

/-- `vtkPlane::DeepCopy(vtkPlane* plane)`; the getters `GetNormal`, `GetOrigin`,
`GetAxisAligned` and `GetOffset` of the header read the members of `plane`. -/
def DeepCopy (s plane : Plane K) : Plane K :=
  let s := SetNormalArray s plane.Normal
  let s := SetOriginArray s plane.Origin
  let s := SetAxisAligned s plane.AxisAligned
  SetOffset s plane.Offset

/-- `vtkPlane::Push(double distance)`. -/
def Push (s : Plane K) (distance : K) : Plane K :=
  if distance = 0 then s
  else
    let s := ComputeInternalNormal s
    let s : Plane K := { s with Origin :=
      ⟨s.Origin.x + distance * s.InternalNormal.x,
       s.Origin.y + distance * s.InternalNormal.y,
       s.Origin.z + distance * s.InternalNormal.z⟩ }
    Modified (ComputeInternalOrigin s)

/-- `vtkPlane::EvaluateFunction(double x[3])`. -/
def EvaluateFunction (s : Plane K) (x : Vec3 K) : K :=
  s.InternalNormal.x * (x.x - s.InternalOrigin.x) +
    s.InternalNormal.y * (x.y - s.InternalOrigin.y) +
    s.InternalNormal.z * (x.z - s.InternalOrigin.z)

/-- `CutWorker::operator()(begin, end)`: for `pointId` from `begin` up to
`end`, the tuple `pointId` of the input is read into a `double[3]` and
`dstValues[pointId]` is stored. `Normal` and `Origin` are the members of the
worker; the expression is evaluated in `double`, and the store converts it to
the value type of the output array, which is `toValue`. -/
def CutWorker.call (toValue : K → K) (Normal Origin : Vec3 K) (Input : List (Vec3 K))
    (Output : OutArray K) (beginId endId : Nat) : OutArray K :=
  (List.range' beginId (endId - beginId)).foldl
    (fun out pointId =>
      let tuple := Input.getD pointId ⟨0, 0, 0⟩
      ⟨out.values.set pointId
          (toValue
            (Normal.x * (tuple.x - Origin.x) + Normal.y * (tuple.y - Origin.y) +
              Normal.z * (tuple.z - Origin.z))),
        out.written ++ [pointId]⟩)
    Output

/-- `CutFunctionWorker::operator()(input, output)`: a `CutWorker` is built,
`std::copy_n` copies the worker's `double` normal and origin into its members
of type `OutputValueType`, converting each by `toAPI`, and
`vtkSMPTools::For(0, numTuples, cut)` runs it. `ranges` lists the
`[begin, end)` calls that `For` makes, in the order in which they are carried
out. -/
def CutFunctionWorker.call (toAPI toValue : K → K) (Normal Origin : Vec3 K)
    (ranges : List (Nat × Nat)) (input : List (Vec3 K)) (output : OutArray K) :
    OutArray K :=
  let cutNormal : Vec3 K := ⟨toAPI Normal.x, toAPI Normal.y, toAPI Normal.z⟩
  let cutOrigin : Vec3 K := ⟨toAPI Origin.x, toAPI Origin.y, toAPI Origin.z⟩
  ranges.foldl (fun out r => CutWorker.call toValue cutNormal cutOrigin input out r.1 r.2)
    output

/-- `vtkPlane::EvaluateFunction(vtkDataArray* input, vtkDataArray* output)`:
the worker is built from `InternalNormal` and `InternalOrigin` and run once.
`toValue` is the conversion of a `double` to the value type of the output array
(the identity for an array of `double`). When the dispatcher accepts the arrays
(`dispatched`) the worker runs on the typed arrays, where `OutputValueType` is
that value type; otherwise it runs on the `vtkDataArray` interface, where
`OutputValueType` is `double` and only the store converts. -/
def EvaluateFunctionArray (s : Plane K) (toValue : K → K) (dispatched : Bool)
    (ranges : List (Nat × Nat)) (input : List (Vec3 K)) (output : OutArray K) :
    OutArray K :=
  if dispatched then
    CutFunctionWorker.call toValue toValue s.InternalNormal s.InternalOrigin ranges input
      output
  else
    CutFunctionWorker.call (fun v => v) toValue s.InternalNormal s.InternalOrigin ranges
      input output

/-- The cached fields agree with the public ones: `InternalNormal` is what
`ComputeInternalNormal` derives from `Normal` and `AxisAligned`, and
`InternalOrigin = Origin + Offset * InternalNormal`. -/
def Consistent (s : Plane K) : Prop :=
  s.InternalNormal = (ComputeInternalNormal s).InternalNormal ∧
  s.InternalOrigin = vtkMath.Add s.Origin (vtkMath.MultiplyScalar s.InternalNormal s.Offset)

/-- A plane with normal `(1, -2, 2)`, axis alignment on, origin `(1, 1, 1)`
and offset 3, whose cached fields are consistent. -/
def samplePlane : Plane K :=
  ⟨⟨1, -2, 2⟩, ⟨1, 1, 1⟩, 3, true, ⟨0, 1, 1⟩, ⟨1, 4, 4⟩, 0⟩

/-- A plane with normal `(0, 3, 4)`, axis alignment off, origin `(2, 0, 0)`
and offset 0, whose cached fields are consistent. -/
def otherPlane : Plane K :=
  ⟨⟨0, 3, 4⟩, ⟨2, 0, 0⟩, 0, false, ⟨0, 3, 4⟩, ⟨2, 0, 0⟩, 5⟩

/-- A plane with normal `(1, 0, 0)` through `(16777217, 0, 0)`, that is
`2^24 + 1`, without offset or axis alignment; its cached fields are consistent. -/
def farPlane : Plane K :=
  ⟨⟨1, 0, 0⟩, ⟨16777217, 0, 0⟩, 0, false, ⟨1, 0, 0⟩, ⟨16777217, 0, 0⟩, 0⟩

/-- Two input tuples: the origin of `farPlane` and the zero point. -/
def farPoints : List (Vec3 K) := [⟨16777217, 0, 0⟩, ⟨0, 0, 0⟩]

end Object

end vtkPlane

/-!
# IEEE 754 values

The `double` and `float` of the code as far as the properties below need them:
rounding to a binary format, and a `double` that may be NaN or infinite.
-/

namespace IEEE

/-- The floor of the binary logarithm of `n`, by halving at most `fuel` times. -/
def log2Fuel : Nat → Nat → Nat
  | 0, _ => 0
  | fuel + 1, n => if 2 ≤ n then log2Fuel fuel (n / 2) + 1 else 0

/-- The IEEE 754 rounding of a rational to the nearest number with `p`
significant bits, ties to the even significand (the default rounding of C++
arithmetic and conversions); the exponent range is not bounded. With
`x = ± n / d`, `e` is the floor of the binary logarithm of `n / d`, the numbers
of the format around `x` are the multiples of `2 ^ (e - p + 1)`, and `m` is the
multiple chosen. -/
def roundTiesToEven (p : Nat) (x : ℚ) : ℚ :=
  if x = 0 then 0 else
  let n := x.num.natAbs
  let d := x.den
  let e0 : Int := (log2Fuel n n : Int) - (log2Fuel d d : Int)
  let e : Int := if n * 2 ^ (-e0).toNat < d * 2 ^ e0.toNat then e0 - 1 else e0
  let k : Int := (p : Int) - 1 - e
  let N := n * 2 ^ k.toNat
  let D := d * 2 ^ (-k).toNat
  let q := N / D
  let r := N % D
  let m := if 2 * r < D then q else if D < 2 * r then q + 1 else if q % 2 = 0 then q else q + 1
  let v : ℚ := if 0 ≤ k then (m : ℚ) / ((2 ^ k.toNat : Nat) : ℚ)
    else (m : ℚ) * ((2 ^ (-k).toNat : Nat) : ℚ)
  if x < 0 then -v else v

/-- Rounding to `float` (binary32: 24 significant bits). -/
def binary32 (x : ℚ) : ℚ := roundTiesToEven 24 x

/-- Rounding to `double` (binary64: 53 significant bits). -/
def binary64 (x : ℚ) : ℚ := roundTiesToEven 53 x

/-- A `double` with its special values: NaN, the two infinities, and the
finite numbers. -/
inductive Dbl (K : Type) where
  | nan : Dbl K
  | negInf : Dbl K
  | fin (v : K) : Dbl K
  | posInf : Dbl K
deriving DecidableEq

section Comparisons

variable {K : Type} [LinearOrderedField K]

/-- `std::fabs`: NaN stays NaN, both infinities become `+inf`. -/
def Dbl.fabs : Dbl K → Dbl K
  | Dbl.nan => Dbl.nan
  | Dbl.negInf => Dbl.posInf
  | Dbl.fin v => Dbl.fin |v|
  | Dbl.posInf => Dbl.posInf

/-- The comparison `a >= b` of two `double`s: false whenever one of them is
NaN. -/
def Dbl.ge : Dbl K → Dbl K → Bool
  | Dbl.nan, _ => false
  | _, Dbl.nan => false
  | Dbl.posInf, _ => true
  | _, Dbl.negInf => true
  | Dbl.negInf, _ => false
  | Dbl.fin _, Dbl.posInf => false
  | Dbl.fin a, Dbl.fin b => decide (b ≤ a)

/-- Unary minus on a `double`. -/
def Dbl.neg : Dbl K → Dbl K
  | Dbl.nan => Dbl.nan
  | Dbl.negInf => Dbl.posInf
  | Dbl.fin v => Dbl.fin (-v)
  | Dbl.posInf => Dbl.negInf

end Comparisons

end IEEE

namespace vtkPlane

section Doubles

variable {K : Type} [LinearOrderedField K]

/-- `vtkPlane::ComputeInternalNormal()` on `double`s that may be NaN or
infinite: the same assignments, with `std::fabs` and `>=` as they act on such
values; `1.0` and `0.0` are the finite numbers 1 and 0. Only `Normal`,
`AxisAligned` and `InternalNormal` take part. -/
def ComputeInternalNormalDbl (AxisAligned : Bool) (Normal : Vec3 (IEEE.Dbl K)) :
    Vec3 (IEEE.Dbl K) :=
  if AxisAligned then
    ⟨if (Normal.x.fabs.ge Normal.y.fabs && Normal.x.fabs.ge Normal.z.fabs) = true
        then IEEE.Dbl.fin 1 else IEEE.Dbl.fin 0,
     if (Normal.y.fabs.ge Normal.x.fabs && Normal.y.fabs.ge Normal.z.fabs) = true
        then IEEE.Dbl.fin 1 else IEEE.Dbl.fin 0,
     if (Normal.z.fabs.ge Normal.x.fabs && Normal.z.fabs.ge Normal.y.fabs) = true
        then IEEE.Dbl.fin 1 else IEEE.Dbl.fin 0⟩
  else
    ⟨Normal.x, Normal.y, Normal.z⟩

/-- A block of the direction extraction with every `double` operation rounded
by `fl`: `weight = det * det`, the test
`vtkMath::Dot(weighted_dir, axis_dir) < 0.0`,
`vtkMath::MultiplyScalar(axis_dir, weight)` and
`vtkMath::Add(weighted_dir, axis_dir, weighted_dir)`. With `fl` the identity it
is `axisBlock`. -/
def axisBlockRounded (fl : K → K) (weighted_dir : Vec3 K) (det : K) (axis_dir : Vec3 K) :
    Vec3 K :=
  let weight := fl (det * det)
  let dot := fl (fl (fl (weighted_dir.x * axis_dir.x) + fl (weighted_dir.y * axis_dir.y))
    + fl (weighted_dir.z * axis_dir.z))
  let weight := if dot < 0 then -weight else weight
  let axis_dir : Vec3 K :=
    ⟨fl (axis_dir.x * weight), fl (axis_dir.y * weight), fl (axis_dir.z * weight)⟩
  ⟨fl (weighted_dir.x + axis_dir.x), fl (weighted_dir.y + axis_dir.y),
    fl (weighted_dir.z + axis_dir.z)⟩

/-- The accumulator `weighted_dir` as it stands after each of the three blocks
of the direction extraction. -/
structure DirTrace (K : Type) where
  /-- After the block of the x axis. -/
  afterX : Vec3 K
  /-- After the block of the y axis. -/
  afterY : Vec3 K
  /-- After the block of the z axis. -/
  afterZ : Vec3 K

/-- Steps 3 and 4 of `ComputeBestFittingPlane` with every `double` operation
rounded by `fl`, recording the accumulator after each block. With `fl` the
identity the last accumulator is `weightedDir`. -/
def weightedDirTrace (fl : K → K) (c : Cov6 K) : DirTrace K :=
  let weighted_dir : Vec3 K := ⟨0, 0, 0⟩
  let det_x := fl (fl (c.yy * c.zz) - fl (c.yz * c.yz))
  let afterX := axisBlockRounded fl weighted_dir det_x
    ⟨det_x, fl (fl (c.xz * c.yz) - fl (c.xy * c.zz)), fl (fl (c.xy * c.yz) - fl (c.xz * c.yy))⟩
  let det_y := fl (fl (c.xx * c.zz) - fl (c.xz * c.xz))
  let afterY := axisBlockRounded fl afterX det_y
    ⟨fl (fl (c.xz * c.yz) - fl (c.xy * c.zz)), det_y, fl (fl (c.xy * c.xz) - fl (c.yz * c.xx))⟩
  let det_z := fl (fl (c.xx * c.yy) - fl (c.xy * c.xy))
  let afterZ := axisBlockRounded fl afterY det_z
    ⟨fl (fl (c.xy * c.yz) - fl (c.xz * c.yy)), fl (fl (c.xy * c.xz) - fl (c.yz * c.xx)), det_z⟩
  ⟨afterX, afterY, afterZ⟩

/-- Four points with integer coordinates, nearly on a line along the y axis. -/
def skewPoints : List (Vec3 K) :=
  [⟨1, 135, -3⟩, ⟨1, 23, -1⟩, ⟨0, -47, 4⟩, ⟨1, -34, -3⟩]

end Doubles

end vtkPlane

/-! # Properties -/

namespace vtkPlane

open vtkMath

section Lists

variable {K : Type}

/-- Two adjacent index ranges hold the points of their union. -/
theorem pointRange_append (pts : List (Vec3 K)) (a b c : Nat) (hab : a ≤ b) (hbc : b ≤ c) :
    pointRange pts a b ++ pointRange pts b c = pointRange pts a c := by
  unfold pointRange
  have h1 : c - a = (b - a) + (c - b) := by omega
  have h2 : pts.drop b = (pts.drop a).drop (b - a) := by
    rw [List.drop_drop]; congr 1; omega
  rw [h1, List.take_add, h2]

/-- The chunks of `smpRanges` tile the range: put end to end they are the
points of `[first, last)`, each once and in order. -/
theorem flatten_smpRanges (pts : List (Vec3 K)) (cuts : List Nat) :
    ∀ first last, first ≤ last →
      ((smpRanges cuts first last).map (fun r => pointRange pts r.1 r.2)).flatten
        = pointRange pts first last := by
  induction cuts with
  | nil =>
    intro first last h
    by_cases hlt : first < last
    · simp [smpRanges, hlt]
    · have : last - first = 0 := by omega
      simp [smpRanges, hlt, pointRange, this]
  | cons k ks ih =>
    intro first last h
    by_cases hlt : first < last
    · have h1 : first ≤ min (first + k) last := by omega
      have h2 : min (first + k) last ≤ last := by omega
      simp only [smpRanges, hlt, if_true, List.map_cons, List.flatten_cons]
      rw [ih _ _ h2, pointRange_append pts _ _ _ h1 h2]
    · have : last - first = 0 := by omega
      simp [smpRanges, hlt, pointRange, this]

/-- The whole index range holds all the points. -/
theorem pointRange_all (pts : List (Vec3 K)) : pointRange pts 0 pts.length = pts := by
  simp [pointRange]

/-- The chunks of a pass over `[0, npts)` put end to end are the point list. -/
theorem flatten_chunks (pts : List (Vec3 K)) (cuts : List Nat) :
    ((smpRanges cuts 0 pts.length).map (fun r => pointRange pts r.1 r.2)).flatten = pts := by
  rw [flatten_smpRanges pts cuts 0 pts.length (Nat.zero_le _), pointRange_all]

/-- Folding `vtkMath::Add` over a list adds the coordinate sums. -/
theorem foldl_Add [LinearOrderedField K] (l : List (Vec3 K)) : ∀ s : Vec3 K,
    l.foldl (fun sum x => Add sum x) s
      = ⟨s.x + (l.map Vec3.x).sum, s.y + (l.map Vec3.y).sum, s.z + (l.map Vec3.z).sum⟩ := by
  induction l with
  | nil => intro s; simp
  | cons a l ih =>
    intro s
    rw [List.foldl_cons, ih]
    simp only [vtkMath.Add, List.map_cons, List.sum_cons, add_assoc]

/-- Summing a per-point quantity chunk by chunk and adding up the chunk sums
gives its sum over all the points. -/
theorem sum_chunks [LinearOrderedField K] (pts : List (Vec3 K)) (cuts : List Nat)
    (φ : Vec3 K → K) :
    ((smpRanges cuts 0 pts.length).map (fun r => ((pointRange pts r.1 r.2).map φ).sum)).sum
      = (pts.map φ).sum := by
  have h := congrArg (fun l => (l.map φ).sum) (flatten_chunks pts cuts)
  simp only [List.map_flatten, List.sum_flatten, List.map_map] at h
  rw [← h]
  rfl

/-- The local sum of a chunk that started from zero. -/
theorem ComputePointsOrigin.origin_call_init [LinearOrderedField K] (pts : List (Vec3 K))
    (b e : Nat) :
    ComputePointsOrigin.call pts ComputePointsOrigin.init b e
      = ⟨((pointRange pts b e).map Vec3.x).sum, ((pointRange pts b e).map Vec3.y).sum,
         ((pointRange pts b e).map Vec3.z).sum⟩ := by
  rw [ComputePointsOrigin.call, foldl_Add]
  simp only [ComputePointsOrigin.init, zero_add]

/-- The centroid pass yields the arithmetic mean, whatever the chunking. -/
theorem run_eq_centroid [LinearOrderedField K] (cuts : List Nat) (pts : List (Vec3 K)) :
    ComputePointsOrigin.run cuts pts = centroid pts := by
  rw [ComputePointsOrigin.run, ComputePointsOrigin.Reduce]
  simp only [foldl_Add, ComputePointsOrigin.origin_call_init, List.map_map, Function.comp_def,
    sum_chunks, zero_add]
  simp only [vtkMath.Add, vtkMath.MultiplyScalar, centroid, zero_add]
  ext <;> simp only [mul_comm]

/-- Folding the loop body of `ComputeCovariance` adds the six moments. -/
theorem foldl_accum [LinearOrderedField K] (o : Vec3 K) (l : List (Vec3 K)) : ∀ s : Cov6 K,
    l.foldl (ComputeCovariance.accum o) s
      = ⟨s.xx + moment Vec3.x Vec3.x l o, s.xy + moment Vec3.x Vec3.y l o,
         s.xz + moment Vec3.x Vec3.z l o, s.yy + moment Vec3.y Vec3.y l o,
         s.yz + moment Vec3.y Vec3.z l o, s.zz + moment Vec3.z Vec3.z l o⟩ := by
  induction l with
  | nil => intro s; simp [moment]
  | cons a l ih =>
    intro s
    rw [List.foldl_cons, ih]
    simp only [ComputeCovariance.accum, moment, List.map_cons, List.sum_cons, add_assoc]

/-- Folding the entrywise addition of `ComputeCovariance::Reduce`. -/
theorem foldl_cov [LinearOrderedField K] (l : List (Cov6 K)) : ∀ s : Cov6 K,
    l.foldl (fun cov sum => (⟨cov.xx + sum.xx, cov.xy + sum.xy, cov.xz + sum.xz,
                     cov.yy + sum.yy, cov.yz + sum.yz, cov.zz + sum.zz⟩ : Cov6 K)) s
      = ⟨s.xx + (l.map Cov6.xx).sum, s.xy + (l.map Cov6.xy).sum, s.xz + (l.map Cov6.xz).sum,
         s.yy + (l.map Cov6.yy).sum, s.yz + (l.map Cov6.yz).sum, s.zz + (l.map Cov6.zz).sum⟩ := by
  induction l with
  | nil => intro s; simp
  | cons a l ih =>
    intro s
    rw [List.foldl_cons, ih]
    simp only [List.map_cons, List.sum_cons, add_assoc]

/-- The local sums of a chunk that started from zero. -/
theorem ComputeCovariance.cov_call_init [LinearOrderedField K] (pts : List (Vec3 K))
    (o : Vec3 K) (b e : Nat) :
    ComputeCovariance.call pts o ComputeCovariance.init b e
      = ⟨moment Vec3.x Vec3.x (pointRange pts b e) o, moment Vec3.x Vec3.y (pointRange pts b e) o,
         moment Vec3.x Vec3.z (pointRange pts b e) o, moment Vec3.y Vec3.y (pointRange pts b e) o,
         moment Vec3.y Vec3.z (pointRange pts b e) o, moment Vec3.z Vec3.z (pointRange pts b e) o⟩ := by
  rw [ComputeCovariance.call, foldl_accum]
  simp only [ComputeCovariance.init, zero_add]

/-- The covariance pass yields the six averaged moments, whatever the chunking. -/
theorem run_eq_covariance [LinearOrderedField K] (cuts : List Nat) (pts : List (Vec3 K))
    (o : Vec3 K) : ComputeCovariance.run cuts pts o = covariance pts o := by
  rw [ComputeCovariance.run, ComputeCovariance.Reduce]
  simp only [foldl_cov, ComputeCovariance.cov_call_init, List.map_map, Function.comp_def,
    moment, sum_chunks, zero_add, covariance]
  simp only [div_eq_mul_inv, one_mul, mul_comm]

end Lists

section CauchyBinet

variable {K : Type} [LinearOrderedField K] {α : Type}

/-- The inner sum of the Cauchy-Binet expansion, for a fixed first index. -/
theorem sum_minor_inner (f g h k : α → K) (r : α) (l : List α) :
    (l.map (fun s => (f r * g s - g r * f s) * (h r * k s - k r * h s))).sum
      = f r * h r * (l.map (fun s => g s * k s)).sum
        - f r * k r * (l.map (fun s => g s * h s)).sum
        - g r * h r * (l.map (fun s => f s * k s)).sum
        + g r * k r * (l.map (fun s => f s * h s)).sum := by
  induction l with
  | nil => simp
  | cons a l ih =>
    simp only [List.map_cons, List.sum_cons, ih]
    ring

/-- The outer sum of the Cauchy-Binet expansion, with the inner sums `A B C D`
already taken. -/
theorem sum_minor_outer (f g h k : α → K) (A B C D : K) (l : List α) :
    (l.map (fun r => f r * h r * A - f r * k r * B - g r * h r * C + g r * k r * D)).sum
      = (l.map (fun r => f r * h r)).sum * A - (l.map (fun r => f r * k r)).sum * B
        - (l.map (fun r => g r * h r)).sum * C + (l.map (fun r => g r * k r)).sum * D := by
  induction l with
  | nil => simp
  | cons a l ih =>
    simp only [List.map_cons, List.sum_cons, ih]
    ring

/-- Cauchy-Binet for sums over a list: a 2x2 minor of the matrix of product
sums is half the sum over all pairs of the products of 2x2 determinants. -/
theorem sum_minor (f g h k : α → K) (l : List α) :
    (l.map (fun r => (l.map (fun s =>
        (f r * g s - g r * f s) * (h r * k s - k r * h s))).sum)).sum
      = 2 * ((l.map (fun r => f r * h r)).sum * (l.map (fun r => g r * k r)).sum
          - (l.map (fun r => f r * k r)).sum * (l.map (fun r => g r * h r)).sum) := by
  simp only [sum_minor_inner, sum_minor_outer]
  ring

end CauchyBinet

section Adjugate

variable {K : Type} [LinearOrderedField K]

/-- The order of the two coordinates of a moment does not matter. -/
theorem moment_comm (f g : Vec3 K → K) (pts : List (Vec3 K)) (o : Vec3 K) :
    moment f g pts o = moment g f pts o := by
  simp only [moment, mul_comm]

/-- Cauchy-Binet for the moments of a point list. -/
theorem minor_moment (f g h k : Vec3 K → K) (pts : List (Vec3 K)) (o : Vec3 K) :
    (pts.map (fun p => (pts.map (fun q =>
        (f (Subtract p o) * g (Subtract q o) - g (Subtract p o) * f (Subtract q o))
        * (h (Subtract p o) * k (Subtract q o) - k (Subtract p o) * h (Subtract q o)))).sum)).sum
      = 2 * (moment f h pts o * moment g k pts o - moment f k pts o * moment g h pts o) :=
  sum_minor (fun p => f (Subtract p o)) (fun p => g (Subtract p o))
    (fun p => h (Subtract p o)) (fun p => k (Subtract p o)) pts

/-- The cofactors of the covariance matrix about `o` are the sums over all
pairs of points of the products of the coordinates of `(p - o) × (q - o)`,
divided by `2 N^2`. -/
theorem adj_covariance (pts : List (Vec3 K)) (o : Vec3 K) :
    (covariance pts o).yy * (covariance pts o).zz - (covariance pts o).yz * (covariance pts o).yz
      = (1 / (pts.length : K)) ^ 2 / 2 * crossMoment Vec3.x Vec3.x pts o ∧
    (covariance pts o).xx * (covariance pts o).zz - (covariance pts o).xz * (covariance pts o).xz
      = (1 / (pts.length : K)) ^ 2 / 2 * crossMoment Vec3.y Vec3.y pts o ∧
    (covariance pts o).xx * (covariance pts o).yy - (covariance pts o).xy * (covariance pts o).xy
      = (1 / (pts.length : K)) ^ 2 / 2 * crossMoment Vec3.z Vec3.z pts o ∧
    (covariance pts o).xz * (covariance pts o).yz - (covariance pts o).xy * (covariance pts o).zz
      = (1 / (pts.length : K)) ^ 2 / 2 * crossMoment Vec3.x Vec3.y pts o ∧
    (covariance pts o).xy * (covariance pts o).yz - (covariance pts o).xz * (covariance pts o).yy
      = (1 / (pts.length : K)) ^ 2 / 2 * crossMoment Vec3.x Vec3.z pts o ∧
    (covariance pts o).xy * (covariance pts o).xz - (covariance pts o).yz * (covariance pts o).xx
      = (1 / (pts.length : K)) ^ 2 / 2 * crossMoment Vec3.y Vec3.z pts o := by
  have hxx : crossMoment Vec3.x Vec3.x pts o = _ :=
    minor_moment Vec3.y Vec3.z Vec3.y Vec3.z pts o
  have hyy : crossMoment Vec3.y Vec3.y pts o = _ :=
    minor_moment Vec3.z Vec3.x Vec3.z Vec3.x pts o
  have hzz : crossMoment Vec3.z Vec3.z pts o = _ :=
    minor_moment Vec3.x Vec3.y Vec3.x Vec3.y pts o
  have hxy : crossMoment Vec3.x Vec3.y pts o = _ :=
    minor_moment Vec3.y Vec3.z Vec3.z Vec3.x pts o
  have hxz : crossMoment Vec3.x Vec3.z pts o = _ :=
    minor_moment Vec3.y Vec3.z Vec3.x Vec3.y pts o
  have hyz : crossMoment Vec3.y Vec3.z pts o = _ :=
    minor_moment Vec3.z Vec3.x Vec3.x Vec3.y pts o
  rw [hxx, hyy, hzz, hxy, hxz, hyz]
  simp only [covariance, moment_comm Vec3.z Vec3.y, moment_comm Vec3.z Vec3.x,
    moment_comm Vec3.y Vec3.x]
  refine ⟨?_, ?_, ?_, ?_, ?_, ?_⟩ <;> ring

/-- A sum over all pairs vanishes when every term does. -/
theorem crossMoment_eq_zero (f g : Vec3 K → K) (pts : List (Vec3 K)) (o : Vec3 K)
    (h : ∀ p ∈ pts, ∀ q ∈ pts,
      f (cross (Subtract p o) (Subtract q o)) * g (cross (Subtract p o) (Subtract q o)) = 0) :
    crossMoment f g pts o = 0 := by
  unfold crossMoment
  apply List.sum_eq_zero
  intro a ha
  obtain ⟨p, hp, rfl⟩ := List.mem_map.1 ha
  apply List.sum_eq_zero
  intro b hb
  obtain ⟨q, hq, rfl⟩ := List.mem_map.1 hb
  exact h p hp q hq

/-- When all six cofactors vanish, so does the accumulated weighted direction. -/
theorem weightedDir_of_adj_zero (c : Cov6 K)
    (hxx : c.yy * c.zz - c.yz * c.yz = 0) (hyy : c.xx * c.zz - c.xz * c.xz = 0)
    (hzz : c.xx * c.yy - c.xy * c.xy = 0) (hxy : c.xz * c.yz - c.xy * c.zz = 0)
    (hxz : c.xy * c.yz - c.xz * c.yy = 0) (hyz : c.xy * c.xz - c.yz * c.xx = 0) :
    weightedDir c = ⟨0, 0, 0⟩ := by
  simp [weightedDir, axisBlock, hxx, hyy, hzz, hxy, hxz, hyz, vtkMath.Dot, vtkMath.Add,
    vtkMath.MultiplyScalar]

/-- The coordinate sums of points that lie on the line `a + t * d`. -/
theorem sum_on_line (a d : Vec3 K) (l : List (Vec3 K))
    (h : ∀ p ∈ l, ∃ t : K, p = vtkMath.Add a (MultiplyScalar d t)) :
    ∃ τ : K, (l.map Vec3.x).sum = (l.length : K) * a.x + d.x * τ ∧
      (l.map Vec3.y).sum = (l.length : K) * a.y + d.y * τ ∧
      (l.map Vec3.z).sum = (l.length : K) * a.z + d.z * τ := by
  induction l with
  | nil => exact ⟨0, by simp⟩
  | cons p l ih =>
    obtain ⟨τ, hx, hy, hz⟩ := ih (fun q hq => h q (List.mem_cons_of_mem _ hq))
    obtain ⟨t, rfl⟩ := h p (List.mem_cons_self _ _)
    refine ⟨t + τ, ?_, ?_, ?_⟩
    · simp only [List.map_cons, List.sum_cons, hx, List.length_cons, Nat.cast_succ,
        vtkMath.Add, MultiplyScalar]
      ring
    · simp only [List.map_cons, List.sum_cons, hy, List.length_cons, Nat.cast_succ,
        vtkMath.Add, MultiplyScalar]
      ring
    · simp only [List.map_cons, List.sum_cons, hz, List.length_cons, Nat.cast_succ,
        vtkMath.Add, MultiplyScalar]
      ring

/-- Collinear points, taken relative to their mean, are all multiples of one
direction. -/
theorem collinear_centered (pts : List (Vec3 K)) (hne : pts ≠ []) (h : Collinear pts) :
    ∃ d : Vec3 K, ∀ p ∈ pts, ∃ s : K, Subtract p (centroid pts) = MultiplyScalar d s := by
  obtain ⟨a, d, hl⟩ := h
  obtain ⟨τ, hx, hy, hz⟩ := sum_on_line a d pts hl
  have hN : (pts.length : K) ≠ 0 := by
    have : pts.length ≠ 0 := fun h0 => hne (List.length_eq_zero.1 h0)
    exact_mod_cast this
  refine ⟨d, fun p hp => ?_⟩
  obtain ⟨t, rfl⟩ := hl p hp
  refine ⟨t - τ / (pts.length : K), ?_⟩
  simp only [centroid, hx, hy, hz, Subtract, vtkMath.Add, MultiplyScalar]
  ext <;> simp only <;> field_simp <;> ring

/-- The cross product of two multiples of one vector is zero. -/
theorem cross_parallel (d : Vec3 K) (s t : K) :
    cross (MultiplyScalar d s) (MultiplyScalar d t) = ⟨0, 0, 0⟩ := by
  simp only [cross, MultiplyScalar]
  ext <;> simp only <;> ring

/-- For collinear points the accumulated weighted direction is zero. -/
theorem weightedDir_collinear (pts : List (Vec3 K)) (hne : pts ≠ []) (h : Collinear pts) :
    weightedDir (covariance pts (centroid pts)) = ⟨0, 0, 0⟩ := by
  obtain ⟨d, hd⟩ := collinear_centered pts hne h
  have hz : ∀ f g : Vec3 K → K, f ⟨0, 0, 0⟩ = 0 →
      crossMoment f g pts (centroid pts) = 0 := by
    intro f g hf
    apply crossMoment_eq_zero
    intro p hp q hq
    obtain ⟨s, hs⟩ := hd p hp
    obtain ⟨t, ht⟩ := hd q hq
    rw [hs, ht, cross_parallel, hf, zero_mul]
  obtain ⟨h1, h2, h3, h4, h5, h6⟩ := adj_covariance pts (centroid pts)
  rw [hz _ _ rfl, mul_zero] at h1 h2 h3 h4 h5 h6
  exact weightedDir_of_adj_zero _ h1 h2 h3 h4 h5 h6

/-- Two vectors orthogonal to a unit vector `n` have a cross product along `n`. -/
theorem cross_plane (n r q : Vec3 K) (hn : Dot n n = 1) (hr : Dot n r = 0)
    (hq : Dot n q = 0) : cross r q = MultiplyScalar n (Dot n (cross r q)) := by
  simp only [vtkMath.Dot] at hn hr hq
  simp only [cross, vtkMath.Dot, MultiplyScalar]
  ext
  · simp only
    linear_combination (-(r.y * q.z - r.z * q.y)) * hn
      + (n.y * q.z - n.z * q.y) * hr - (n.y * r.z - n.z * r.y) * hq
  · simp only
    linear_combination (-(r.z * q.x - r.x * q.z)) * hn
      + (n.z * q.x - n.x * q.z) * hr - (n.z * r.x - n.x * r.z) * hq
  · simp only
    linear_combination (-(r.x * q.y - r.y * q.x)) * hn
      + (n.x * q.y - n.y * q.x) * hr - (n.x * r.y - n.y * r.x) * hq

/-- A common factor of all the terms of a sum over pairs can be taken out. -/
theorem crossMoment_factor (f g f' g' : Vec3 K → K) (c : K) (pts : List (Vec3 K))
    (o : Vec3 K)
    (h : ∀ p ∈ pts, ∀ q ∈ pts,
      f (cross (Subtract p o) (Subtract q o)) * g (cross (Subtract p o) (Subtract q o))
        = c * (f' (cross (Subtract p o) (Subtract q o))
                * g' (cross (Subtract p o) (Subtract q o)))) :
    crossMoment f g pts o = c * crossMoment f' g' pts o := by
  unfold crossMoment
  rw [← List.sum_map_mul_left]
  congr 1
  apply List.map_congr_left
  intro p hp
  rw [← List.sum_map_mul_left]
  congr 1
  apply List.map_congr_left
  intro q hq
  exact h p hp q hq

/-- For points in the plane through `o` with unit normal `n`, the sums of
products of cross-product coordinates are those of `n` times one common
factor. -/
theorem crossMoment_plane (n : Vec3 K) (pts : List (Vec3 K)) (o : Vec3 K)
    (hn : Dot n n = 1) (hp : ∀ p ∈ pts, Dot n (Subtract p o) = 0)
    (f g : Vec3 K → K) (hf : ∀ t : K, f (MultiplyScalar n t) = f n * t)
    (hg : ∀ t : K, g (MultiplyScalar n t) = g n * t) :
    crossMoment f g pts o = f n * g n * crossMoment (Dot n) (Dot n) pts o := by
  apply crossMoment_factor
  intro p hpp q hqq
  have h := cross_plane n _ _ hn (hp p hpp) (hp q hqq)
  rw [h, hf, hg, ← h]
  ring

/-- The sum over all pairs of a square is not negative. -/
theorem crossMoment_self_nonneg (f : Vec3 K → K) (pts : List (Vec3 K)) (o : Vec3 K) :
    0 ≤ crossMoment f f pts o := by
  unfold crossMoment
  apply List.sum_nonneg
  intro a ha
  obtain ⟨p, _, rfl⟩ := List.mem_map.1 ha
  apply List.sum_nonneg
  intro b hb
  obtain ⟨q, _, rfl⟩ := List.mem_map.1 hb
  exact mul_self_nonneg _

/-- The sum over all pairs of a square is positive once one term is. -/
theorem crossMoment_self_pos (f : Vec3 K → K) (pts : List (Vec3 K)) (o : Vec3 K)
    (p q : Vec3 K) (hp : p ∈ pts) (hq : q ∈ pts)
    (h : f (cross (Subtract p o) (Subtract q o)) ≠ 0) :
    0 < crossMoment f f pts o := by
  have hin : ∀ p' : Vec3 K, ∀ x ∈ pts.map (fun q' =>
      f (cross (Subtract p' o) (Subtract q' o)) * f (cross (Subtract p' o) (Subtract q' o))),
      0 ≤ x := by
    intro p' x hx
    obtain ⟨q', _, rfl⟩ := List.mem_map.1 hx
    exact mul_self_nonneg _
  have h1 : f (cross (Subtract p o) (Subtract q o)) * f (cross (Subtract p o) (Subtract q o))
      ≤ (pts.map (fun q' => f (cross (Subtract p o) (Subtract q' o))
          * f (cross (Subtract p o) (Subtract q' o)))).sum :=
    List.single_le_sum (hin p) _ (List.mem_map.2 ⟨q, hq, rfl⟩)
  have h2 : (pts.map (fun q' => f (cross (Subtract p o) (Subtract q' o))
          * f (cross (Subtract p o) (Subtract q' o)))).sum ≤ crossMoment f f pts o := by
    unfold crossMoment
    refine List.single_le_sum ?_ _ (List.mem_map.2 ⟨p, hp, rfl⟩)
    intro a ha
    obtain ⟨p', _, rfl⟩ := List.mem_map.1 ha
    exact List.sum_nonneg (hin p')
  have h3 : 0 < f (cross (Subtract p o) (Subtract q o))
      * f (cross (Subtract p o) (Subtract q o)) := mul_self_pos.2 h
  linarith

/-- A non-zero vector has a positive dot product with itself. -/
theorem dot_self_pos (d : Vec3 K) (h : d ≠ ⟨0, 0, 0⟩) : 0 < Dot d d := by
  by_contra hle
  have hx := mul_self_nonneg d.x
  have hy := mul_self_nonneg d.y
  have hz := mul_self_nonneg d.z
  simp only [vtkMath.Dot, not_lt] at hle
  apply h
  ext
  · exact mul_self_eq_zero.1 (by linarith)
  · exact mul_self_eq_zero.1 (by linarith)
  · exact mul_self_eq_zero.1 (by linarith)

/-- Points that are not collinear contain two whose offsets from `o` have a
non-zero cross product. -/
theorem exists_cross_ne_zero (pts : List (Vec3 K)) (o : Vec3 K) (h : ¬ Collinear pts) :
    ∃ p ∈ pts, ∃ q ∈ pts, cross (Subtract p o) (Subtract q o) ≠ ⟨0, 0, 0⟩ := by
  by_contra hno
  push_neg at hno
  apply h
  by_cases hall : ∀ p ∈ pts, p = o
  · refine ⟨o, ⟨0, 0, 0⟩, fun p hp => ⟨0, ?_⟩⟩
    rw [hall p hp]
    ext <;> simp [vtkMath.Add, vtkMath.MultiplyScalar]
  · push_neg at hall
    obtain ⟨p0, hp0, hne⟩ := hall
    have hd : Subtract p0 o ≠ ⟨0, 0, 0⟩ := by
      intro h0
      apply hne
      have hx := congrArg Vec3.x h0
      have hy := congrArg Vec3.y h0
      have hz := congrArg Vec3.z h0
      simp only [Subtract] at hx hy hz
      ext
      · linarith
      · linarith
      · linarith
    have hpos := dot_self_pos _ hd
    refine ⟨o, Subtract p0 o, fun p hp => ⟨Dot (Subtract p o) (Subtract p0 o)
      / Dot (Subtract p0 o) (Subtract p0 o), ?_⟩⟩
    have hc := hno p hp p0 hp0
    have hx := congrArg Vec3.x hc
    have hy := congrArg Vec3.y hc
    have hz := congrArg Vec3.z hc
    have hne' := ne_of_gt hpos
    simp only [cross, Subtract] at hx hy hz
    simp only [vtkMath.Dot, Subtract] at hne' ⊢
    simp only [vtkMath.Add, MultiplyScalar]
    ext
    · simp only
      field_simp
      linear_combination (p0.y - o.y) * hz - (p0.z - o.z) * hy
    · simp only
      field_simp
      linear_combination (-(p0.x - o.x)) * hz + (p0.z - o.z) * hx
    · simp only
      field_simp
      linear_combination (p0.x - o.x) * hy - (p0.y - o.y) * hx

end Adjugate

section RankOne

variable {K : Type} [LinearOrderedField K]

/-- The absolute value is additive on two numbers whose product is not negative. -/
theorem abs_add_of_mul_nonneg (a b : K) (h : 0 ≤ a * b) : |a + b| = |a| + |b| :=
  (abs_add_eq_add_abs_iff a b).2 (mul_nonneg_iff.1 h)

/-- One block of the direction extraction when the accumulator and the
candidate both lie along the unit vector `n`: the accumulator stays along `n`
and the absolute value of its coefficient grows by `μ^3 |a|^5`. -/
theorem axisBlock_line (n : Vec3 K) (hn : Dot n n = 1) (μ : K) (hμ : 0 ≤ μ) (k a det : K)
    (dir : Vec3 K) (hdet : det = μ * (a * a)) (hdir : dir = MultiplyScalar n (μ * a)) :
    ∃ k' : K, axisBlock (MultiplyScalar n k) det dir = MultiplyScalar n k' ∧
      |k'| = |k| + μ ^ 3 * |a| ^ 5 := by
  subst hdet hdir
  have hdot : Dot (MultiplyScalar n k) (MultiplyScalar n (μ * a)) = k * (μ * a) := by
    simp only [vtkMath.Dot, MultiplyScalar] at hn ⊢
    linear_combination (k * (μ * a)) * hn
  have habs : |μ ^ 3 * a ^ 5| = μ ^ 3 * |a| ^ 5 := by
    rw [abs_mul, abs_pow, abs_pow, abs_of_nonneg hμ]
  have hsq : 0 ≤ μ ^ 2 * a ^ 4 := by positivity
  by_cases hlt : k * (μ * a) < 0
  · refine ⟨k + -(μ ^ 3 * a ^ 5), ?_, ?_⟩
    · simp only [axisBlock, hdot, hlt, if_true]
      simp only [vtkMath.Add, MultiplyScalar]
      ext <;> simp only <;> ring
    · rw [abs_add_of_mul_nonneg, abs_neg, habs]
      have h1 : k * -(μ ^ 3 * a ^ 5) = (-(k * (μ * a))) * (μ ^ 2 * a ^ 4) := by ring
      rw [h1]
      exact mul_nonneg (by linarith) hsq
  · refine ⟨k + μ ^ 3 * a ^ 5, ?_, ?_⟩
    · simp only [axisBlock, hdot, hlt, if_false]
      simp only [vtkMath.Add, MultiplyScalar]
      ext <;> simp only <;> ring
    · rw [abs_add_of_mul_nonneg, habs]
      have h1 : k * (μ ^ 3 * a ^ 5) = (k * (μ * a)) * (μ ^ 2 * a ^ 4) := by ring
      rw [h1]
      exact mul_nonneg (not_lt.1 hlt) hsq

/-- When the cofactor matrix is `μ n nᵀ` for a unit vector `n` and `μ ≥ 0`,
the accumulated weighted direction is a multiple `κ n` of `n` with
`|κ| = μ^3 (|n_x|^5 + |n_y|^5 + |n_z|^5)`. -/
theorem weightedDir_rank_one (c : Cov6 K) (n : Vec3 K) (hn : Dot n n = 1) (μ : K)
    (hμ : 0 ≤ μ)
    (hxx : c.yy * c.zz - c.yz * c.yz = μ * (n.x * n.x))
    (hyy : c.xx * c.zz - c.xz * c.xz = μ * (n.y * n.y))
    (hzz : c.xx * c.yy - c.xy * c.xy = μ * (n.z * n.z))
    (hxy : c.xz * c.yz - c.xy * c.zz = μ * (n.x * n.y))
    (hxz : c.xy * c.yz - c.xz * c.yy = μ * (n.x * n.z))
    (hyz : c.xy * c.xz - c.yz * c.xx = μ * (n.y * n.z)) :
    ∃ κ : K, weightedDir c = MultiplyScalar n κ ∧
      |κ| = μ ^ 3 * (|n.x| ^ 5 + |n.y| ^ 5 + |n.z| ^ 5) := by
  have h0 : (⟨0, 0, 0⟩ : Vec3 K) = MultiplyScalar n 0 := by
    ext <;> simp [vtkMath.MultiplyScalar]
  obtain ⟨k1, e1, a1⟩ := axisBlock_line n hn μ hμ 0 n.x (c.yy * c.zz - c.yz * c.yz)
    ⟨c.yy * c.zz - c.yz * c.yz, c.xz * c.yz - c.xy * c.zz, c.xy * c.yz - c.xz * c.yy⟩ hxx
    (by rw [hxx, hxy, hxz]; simp only [MultiplyScalar]; ext <;> simp only <;> ring)
  obtain ⟨k2, e2, a2⟩ := axisBlock_line n hn μ hμ k1 n.y (c.xx * c.zz - c.xz * c.xz)
    ⟨c.xz * c.yz - c.xy * c.zz, c.xx * c.zz - c.xz * c.xz, c.xy * c.xz - c.yz * c.xx⟩ hyy
    (by rw [hyy, hxy, hyz]; simp only [MultiplyScalar]; ext <;> simp only <;> ring)
  obtain ⟨k3, e3, a3⟩ := axisBlock_line n hn μ hμ k2 n.z (c.xx * c.yy - c.xy * c.xy)
    ⟨c.xy * c.yz - c.xz * c.yy, c.xy * c.xz - c.yz * c.xx, c.xx * c.yy - c.xy * c.xy⟩ hzz
    (by rw [hzz, hxz, hyz]; simp only [MultiplyScalar]; ext <;> simp only <;> ring)
  refine ⟨k3, ?_, ?_⟩
  · simp only [weightedDir]
    rw [h0, e1, e2, e3]
  · rw [a3, a2, a1, abs_zero]
    ring

/-- A unit vector has a non-zero coordinate, so the sum of the fifth powers of
the absolute values of its coordinates is positive. -/
theorem abs_pow_sum_pos (n : Vec3 K) (hn : Dot n n = 1) :
    0 < |n.x| ^ 5 + |n.y| ^ 5 + |n.z| ^ 5 := by
  have hx : 0 ≤ |n.x| ^ 5 := by positivity
  have hy : 0 ≤ |n.y| ^ 5 := by positivity
  have hz : 0 ≤ |n.z| ^ 5 := by positivity
  by_contra hle
  have ex : |n.x| ^ 5 = 0 := by linarith
  have ey : |n.y| ^ 5 = 0 := by linarith
  have ez : |n.z| ^ 5 = 0 := by linarith
  have fx : n.x = 0 := abs_eq_zero.1 (pow_eq_zero_iff (by norm_num) |>.1 ex)
  have fy : n.y = 0 := abs_eq_zero.1 (pow_eq_zero_iff (by norm_num) |>.1 ey)
  have fz : n.z = 0 := abs_eq_zero.1 (pow_eq_zero_iff (by norm_num) |>.1 ez)
  simp [vtkMath.Dot, fx, fy, fz] at hn

/-- For points in one plane through their mean, with unit normal `n`, the
accumulated weighted direction is a multiple `κ n` of the normal, and `κ` is
not zero when the points are not collinear. -/
theorem weightedDir_plane (n : Vec3 K) (pts : List (Vec3 K)) (hn : Dot n n = 1)
    (hp : ∀ p ∈ pts, Dot n (Subtract p (centroid pts)) = 0) :
    ∃ κ : K, weightedDir (covariance pts (centroid pts)) = MultiplyScalar n κ ∧
      (pts ≠ [] → ¬ Collinear pts → κ ≠ 0) := by
  obtain ⟨h1, h2, h3, h4, h5, h6⟩ := adj_covariance pts (centroid pts)
  have hθ := crossMoment_self_nonneg (Dot n) pts (centroid pts)
  have hν : 0 ≤ (1 / (pts.length : K)) ^ 2 / 2 := by positivity
  have key : ∀ f g : Vec3 K → K, (∀ t : K, f (MultiplyScalar n t) = f n * t) →
      (∀ t : K, g (MultiplyScalar n t) = g n * t) →
      (1 / (pts.length : K)) ^ 2 / 2 * crossMoment f g pts (centroid pts)
        = (1 / (pts.length : K)) ^ 2 / 2 * crossMoment (Dot n) (Dot n) pts (centroid pts)
          * (f n * g n) := by
    intro f g hf hg
    rw [crossMoment_plane n pts (centroid pts) hn hp f g hf hg]
    ring
  rw [key Vec3.x Vec3.x (fun _ => rfl) (fun _ => rfl)] at h1
  rw [key Vec3.y Vec3.y (fun _ => rfl) (fun _ => rfl)] at h2
  rw [key Vec3.z Vec3.z (fun _ => rfl) (fun _ => rfl)] at h3
  rw [key Vec3.x Vec3.y (fun _ => rfl) (fun _ => rfl)] at h4
  rw [key Vec3.x Vec3.z (fun _ => rfl) (fun _ => rfl)] at h5
  rw [key Vec3.y Vec3.z (fun _ => rfl) (fun _ => rfl)] at h6
  obtain ⟨κ, hw, habs⟩ := weightedDir_rank_one (covariance pts (centroid pts)) n hn
    ((1 / (pts.length : K)) ^ 2 / 2 * crossMoment (Dot n) (Dot n) pts (centroid pts))
    (mul_nonneg hν hθ) h1 h2 h3 h4 h5 h6
  refine ⟨κ, hw, fun hne hnc hκ => ?_⟩
  obtain ⟨p, hpm, q, hqm, hc⟩ := exists_cross_ne_zero pts (centroid pts) hnc
  have hτ : Dot n (cross (Subtract p (centroid pts)) (Subtract q (centroid pts))) ≠ 0 := by
    intro h0
    apply hc
    rw [cross_plane n _ _ hn (hp p hpm) (hp q hqm), h0]
    ext <;> simp [vtkMath.MultiplyScalar]
  have hpos := crossMoment_self_pos (Dot n) pts (centroid pts) p q hpm hqm hτ
  have hN : 0 < (pts.length : K) := by
    have : 0 < pts.length := List.length_pos.2 hne
    exact_mod_cast this
  have hν' : 0 < (1 / (pts.length : K)) ^ 2 / 2 := by positivity
  have hμ : 0 < (1 / (pts.length : K)) ^ 2 / 2
      * crossMoment (Dot n) (Dot n) pts (centroid pts) := mul_pos hν' hpos
  have hP := abs_pow_sum_pos n hn
  rw [hκ, abs_zero] at habs
  have : 0 < ((1 / (pts.length : K)) ^ 2 / 2
      * crossMoment (Dot n) (Dot n) pts (centroid pts)) ^ 3
      * (|n.x| ^ 5 + |n.y| ^ 5 + |n.z| ^ 5) := mul_pos (pow_pos hμ 3) hP
  linarith

/-- A non-zero multiple `κ n` divided by `|κ|` is `n` or `-n`. -/
theorem normal_of_line (n : Vec3 K) (κ : K) (hκ : κ ≠ 0) :
    (⟨(MultiplyScalar n κ).x / |κ|, (MultiplyScalar n κ).y / |κ|,
        (MultiplyScalar n κ).z / |κ|⟩ : Vec3 K) = n ∨
    (⟨(MultiplyScalar n κ).x / |κ|, (MultiplyScalar n κ).y / |κ|,
        (MultiplyScalar n κ).z / |κ|⟩ : Vec3 K) = ⟨-n.x, -n.y, -n.z⟩ := by
  rcases lt_or_gt_of_ne hκ with hneg | hpos
  · right
    rw [abs_of_neg hneg]
    have : -κ ≠ 0 := neg_ne_zero.2 hκ
    simp only [MultiplyScalar]
    ext <;> simp only <;> field_simp
  · left
    rw [abs_of_pos hpos]
    simp only [MultiplyScalar]
    ext <;> simp only <;> field_simp

end RankOne

section Unfold

variable {K : Type} [LinearOrderedField K]

/-- Fewer than three points: the early return with the default outputs. -/
theorem fit_of_lt (env : MathEnv K) (cuts₁ cuts₂ : List Nat) (pts : List (Vec3 K))
    (origin normal : Vec3 K) (h : pts.length < 3) :
    ComputeBestFittingPlane env cuts₁ cuts₂ pts origin normal
      = ⟨false, ⟨0, 0, 0⟩, ⟨0, 0, 1⟩⟩ := by
  simp [ComputeBestFittingPlane, h]

/-- At least three points and a length of the weighted direction that is zero
or not finite: the late `return false`. -/
theorem fit_of_faulty (env : MathEnv K) (cuts₁ cuts₂ : List Nat) (pts : List (Vec3 K))
    (origin normal : Vec3 K) (h : 3 ≤ pts.length)
    (hn : env.isFinite (Norm env (weightedDir (covariance pts (centroid pts)))) = false ∨
      Norm env (weightedDir (covariance pts (centroid pts))) = 0) :
    ComputeBestFittingPlane env cuts₁ cuts₂ pts origin normal
      = ⟨false, centroid pts, ⟨0, 0, 1⟩⟩ := by
  have h3 : ¬ pts.length < 3 := by omega
  rcases hn with hn | hn
  · simp [ComputeBestFittingPlane, h3, run_eq_centroid, run_eq_covariance, Normalize, hn]
    split <;> simp_all
  · simp [ComputeBestFittingPlane, h3, run_eq_centroid, run_eq_covariance, Normalize, hn]

/-- At least three points and a finite non-zero length of the weighted
direction: the call succeeds and the normal is the direction over its length. -/
theorem fit_of_good (env : MathEnv K) (cuts₁ cuts₂ : List Nat) (pts : List (Vec3 K))
    (origin normal : Vec3 K) (h : 3 ≤ pts.length)
    (hf : env.isFinite (Norm env (weightedDir (covariance pts (centroid pts)))) = true)
    (hn : Norm env (weightedDir (covariance pts (centroid pts))) ≠ 0) :
    ComputeBestFittingPlane env cuts₁ cuts₂ pts origin normal
      = ⟨true, centroid pts,
          ⟨(weightedDir (covariance pts (centroid pts))).x
              / Norm env (weightedDir (covariance pts (centroid pts))),
           (weightedDir (covariance pts (centroid pts))).y
              / Norm env (weightedDir (covariance pts (centroid pts))),
           (weightedDir (covariance pts (centroid pts))).z
              / Norm env (weightedDir (covariance pts (centroid pts)))⟩⟩ := by
  have h3 : ¬ pts.length < 3 := by omega
  simp [ComputeBestFittingPlane, h3, run_eq_centroid, run_eq_covariance, Normalize, hn, hf]

/-- A successful call went through to the last `return`: there are at least
three points and the length of the weighted direction is finite and not zero. -/
theorem fit_success (env : MathEnv K) (cuts₁ cuts₂ : List Nat) (pts : List (Vec3 K))
    (origin normal : Vec3 K)
    (h : (ComputeBestFittingPlane env cuts₁ cuts₂ pts origin normal).success = true) :
    3 ≤ pts.length ∧
    env.isFinite (Norm env (weightedDir (covariance pts (centroid pts)))) = true ∧
    Norm env (weightedDir (covariance pts (centroid pts))) ≠ 0 := by
  by_cases h3 : pts.length < 3
  · rw [fit_of_lt env cuts₁ cuts₂ pts origin normal h3] at h
    cases h
  · have h3' : 3 ≤ pts.length := by omega
    refine ⟨h3', ?_, ?_⟩
    · by_contra hf
      rw [fit_of_faulty env cuts₁ cuts₂ pts origin normal h3'
        (Or.inl (by simpa using hf))] at h
      cases h
    · intro hn
      rw [fit_of_faulty env cuts₁ cuts₂ pts origin normal h3' (Or.inr hn)] at h
      cases h

/-- With at least three points the origin left by the call is the mean. -/
theorem fit_origin (env : MathEnv K) (cuts₁ cuts₂ : List Nat)
    (pts : List (Vec3 K)) (origin normal : Vec3 K) (h : 3 ≤ pts.length) :
    (ComputeBestFittingPlane env cuts₁ cuts₂ pts origin normal).origin = centroid pts := by
  have h3 : ¬ pts.length < 3 := by omega
  simp only [ComputeBestFittingPlane, h3, if_false, run_eq_centroid]
  split <;> rfl

end Unfold

section ExactArithmetic

variable {K : Type} [LinearOrderedField K]

/-- The real square root gives an environment of exact arithmetic. -/
theorem exactEnv_real : (exactEnv Real.sqrt).Exact :=
  ⟨fun a _ => Real.sqrt_nonneg a, fun _ ha => Real.mul_self_sqrt ha, fun _ => rfl⟩

/-- In exact arithmetic the square root of a square is the absolute value. -/
theorem sqrt_mul_self_eq_abs {env : MathEnv K} (hex : env.Exact) (a : K) :
    env.sqrt (a * a) = |a| := by
  have h0 : 0 ≤ a * a := mul_self_nonneg a
  have h1 := hex.sqrt_nonneg _ h0
  have h2 := hex.sqrt_mul_self _ h0
  have h3 : |env.sqrt (a * a)| = |a| := abs_eq_abs.2 (mul_self_eq_mul_self_iff.1 h2)
  rwa [abs_of_nonneg h1] at h3

/-- In exact arithmetic the square root of zero is zero. -/
theorem sqrt_zero_of_exact {env : MathEnv K} (hex : env.Exact) : env.sqrt 0 = 0 := by
  have h := sqrt_mul_self_eq_abs hex 0
  simpa using h

/-- In exact arithmetic the squared length of a vector is its dot product
with itself. -/
theorem Norm_mul_self {env : MathEnv K} (hex : env.Exact) (v : Vec3 K) :
    Norm env v * Norm env v = Dot v v := by
  have h0 : 0 ≤ v.x * v.x + v.y * v.y + v.z * v.z := by
    have := mul_self_nonneg v.x
    have := mul_self_nonneg v.y
    have := mul_self_nonneg v.z
    linarith
  simpa [vtkMath.Norm, vtkMath.Dot] using hex.sqrt_mul_self _ h0

/-- In exact arithmetic a vector divided by its non-zero length has dot
product 1 with itself. -/
theorem normalized_dot {env : MathEnv K} (hex : env.Exact) (w : Vec3 K)
    (hn : Norm env w ≠ 0) :
    Dot (⟨w.x / Norm env w, w.y / Norm env w, w.z / Norm env w⟩ : Vec3 K)
      ⟨w.x / Norm env w, w.y / Norm env w, w.z / Norm env w⟩ = 1 := by
  have hsq := Norm_mul_self hex w
  simp only [vtkMath.Dot] at hsq ⊢
  field_simp
  linarith

/-- In exact arithmetic a vector whose dot product with itself is 1 has
length 1. -/
theorem Norm_of_dot {env : MathEnv K} (hex : env.Exact) (v : Vec3 K) (h : Dot v v = 1) :
    Norm env v = 1 := by
  have h1 := sqrt_mul_self_eq_abs hex (1 : K)
  simp only [vtkMath.Dot] at h
  simp only [vtkMath.Norm, h]
  simpa using h1

/-- In exact arithmetic the length of a multiple `κ n` of a unit vector is `|κ|`. -/
theorem Norm_line {env : MathEnv K} (hex : env.Exact) (n : Vec3 K) (hn : Dot n n = 1)
    (κ : K) : Norm env (MultiplyScalar n κ) = |κ| := by
  have h := sqrt_mul_self_eq_abs hex κ
  have e : (n.x * κ) * (n.x * κ) + (n.y * κ) * (n.y * κ) + (n.z * κ) * (n.z * κ)
      = κ * κ := by
    simp only [vtkMath.Dot] at hn
    linear_combination (κ * κ) * hn
  simp only [vtkMath.Norm, MultiplyScalar, e, h]

/-- The fit of points in one plane through their mean, with unit normal `n`,
in exact arithmetic: when the length of the weighted direction is not zero the
call succeeds with the mean as origin and `n` or `-n` as normal. -/
theorem fit_plane {env : MathEnv K} (hex : env.Exact) (cuts₁ cuts₂ : List Nat)
    (pts : List (Vec3 K)) (origin normal n : Vec3 K) (h3 : 3 ≤ pts.length)
    (hn : Dot n n = 1) (hp : ∀ p ∈ pts, Dot n (Subtract p (centroid pts)) = 0)
    (hnz : Norm env (weightedDir (covariance pts (centroid pts))) ≠ 0) :
    ComputeBestFittingPlane env cuts₁ cuts₂ pts origin normal = ⟨true, centroid pts, n⟩ ∨
    ComputeBestFittingPlane env cuts₁ cuts₂ pts origin normal
      = ⟨true, centroid pts, ⟨-n.x, -n.y, -n.z⟩⟩ := by
  obtain ⟨κ, hw, _⟩ := weightedDir_plane n pts hn hp
  rw [fit_of_good env cuts₁ cuts₂ pts origin normal h3 (hex.finite _) hnz]
  rw [hw, Norm_line hex n hn κ] at hnz ⊢
  rcases normal_of_line n κ (abs_ne_zero.1 hnz) with h | h
  · left; rw [h]
  · right; rw [h]

/-- The corners of the unit square are not collinear. -/
theorem unitSquare_not_collinear : ¬ Collinear (unitSquare : List (Vec3 K)) := by
  rintro ⟨a, d, h⟩
  obtain ⟨t0, h0⟩ := h ⟨0, 0, 0⟩ (by simp [unitSquare])
  obtain ⟨t1, h1⟩ := h ⟨1, 0, 0⟩ (by simp [unitSquare])
  obtain ⟨t2, h2⟩ := h ⟨1, 1, 0⟩ (by simp [unitSquare])
  have x0 := congrArg Vec3.x h0
  have x1 := congrArg Vec3.x h1
  have y1 := congrArg Vec3.y h1
  have x2 := congrArg Vec3.x h2
  have y2 := congrArg Vec3.y h2
  simp only [vtkMath.Add, MultiplyScalar] at x0 x1 y1 x2 y2
  have e1 : d.x * (t1 - t0) = 1 := by linear_combination x0 - x1
  have e2 : d.x * (t2 - t1) = 0 := by linear_combination x1 - x2
  have e3 : d.y * (t2 - t1) = 1 := by linear_combination y1 - y2
  rcases mul_eq_zero.1 e2 with hd | ht
  · rw [hd, zero_mul] at e1
    exact zero_ne_one e1
  · rw [ht, mul_zero] at e3
    exact zero_ne_one e3

/-- The corners of the unit square lie in the plane through their mean with
normal `(0, 0, 1)`. -/
theorem unitSquare_plane : ∀ p ∈ (unitSquare : List (Vec3 K)),
    Dot (⟨0, 0, 1⟩ : Vec3 K) (Subtract p (centroid unitSquare)) = 0 := by
  intro p hp
  simp only [unitSquare, List.mem_cons, List.mem_singleton, List.not_mem_nil,
    or_false] at hp
  rcases hp with rfl | rfl | rfl | rfl <;>
    simp [vtkMath.Dot, vtkMath.Subtract, centroid, unitSquare]

/-- The sum of squared distances is not negative. -/
theorem sumSqDist_nonneg (pts : List (Vec3 K)) (o u : Vec3 K) : 0 ≤ sumSqDist pts o u := by
  unfold sumSqDist
  apply List.sum_nonneg
  intro a ha
  obtain ⟨p, _, rfl⟩ := List.mem_map.1 ha
  exact mul_self_nonneg _

/-- The sum of squared distances to a plane that holds all the points is zero. -/
theorem sumSqDist_eq_zero (pts : List (Vec3 K)) (o u : Vec3 K)
    (h : ∀ p ∈ pts, Dot u (Subtract p o) = 0) : sumSqDist pts o u = 0 := by
  unfold sumSqDist
  apply List.sum_eq_zero
  intro a ha
  obtain ⟨p, hp, rfl⟩ := List.mem_map.1 ha
  rw [h p hp, mul_zero]

/-- The accumulated weighted direction of the six points of `octahedron`. -/
theorem weightedDir_octahedron :
    centroid (octahedron : List (Vec3 K)) = ⟨0, 0, 0⟩ ∧
    weightedDir (covariance (octahedron : List (Vec3 K)) (centroid octahedron))
      = ⟨64 / 729, 64 / 729, 1 / 729⟩ := by
  have hc : centroid (octahedron : List (Vec3 K)) = ⟨0, 0, 0⟩ := by
    simp only [centroid, octahedron, List.map_cons, List.map_nil, List.sum_cons,
      List.sum_nil, List.length_cons, List.length_nil]
    ext <;> norm_num
  have hcov : covariance (octahedron : List (Vec3 K)) ⟨0, 0, 0⟩
      = ⟨1 / 3, 0, 0, 1 / 3, 0, 4 / 3⟩ := by
    simp only [covariance, moment, octahedron, List.map_cons, List.map_nil, List.sum_cons,
      List.sum_nil, List.length_cons, List.length_nil, vtkMath.Subtract]
    norm_num
  refine ⟨hc, ?_⟩
  rw [hc, hcov]
  simp only [weightedDir, axisBlock, vtkMath.Dot, vtkMath.Add, vtkMath.MultiplyScalar]
  norm_num

/-- The fit of the six points of `octahedron` in exact arithmetic: the call
succeeds, and the normal is the weighted direction `(64, 64, 1) / 729` over its
length. -/
theorem fit_octahedron {env : MathEnv K} (hex : env.Exact) (cuts₁ cuts₂ : List Nat)
    (origin normal : Vec3 K) :
    Norm env (⟨64 / 729, 64 / 729, 1 / 729⟩ : Vec3 K) ≠ 0 ∧
    ComputeBestFittingPlane env cuts₁ cuts₂ octahedron origin normal
      = ⟨true, ⟨0, 0, 0⟩,
          ⟨(64 / 729) / Norm env (⟨64 / 729, 64 / 729, 1 / 729⟩ : Vec3 K),
           (64 / 729) / Norm env (⟨64 / 729, 64 / 729, 1 / 729⟩ : Vec3 K),
           (1 / 729) / Norm env (⟨64 / 729, 64 / 729, 1 / 729⟩ : Vec3 K)⟩⟩ := by
  obtain ⟨hc, hw⟩ := weightedDir_octahedron (K := K)
  have hsq := Norm_mul_self hex (⟨64 / 729, 64 / 729, 1 / 729⟩ : Vec3 K)
  have hnz : Norm env (⟨64 / 729, 64 / 729, 1 / 729⟩ : Vec3 K) ≠ 0 := by
    intro h0
    rw [h0] at hsq
    norm_num [vtkMath.Dot] at hsq
  have h3 : 3 ≤ (octahedron : List (Vec3 K)).length := by simp [octahedron]
  refine ⟨hnz, ?_⟩
  rw [fit_of_good env cuts₁ cuts₂ octahedron origin normal h3 (hex.finite _)
    (by rw [hw]; exact hnz), hw, hc]

/-- The fit of the unit-square corners in exact arithmetic. -/
theorem fit_unitSquare {env : MathEnv K} (hex : env.Exact) (cuts₁ cuts₂ : List Nat)
    (origin normal : Vec3 K) :
    ComputeBestFittingPlane env cuts₁ cuts₂ unitSquare origin normal
      = ⟨true, ⟨1 / 2, 1 / 2, 0⟩, ⟨0, 0, 1⟩⟩ := by
  have hc : centroid (unitSquare : List (Vec3 K)) = ⟨1 / 2, 1 / 2, 0⟩ := by
    simp only [centroid, unitSquare, List.map_cons, List.map_nil, List.sum_cons,
      List.sum_nil, List.length_cons, List.length_nil]
    ext <;> norm_num
  have hcov : covariance (unitSquare : List (Vec3 K)) ⟨1 / 2, 1 / 2, 0⟩
      = ⟨1 / 4, 0, 0, 1 / 4, 0, 0⟩ := by
    simp only [covariance, moment, unitSquare, List.map_cons, List.map_nil, List.sum_cons,
      List.sum_nil, List.length_cons, List.length_nil, vtkMath.Subtract]
    norm_num
  have hw : weightedDir (covariance (unitSquare : List (Vec3 K)) (centroid unitSquare))
      = ⟨0, 0, 1 / 4096⟩ := by
    rw [hc, hcov]
    simp only [weightedDir, axisBlock, vtkMath.Dot, vtkMath.Add, vtkMath.MultiplyScalar]
    norm_num
  have hn : Norm env (weightedDir (covariance (unitSquare : List (Vec3 K))
      (centroid unitSquare))) = 1 / 4096 := by
    rw [hw]
    have h := sqrt_mul_self_eq_abs hex (1 / 4096 : K)
    rw [abs_of_pos (by norm_num)] at h
    simpa [vtkMath.Norm] using h
  have h3 : 3 ≤ (unitSquare : List (Vec3 K)).length := by simp [unitSquare]
  rw [fit_of_good env cuts₁ cuts₂ unitSquare origin normal h3 (hex.finite _)
    (by rw [hn]; norm_num), hn, hw, hc]
  norm_num

end ExactArithmetic

section Claims

variable {K : Type} [LinearOrderedField K]

/-- C3: for every point set with fewer than 3 points, `ComputeBestFittingPlane`
returns false and writes origin `(0,0,0)` and normal `(0,0,1)`, whatever the
output arrays `origin` and `normal` held before the call. -/
theorem C3_fewer_than_three (env : MathEnv K) (cuts₁ cuts₂ : List Nat)
    (pts : List (Vec3 K)) (origin normal : Vec3 K) (h : pts.length < 3) :
    ComputeBestFittingPlane env cuts₁ cuts₂ pts origin normal
      = ⟨false, ⟨0, 0, 0⟩, ⟨0, 0, 1⟩⟩ :=
  fit_of_lt env cuts₁ cuts₂ pts origin normal h

/-- C3 at two points, with output arrays that held other values. -/
theorem C3_fewer_than_three_witness :
    ([⟨1, 2, 3⟩, ⟨4, 5, 6⟩] : List (Vec3 ℝ)).length < 3 ∧
    ComputeBestFittingPlane (exactEnv Real.sqrt) [] [] [⟨1, 2, 3⟩, ⟨4, 5, 6⟩]
        ⟨7, 8, 9⟩ ⟨5, 5, 5⟩
      = ⟨false, ⟨0, 0, 0⟩, ⟨0, 0, 1⟩⟩ :=
  ⟨by decide, C3_fewer_than_three _ _ _ _ _ _ (by decide)⟩

/-- C1: in exact arithmetic, for every point set of at least 3 points that are
not all collinear and that all lie on one plane with unit normal `n` through
their centroid `c` (`n.(p - c) = 0` for every point `p`),
`ComputeBestFittingPlane` returns true, writes origin `c` and writes a normal
equal to `n` or `-n`. -/
theorem C1_coplanar_fit (env : MathEnv K) (hex : env.Exact) (cuts₁ cuts₂ : List Nat)
    (pts : List (Vec3 K)) (origin normal n : Vec3 K) (h3 : 3 ≤ pts.length)
    (hnc : ¬ Collinear pts) (hn : Dot n n = 1)
    (hp : ∀ p ∈ pts, Dot n (Subtract p (centroid pts)) = 0) :
    (ComputeBestFittingPlane env cuts₁ cuts₂ pts origin normal).success = true ∧
    (ComputeBestFittingPlane env cuts₁ cuts₂ pts origin normal).origin = centroid pts ∧
    ((ComputeBestFittingPlane env cuts₁ cuts₂ pts origin normal).normal = n ∨
     (ComputeBestFittingPlane env cuts₁ cuts₂ pts origin normal).normal
        = ⟨-n.x, -n.y, -n.z⟩) := by
  have hne : pts ≠ [] := by
    intro h0
    rw [h0] at h3
    simp at h3
  obtain ⟨κ, hw, hκ⟩ := weightedDir_plane n pts hn hp
  have hnz : Norm env (weightedDir (covariance pts (centroid pts))) ≠ 0 := by
    rw [hw, Norm_line hex n hn κ]
    exact abs_ne_zero.2 (hκ hne hnc)
  rcases fit_plane hex cuts₁ cuts₂ pts origin normal n h3 hn hp hnz with h | h
  · rw [h]; exact ⟨rfl, rfl, Or.inl rfl⟩
  · rw [h]; exact ⟨rfl, rfl, Or.inr rfl⟩

/-- C1 at the corners of the unit square with `n = (0, 0, 1)`, in real
arithmetic. -/
theorem C1_coplanar_fit_witness :
    (ComputeBestFittingPlane (exactEnv Real.sqrt) [] [] (unitSquare : List (Vec3 ℝ))
        ⟨7, 8, 9⟩ ⟨5, 5, 5⟩).success = true ∧
    (ComputeBestFittingPlane (exactEnv Real.sqrt) [] [] (unitSquare : List (Vec3 ℝ))
        ⟨7, 8, 9⟩ ⟨5, 5, 5⟩).origin = centroid unitSquare ∧
    ((ComputeBestFittingPlane (exactEnv Real.sqrt) [] [] (unitSquare : List (Vec3 ℝ))
        ⟨7, 8, 9⟩ ⟨5, 5, 5⟩).normal = ⟨0, 0, 1⟩ ∨
     (ComputeBestFittingPlane (exactEnv Real.sqrt) [] [] (unitSquare : List (Vec3 ℝ))
        ⟨7, 8, 9⟩ ⟨5, 5, 5⟩).normal
        = ⟨-(⟨0, 0, 1⟩ : Vec3 ℝ).x, -(⟨0, 0, 1⟩ : Vec3 ℝ).y, -(⟨0, 0, 1⟩ : Vec3 ℝ).z⟩) :=
  C1_coplanar_fit (exactEnv Real.sqrt) exactEnv_real [] [] unitSquare ⟨7, 8, 9⟩ ⟨5, 5, 5⟩
    ⟨0, 0, 1⟩ (by decide) unitSquare_not_collinear (by simp [vtkMath.Dot]) unitSquare_plane

/-- C2, refuted as stated: on the six points `(±1,0,0)`, `(0,±1,0)`, `(0,0,±2)`
the call succeeds in real arithmetic, yet the unit vector `(1,0,0)` gives a
strictly smaller sum of squared orthogonal distances than the returned normal. -/
theorem C2_counterexample :
    (ComputeBestFittingPlane (exactEnv Real.sqrt) [] [] (octahedron : List (Vec3 ℝ))
        ⟨0, 0, 0⟩ ⟨0, 0, 1⟩).success = true ∧
    Dot (⟨1, 0, 0⟩ : Vec3 ℝ) ⟨1, 0, 0⟩ = 1 ∧
    sumSqDist (octahedron : List (Vec3 ℝ))
        (ComputeBestFittingPlane (exactEnv Real.sqrt) [] [] (octahedron : List (Vec3 ℝ))
          ⟨0, 0, 0⟩ ⟨0, 0, 1⟩).origin ⟨1, 0, 0⟩
      < sumSqDist (octahedron : List (Vec3 ℝ))
        (ComputeBestFittingPlane (exactEnv Real.sqrt) [] [] (octahedron : List (Vec3 ℝ))
          ⟨0, 0, 0⟩ ⟨0, 0, 1⟩).origin
        (ComputeBestFittingPlane (exactEnv Real.sqrt) [] [] (octahedron : List (Vec3 ℝ))
          ⟨0, 0, 0⟩ ⟨0, 0, 1⟩).normal := by
  obtain ⟨hnz, hfit⟩ := fit_octahedron exactEnv_real [] [] (⟨0, 0, 0⟩ : Vec3 ℝ) ⟨0, 0, 1⟩
  have hunit := normalized_dot exactEnv_real (⟨64 / 729, 64 / 729, 1 / 729⟩ : Vec3 ℝ) hnz
  rw [hfit]
  refine ⟨rfl, by simp [vtkMath.Dot], ?_⟩
  have hY : (1 / 729 : ℝ) / Norm (exactEnv Real.sqrt) (⟨64 / 729, 64 / 729, 1 / 729⟩ : Vec3 ℝ)
      ≠ 0 := div_ne_zero (by norm_num) hnz
  have hpos := mul_self_pos.2 hY
  simp only [vtkMath.Dot] at hunit
  simp only [sumSqDist, octahedron, List.map_cons, List.map_nil, List.sum_cons, List.sum_nil,
    vtkMath.Dot, vtkMath.Subtract]
  generalize (64 / 729 : ℝ) / Norm (exactEnv Real.sqrt)
    (⟨64 / 729, 64 / 729, 1 / 729⟩ : Vec3 ℝ) = X at hunit ⊢
  generalize (1 / 729 : ℝ) / Norm (exactEnv Real.sqrt)
    (⟨64 / 729, 64 / 729, 1 / 729⟩ : Vec3 ℝ) = Y at hunit hpos ⊢
  nlinarith [hunit, hpos]

/-- C2, amended: in exact arithmetic, for every point set on which
`ComputeBestFittingPlane` succeeds and whose points all lie on one plane
(with unit normal `n`, through their centroid), the returned normal minimizes,
over all unit vectors `u`, the sum of squared orthogonal distances of the
points to the plane through the returned origin with normal `u`. -/
theorem C2_coplanar_minimizer (env : MathEnv K) (hex : env.Exact) (cuts₁ cuts₂ : List Nat)
    (pts : List (Vec3 K)) (origin normal n : Vec3 K)
    (hn : Dot n n = 1) (hp : ∀ p ∈ pts, Dot n (Subtract p (centroid pts)) = 0)
    (hs : (ComputeBestFittingPlane env cuts₁ cuts₂ pts origin normal).success = true) :
    ∀ u : Vec3 K, Dot u u = 1 →
      sumSqDist pts (ComputeBestFittingPlane env cuts₁ cuts₂ pts origin normal).origin
          (ComputeBestFittingPlane env cuts₁ cuts₂ pts origin normal).normal
        ≤ sumSqDist pts (ComputeBestFittingPlane env cuts₁ cuts₂ pts origin normal).origin u := by
  intro u _
  obtain ⟨h3, _, hnz⟩ := fit_success env cuts₁ cuts₂ pts origin normal hs
  have hneg : ∀ p ∈ pts, Dot (⟨-n.x, -n.y, -n.z⟩ : Vec3 K) (Subtract p (centroid pts)) = 0 := by
    intro p hpp
    have h := hp p hpp
    simp only [vtkMath.Dot] at h ⊢
    linear_combination -h
  rcases fit_plane hex cuts₁ cuts₂ pts origin normal n h3 hn hp hnz with h | h
  · rw [h]
    simp only
    rw [sumSqDist_eq_zero pts _ n hp]
    exact sumSqDist_nonneg _ _ _
  · rw [h]
    simp only
    rw [sumSqDist_eq_zero pts _ _ hneg]
    exact sumSqDist_nonneg _ _ _

/-- C2 (amended) at the corners of the unit square, compared with the unit
vector `(1, 0, 0)`, in real arithmetic. -/
theorem C2_coplanar_minimizer_witness :
    sumSqDist unitSquare
        (ComputeBestFittingPlane (exactEnv Real.sqrt) [] [] unitSquare
          ⟨7, 8, 9⟩ ⟨5, 5, 5⟩).origin
        (ComputeBestFittingPlane (exactEnv Real.sqrt) [] [] unitSquare
          ⟨7, 8, 9⟩ ⟨5, 5, 5⟩).normal
      ≤ sumSqDist unitSquare
        (ComputeBestFittingPlane (exactEnv Real.sqrt) [] [] unitSquare
          ⟨7, 8, 9⟩ ⟨5, 5, 5⟩).origin (⟨1, 0, 0⟩ : Vec3 ℝ) :=
  C2_coplanar_minimizer (exactEnv Real.sqrt) exactEnv_real [] [] unitSquare
    ⟨7, 8, 9⟩ ⟨5, 5, 5⟩ ⟨0, 0, 1⟩ (by simp [vtkMath.Dot]) unitSquare_plane
    (by rw [fit_unitSquare exactEnv_real]) ⟨1, 0, 0⟩ (by simp [vtkMath.Dot])

/-- C4: in exact arithmetic, for every point set of at least 3 points that are
all identical or all collinear, `ComputeBestFittingPlane` returns false. -/
theorem C4_degenerate_fails (env : MathEnv K) (hex : env.Exact) (cuts₁ cuts₂ : List Nat)
    (pts : List (Vec3 K)) (origin normal : Vec3 K) (h : 3 ≤ pts.length)
    (hdeg : (∃ a : Vec3 K, ∀ p ∈ pts, p = a) ∨ Collinear pts) :
    (ComputeBestFittingPlane env cuts₁ cuts₂ pts origin normal).success = false := by
  have hcol : Collinear pts := by
    rcases hdeg with ⟨a, ha⟩ | hc
    · refine ⟨a, ⟨0, 0, 0⟩, fun p hp => ⟨0, ?_⟩⟩
      rw [ha p hp]
      ext <;> simp [vtkMath.Add, vtkMath.MultiplyScalar]
    · exact hc
  have hne : pts ≠ [] := by
    intro h0
    rw [h0] at h
    simp at h
  have hw := weightedDir_collinear pts hne hcol
  rw [fit_of_faulty env cuts₁ cuts₂ pts origin normal h
    (Or.inr (by rw [hw]; simpa [vtkMath.Norm] using sqrt_zero_of_exact hex))]

/-- C4 at three distinct points of one line, in real arithmetic. -/
theorem C4_degenerate_fails_witness :
    (ComputeBestFittingPlane (exactEnv Real.sqrt) [] [] (diagonalLine : List (Vec3 ℝ))
        ⟨7, 8, 9⟩ ⟨5, 5, 5⟩).success = false :=
  C4_degenerate_fails (exactEnv Real.sqrt) exactEnv_real [] [] diagonalLine
    ⟨7, 8, 9⟩ ⟨5, 5, 5⟩ (by decide)
    (Or.inr ⟨⟨0, 0, 0⟩, ⟨1, 1, 1⟩, by
      intro p hp
      simp only [diagonalLine, List.mem_cons, List.mem_singleton, List.not_mem_nil,
        or_false] at hp
      rcases hp with rfl | rfl | rfl
      · exact ⟨0, by ext <;> simp [vtkMath.Add, vtkMath.MultiplyScalar]⟩
      · exact ⟨1, by ext <;> simp [vtkMath.Add, vtkMath.MultiplyScalar]⟩
      · exact ⟨2, by ext <;> simp [vtkMath.Add, vtkMath.MultiplyScalar]⟩⟩)

/-- C5: in exact arithmetic, whenever `ComputeBestFittingPlane` returns true the
normal it writes has Euclidean length exactly 1 (its dot product with itself
is 1 and its `vtkMath::Norm` is 1). -/
theorem C5_unit_normal (env : MathEnv K) (hex : env.Exact) (cuts₁ cuts₂ : List Nat)
    (pts : List (Vec3 K)) (origin normal : Vec3 K)
    (h : (ComputeBestFittingPlane env cuts₁ cuts₂ pts origin normal).success = true) :
    Dot (ComputeBestFittingPlane env cuts₁ cuts₂ pts origin normal).normal
        (ComputeBestFittingPlane env cuts₁ cuts₂ pts origin normal).normal = 1 ∧
    Norm env (ComputeBestFittingPlane env cuts₁ cuts₂ pts origin normal).normal = 1 := by
  obtain ⟨h3, hf, hn⟩ := fit_success env cuts₁ cuts₂ pts origin normal h
  rw [fit_of_good env cuts₁ cuts₂ pts origin normal h3 hf hn]
  exact ⟨normalized_dot hex _ hn, Norm_of_dot hex _ (normalized_dot hex _ hn)⟩

/-- C5 at the corners of the unit square, in real arithmetic. -/
theorem C5_unit_normal_witness :
    Dot (ComputeBestFittingPlane (exactEnv Real.sqrt) [] [] (unitSquare : List (Vec3 ℝ))
          ⟨7, 8, 9⟩ ⟨5, 5, 5⟩).normal
        (ComputeBestFittingPlane (exactEnv Real.sqrt) [] [] (unitSquare : List (Vec3 ℝ))
          ⟨7, 8, 9⟩ ⟨5, 5, 5⟩).normal = 1 ∧
    Norm (exactEnv Real.sqrt)
        (ComputeBestFittingPlane (exactEnv Real.sqrt) [] [] (unitSquare : List (Vec3 ℝ))
          ⟨7, 8, 9⟩ ⟨5, 5, 5⟩).normal = 1 :=
  C5_unit_normal (exactEnv Real.sqrt) exactEnv_real [] [] unitSquare ⟨7, 8, 9⟩ ⟨5, 5, 5⟩
    (by rw [fit_unitSquare exactEnv_real])

/-- C9: for the point cloud made of the unit-square corners `(0,0,0)`, `(1,0,0)`,
`(1,1,0)`, `(0,1,0)`, in real arithmetic, `ComputeBestFittingPlane` returns true
with origin `(0.5, 0.5, 0)` and normal `(0,0,1)` (of the two signs the claim
allows, the code yields the positive one), for every chunking and every prior
content of the output arrays. -/
theorem C9_unit_square (cuts₁ cuts₂ : List Nat) (origin normal : Vec3 ℝ) :
    (ComputeBestFittingPlane (exactEnv Real.sqrt) cuts₁ cuts₂ unitSquare origin normal).success
      = true ∧
    (ComputeBestFittingPlane (exactEnv Real.sqrt) cuts₁ cuts₂ unitSquare origin normal).origin
      = ⟨1 / 2, 1 / 2, 0⟩ ∧
    ((ComputeBestFittingPlane (exactEnv Real.sqrt) cuts₁ cuts₂ unitSquare origin normal).normal
        = ⟨0, 0, 1⟩ ∨
     (ComputeBestFittingPlane (exactEnv Real.sqrt) cuts₁ cuts₂ unitSquare origin normal).normal
        = ⟨0, 0, -1⟩) := by
  rw [fit_unitSquare exactEnv_real]
  exact ⟨rfl, rfl, Or.inl rfl⟩

/-- C7: for every point set of at least 3 points whose accumulated weighted
direction is zero, or has a length that is not finite, `ComputeBestFittingPlane`
returns false, leaves normal `(0,0,1)` and leaves origin equal to the centroid
it computed, which is the mean of the points. The square root of 0 is taken to
be 0. -/
theorem C7_faulty_direction (env : MathEnv K) (cuts₁ cuts₂ : List Nat)
    (pts : List (Vec3 K)) (origin normal : Vec3 K)
    (h0 : env.sqrt 0 = 0) (h : 3 ≤ pts.length)
    (hw : weightedDir (ComputeCovariance.run cuts₂ pts (ComputePointsOrigin.run cuts₁ pts))
        = ⟨0, 0, 0⟩ ∨
      env.isFinite (Norm env (weightedDir
        (ComputeCovariance.run cuts₂ pts (ComputePointsOrigin.run cuts₁ pts)))) = false) :
    (ComputeBestFittingPlane env cuts₁ cuts₂ pts origin normal).success = false ∧
    (ComputeBestFittingPlane env cuts₁ cuts₂ pts origin normal).normal = ⟨0, 0, 1⟩ ∧
    (ComputeBestFittingPlane env cuts₁ cuts₂ pts origin normal).origin
      = ComputePointsOrigin.run cuts₁ pts ∧
    ComputePointsOrigin.run cuts₁ pts = centroid pts := by
  rw [run_eq_centroid, run_eq_covariance] at hw
  have hn : env.isFinite (Norm env (weightedDir (covariance pts (centroid pts)))) = false ∨
      Norm env (weightedDir (covariance pts (centroid pts))) = 0 := by
    rcases hw with hw | hw
    · right
      rw [hw]
      simpa [vtkMath.Norm] using h0
    · left; exact hw
  rw [fit_of_faulty env cuts₁ cuts₂ pts origin normal h hn, run_eq_centroid]
  exact ⟨rfl, rfl, rfl, rfl⟩

/-- C7 at three copies of one point, in real arithmetic. -/
theorem C7_faulty_direction_witness :
    (ComputeBestFittingPlane (exactEnv Real.sqrt) [] [] (triplePoint : List (Vec3 ℝ))
        ⟨7, 8, 9⟩ ⟨5, 5, 5⟩).success = false ∧
    (ComputeBestFittingPlane (exactEnv Real.sqrt) [] [] (triplePoint : List (Vec3 ℝ))
        ⟨7, 8, 9⟩ ⟨5, 5, 5⟩).normal = ⟨0, 0, 1⟩ ∧
    (ComputeBestFittingPlane (exactEnv Real.sqrt) [] [] (triplePoint : List (Vec3 ℝ))
        ⟨7, 8, 9⟩ ⟨5, 5, 5⟩).origin = ComputePointsOrigin.run [] triplePoint ∧
    ComputePointsOrigin.run [] (triplePoint : List (Vec3 ℝ)) = centroid triplePoint :=
  C7_faulty_direction (exactEnv Real.sqrt) [] [] triplePoint ⟨7, 8, 9⟩ ⟨5, 5, 5⟩
    Real.sqrt_zero (by decide)
    (Or.inl (by
      rw [run_eq_centroid, run_eq_covariance]
      simp [covariance, moment, centroid, triplePoint, weightedDir, axisBlock,
        vtkMath.Subtract, vtkMath.Dot, vtkMath.Add, vtkMath.MultiplyScalar]))

/-- C8: for every point set of at least 3 points, the origin written by
`ComputeBestFittingPlane` is the arithmetic mean `(1/N) * (sum of the points)`,
whether the call succeeds or fails. -/
theorem C8_origin_is_mean (env : MathEnv K) (cuts₁ cuts₂ : List Nat)
    (pts : List (Vec3 K)) (origin normal : Vec3 K) (h : 3 ≤ pts.length) :
    (ComputeBestFittingPlane env cuts₁ cuts₂ pts origin normal).origin = centroid pts :=
  fit_origin env cuts₁ cuts₂ pts origin normal h

/-- C8 at the corners of the unit square. -/
theorem C8_origin_is_mean_witness :
    3 ≤ (unitSquare : List (Vec3 ℝ)).length ∧
    (ComputeBestFittingPlane (exactEnv Real.sqrt) [1, 2] [3] unitSquare
        ⟨7, 8, 9⟩ ⟨5, 5, 5⟩).origin = centroid unitSquare :=
  ⟨by decide, C8_origin_is_mean _ _ _ _ _ _ (by decide)⟩

/-- A permutation of the points leaves the mean unchanged. -/
theorem centroid_perm {pts pts' : List (Vec3 K)} (h : pts.Perm pts') :
    centroid pts = centroid pts' := by
  simp only [centroid, h.length_eq, (h.map Vec3.x).sum_eq, (h.map Vec3.y).sum_eq,
    (h.map Vec3.z).sum_eq]

/-- A permutation of the points leaves the averaged moments unchanged. -/
theorem covariance_perm {pts pts' : List (Vec3 K)} (o : Vec3 K) (h : pts.Perm pts') :
    covariance pts o = covariance pts' o := by
  simp only [covariance, moment, h.length_eq, (h.map _).sum_eq]

/-- C10: `ComputeBestFittingPlane` does not depend on the order of the points:
for every point sequence and every permutation of it the success flag, the
origin and the normal are identical (also across different chunkings and
different prior contents of the output arrays). -/
theorem C10_order_independent (env : MathEnv K) (cuts₁ cuts₂ cuts₁' cuts₂' : List Nat)
    (pts pts' : List (Vec3 K)) (origin normal origin' normal' : Vec3 K)
    (h : pts.Perm pts') :
    ComputeBestFittingPlane env cuts₁ cuts₂ pts origin normal
      = ComputeBestFittingPlane env cuts₁' cuts₂' pts' origin' normal' := by
  simp only [ComputeBestFittingPlane, run_eq_centroid, run_eq_covariance, h.length_eq,
    centroid_perm h, covariance_perm _ h]

/-- C10 at the unit-square corners with the first two corners exchanged. -/
theorem C10_order_independent_witness :
    ([⟨0, 0, 0⟩, ⟨1, 0, 0⟩, ⟨1, 1, 0⟩, ⟨0, 1, 0⟩] : List (Vec3 ℝ)).Perm
      [⟨1, 0, 0⟩, ⟨0, 0, 0⟩, ⟨1, 1, 0⟩, ⟨0, 1, 0⟩] ∧
    ComputeBestFittingPlane (exactEnv Real.sqrt) [] [] 
        ([⟨0, 0, 0⟩, ⟨1, 0, 0⟩, ⟨1, 1, 0⟩, ⟨0, 1, 0⟩] : List (Vec3 ℝ)) ⟨7, 8, 9⟩ ⟨5, 5, 5⟩
      = ComputeBestFittingPlane (exactEnv Real.sqrt) [2] [1, 1]
        [⟨1, 0, 0⟩, ⟨0, 0, 0⟩, ⟨1, 1, 0⟩, ⟨0, 1, 0⟩] ⟨1, 1, 1⟩ ⟨2, 2, 2⟩ :=
  ⟨List.Perm.swap _ _ _,
   C10_order_independent _ _ _ _ _ _ _ _ _ _ _ (List.Perm.swap _ _ _)⟩

end Claims

end vtkPlane

/-! # Properties of the device acquisition -/

namespace vtkWebGPUConfiguration

section Handlers

variable {K : Type}

/-- The event raised by `AcquireAdapter` on a null adapter is what
`InvokeEvent` runs for `DeviceRequestCompletedEvent`. -/
theorem InvokeEvent_device (s : State K) (calldata : Ptr) :
    InvokeEvent s EventId.DeviceRequestCompletedEvent calldata
      = AcquireDevice s EventId.DeviceRequestCompletedEvent calldata := rfl

/-- `AcquireDevice` on its own event: a null device clears the flag, any other
calldata is stored as the device and sets the flag. -/
theorem AcquireDevice_event (s : State K) (calldata : Ptr) :
    AcquireDevice s EventId.DeviceRequestCompletedEvent calldata
      = if calldata = Ptr.null then { s with DeviceReady := false }
        else { s with DeviceReady := true, Device := calldata } := by
  simp [AcquireDevice]

/-- `AcquireAdapter` on its own event with a null adapter: the flag ends up
set and the address of the flag is stored as the device. -/
theorem AcquireAdapter_null (s : State K) :
    AcquireAdapter s EventId.AdapterRequestCompletedEvent Ptr.null
      = { s with DeviceReady := true, Device := Ptr.addrDeviceReady } := by
  simp [AcquireAdapter, AcquireDevice]

/-- `AcquireAdapter` on its own event with a non-null adapter: the adapter is
stored and a device request for it is issued. -/
theorem AcquireAdapter_some (s : State K) (calldata : Ptr) (h : calldata ≠ Ptr.null) :
    AcquireAdapter s EventId.AdapterRequestCompletedEvent calldata
      = { s with Adapter := calldata,
                 calls := s.calls ++ [BackendCall.RequestDevice calldata] } := by
  simp [AcquireAdapter, h]

/-- The handlers leave the instance count alone. -/
theorem deliver_InstanceCount [LinearOrderedField K] (s : State K) (c : Completion) :
    (deliver s c).InstanceCount = s.InstanceCount := by
  cases c with
  | adapter a =>
    by_cases h : a = Ptr.null
    · subst h
      simp [deliver, InvokeEvent, AcquireAdapter_null]
    · simp [deliver, InvokeEvent, AcquireAdapter_some s a h]
  | device d =>
    by_cases h : d = Ptr.null <;> simp [deliver, InvokeEvent, AcquireDevice_event, h]

/-- A pump leaves the instance count alone. -/
theorem ProcessEvents_InstanceCount [LinearOrderedField K] (s : State K) (pump : Pump K) :
    (ProcessEvents s pump).InstanceCount = s.InstanceCount := by
  have h : ∀ (cs : List Completion) (t : State K),
      (cs.foldl deliver t).InstanceCount = t.InstanceCount := by
    intro cs
    induction cs with
    | nil => intro t; rfl
    | cons c cs ih => intro t; rw [List.foldl_cons, ih, deliver_InstanceCount]
  rw [ProcessEvents, h]

/-- The waiting loop leaves the instance count alone. -/
theorem waitLoop_InstanceCount [LinearOrderedField K] (pumps : List (Pump K)) :
    ∀ (s : State K) (elapsed : K) (s' : State K) (rest : List (Pump K)),
      waitLoop s elapsed pumps = some (s', rest) → s'.InstanceCount = s.InstanceCount := by
  induction pumps with
  | nil =>
    intro s elapsed s' rest h
    by_cases hr : s.DeviceReady = true
    · simp [waitLoop, hr] at h
      rw [← h.1]
    · simp [waitLoop, hr] at h
  | cons pump pumps ih =>
    intro s elapsed s' rest h
    by_cases hr : s.DeviceReady = true
    · simp [waitLoop, hr] at h
      rw [← h.1]
    · by_cases ht : elapsed + pump.duration ≥ (ProcessEvents s pump).Timeout
      · simp [waitLoop, hr, ht] at h
        rw [← h.1]
        exact ProcessEvents_InstanceCount s pump
      · simp only [waitLoop, hr, ht] at h
        simp at h
        rw [ih _ _ _ _ h, ProcessEvents_InstanceCount]

/-- The flag that `Initialize` returns is the readiness flag of the state it
leaves. -/
theorem Initialize_flag [LinearOrderedField K] (s : State K) (pumps : List (Pump K)) (b : Bool) (s' : State K)
    (rest : List (Pump K)) (h : Initialize s pumps = some (b, s', rest)) :
    s'.DeviceReady = b := by
  cases hr : s.DeviceReady with
  | true =>
    simp [Initialize, hr] at h
    obtain ⟨hb, hs, _⟩ := h
    rw [← hs, hb, hr]
  | false =>
    simp only [Initialize, hr, Bool.false_eq_true, if_false] at h
    split at h
    · simp at h
    · simp at h
      rw [← h.2.1, h.1]

/-- A call of `Initialize` on a session that is not ready adds exactly one to
the instance count. -/
theorem Initialize_InstanceCount [LinearOrderedField K] (s : State K) (pumps : List (Pump K))
    (b : Bool) (s' : State K) (rest : List (Pump K)) (hr : s.DeviceReady = false)
    (h : Initialize s pumps = some (b, s', rest)) :
    s'.InstanceCount = s.InstanceCount + 1 := by
  simp only [Initialize, hr, Bool.false_eq_true, if_false] at h
  split at h
  · simp at h
  · next t rest' hw =>
    simp at h
    rw [← h.2.1, waitLoop_InstanceCount _ _ _ _ _ hw]
    rfl

end Handlers

section Runs

variable {K : Type} [LinearOrderedField K]

/-- The state in which a first attempt that met `pumpsIdle` leaves a fresh
session. -/
theorem Initialize_idle :
    Initialize (freshSession : State K) pumpsIdle
      = some (false, ⟨Ptr.null, Ptr.null, false, 5, 1,
          [BackendCall.RequestAdapter, BackendCall.ProcessEvents], 1⟩, []) := by
  simp [Initialize, waitLoop, ProcessEvents, AddInstanceRef, freshSession, construct, pumpsIdle]
  norm_num

/-- A fresh session whose adapter request is answered with a null adapter. -/
theorem Initialize_nullAdapter :
    Initialize (freshSession : State K) pumpsNullAdapter
      = some (true, ⟨Ptr.null, Ptr.addrDeviceReady, true, 5, 1,
          [BackendCall.RequestAdapter, BackendCall.ProcessEvents], 0⟩, []) := by
  simp [Initialize, waitLoop, ProcessEvents, deliver, InvokeEvent, AcquireAdapter_null,
    AddInstanceRef, freshSession, construct, pumpsNullAdapter]

/-- A fresh session that gets adapter 1 and then device 2 within the timeout. -/
theorem Initialize_good :
    Initialize (freshSession : State K) pumpsGood
      = some (true, ⟨Ptr.adapter 1, Ptr.device 2, true, 5, 1,
          [BackendCall.RequestAdapter, BackendCall.ProcessEvents,
           BackendCall.RequestDevice (Ptr.adapter 1), BackendCall.ProcessEvents], 0⟩, []) := by
  simp [Initialize, waitLoop, ProcessEvents, deliver, InvokeEvent, AcquireAdapter,
    AcquireDevice, AddInstanceRef, freshSession, construct, pumpsGood]
  norm_num

/-- A fresh session that gets adapter 1 and then device 2 in a pump that
carries the elapsed time past the timeout. -/
theorem Initialize_slowDevice :
    Initialize (freshSession : State K) pumpsSlowDevice
      = some (true, ⟨Ptr.adapter 1, Ptr.device 2, true, 5, 1,
          [BackendCall.RequestAdapter, BackendCall.ProcessEvents,
           BackendCall.RequestDevice (Ptr.adapter 1), BackendCall.ProcessEvents], 1⟩, []) := by
  simp [Initialize, waitLoop, ProcessEvents, deliver, InvokeEvent, AcquireAdapter,
    AcquireDevice, AddInstanceRef, freshSession, construct, pumpsSlowDevice]
  norm_num

/-- A fresh session that gets adapter 1 and then a null device. -/
theorem Initialize_nullDevice :
    Initialize (freshSession : State K) pumpsNullDevice
      = some (false, ⟨Ptr.adapter 1, Ptr.null, false, 5, 1,
          [BackendCall.RequestAdapter, BackendCall.ProcessEvents,
           BackendCall.RequestDevice (Ptr.adapter 1), BackendCall.ProcessEvents], 1⟩, []) := by
  simp [Initialize, waitLoop, ProcessEvents, deliver, InvokeEvent, AcquireAdapter,
    AcquireDevice, AddInstanceRef, freshSession, construct, pumpsNullDevice]
  norm_num

/-- A first attempt that times out on an idle backend, with the pumps of a
later attempt left over. -/
theorem Initialize_retry_first :
    Initialize (freshSession : State K) pumpsRetry
      = some (false, ⟨Ptr.null, Ptr.null, false, 5, 1,
          [BackendCall.RequestAdapter, BackendCall.ProcessEvents], 1⟩, pumpsGood) := by
  simp [Initialize, waitLoop, ProcessEvents, AddInstanceRef, freshSession, construct,
    pumpsRetry]
  norm_num

/-- The second attempt after a first one that timed out. -/
theorem Initialize_retry_second :
    Initialize (⟨Ptr.null, Ptr.null, false, 5, 1,
          [BackendCall.RequestAdapter, BackendCall.ProcessEvents], 1⟩ : State K) pumpsGood
      = some (true, ⟨Ptr.adapter 1, Ptr.device 2, true, 5, 2,
          [BackendCall.RequestAdapter, BackendCall.ProcessEvents,
           BackendCall.RequestAdapter, BackendCall.ProcessEvents,
           BackendCall.RequestDevice (Ptr.adapter 1), BackendCall.ProcessEvents], 1⟩, []) := by
  simp [Initialize, waitLoop, ProcessEvents, deliver, InvokeEvent, AcquireAdapter,
    AcquireDevice, AddInstanceRef, pumpsGood]
  norm_num

end Runs

section Requests

variable {K : Type}

/-- A completion other than a non-null adapter issues no call to the backend. -/
theorem deliver_calls (s : State K) (c : Completion)
    (h : ∀ a, c = Completion.adapter a → a = Ptr.null) : (deliver s c).calls = s.calls := by
  cases c with
  | adapter a =>
    rw [h a rfl]
    simp [deliver, InvokeEvent, AcquireAdapter_null]
  | device d =>
    by_cases hd : d = Ptr.null <;> simp [deliver, InvokeEvent, AcquireDevice_event, hd]

/-- A pump in which every delivered adapter is null issues `ProcessEvents` and
nothing else. -/
theorem ProcessEvents_calls (s : State K) (pump : Pump K)
    (h : ∀ a, Completion.adapter a ∈ pump.completions → a = Ptr.null) :
    (ProcessEvents s pump).calls = s.calls ++ [BackendCall.ProcessEvents] := by
  have key : ∀ (cs : List Completion) (t : State K),
      (∀ a, Completion.adapter a ∈ cs → a = Ptr.null) →
      (cs.foldl deliver t).calls = t.calls := by
    intro cs
    induction cs with
    | nil => intro t _; rfl
    | cons c cs ih =>
      intro t hc
      rw [List.foldl_cons, ih _ (fun a ha => hc a (List.mem_cons_of_mem _ ha)),
        deliver_calls t c (fun a ha => hc a (by rw [ha]; exact List.mem_cons_self _ _))]
  rw [ProcessEvents, key _ _ h]

/-- While every delivered adapter is null the waiting loop issues no device
request. -/
theorem waitLoop_no_RequestDevice [LinearOrderedField K] (pumps : List (Pump K)) :
    ∀ (s : State K) (elapsed : K) (s' : State K) (rest : List (Pump K)),
      (∀ pump ∈ pumps, ∀ a, Completion.adapter a ∈ pump.completions → a = Ptr.null) →
      waitLoop s elapsed pumps = some (s', rest) →
      ∀ a, BackendCall.RequestDevice a ∈ s'.calls → BackendCall.RequestDevice a ∈ s.calls := by
  induction pumps with
  | nil =>
    intro s elapsed s' rest _ h a ha
    cases hr : s.DeviceReady with
    | true =>
      simp [waitLoop, hr] at h
      rw [h.1]; exact ha
    | false => simp [waitLoop, hr] at h
  | cons pump pumps ih =>
    intro s elapsed s' rest hnull h a ha
    have hp := ProcessEvents_calls s pump (hnull pump (List.mem_cons_self _ _))
    cases hr : s.DeviceReady with
    | true =>
      simp [waitLoop, hr] at h
      rw [h.1]; exact ha
    | false =>
      by_cases ht : elapsed + pump.duration ≥ (ProcessEvents s pump).Timeout
      · simp [waitLoop, hr, ht] at h
        rw [← h.1] at ha
        simp only [hp] at ha
        simpa using ha
      · simp only [waitLoop, hr, ht] at h
        simp at h
        have h2 := ih _ _ _ _ (fun q hq => hnull q (List.mem_cons_of_mem _ hq)) h a ha
        rw [hp] at h2
        simpa using h2

end Requests

section SessionClaims

variable {K : Type}

/-- C11, evaluated at the failing input: when `AcquireAdapter` is invoked with
a null adapter on a fresh session, `DeviceReady` is true afterwards (the event
it raises carries the address of the flag, which `AcquireDevice` takes for a
device), and an `Initialize` whose adapter request is answered with a null
adapter returns true. -/
theorem C11_null_adapter_reports_ready :
    (AcquireAdapter (freshSession : State ℚ) EventId.AdapterRequestCompletedEvent
        Ptr.null).DeviceReady = true ∧
    (AcquireAdapter (freshSession : State ℚ) EventId.AdapterRequestCompletedEvent
        Ptr.null).Device = Ptr.addrDeviceReady ∧
    (Initialize (freshSession : State ℚ) pumpsNullAdapter).map (fun r => r.1) = some true := by
  rw [AcquireAdapter_null, Initialize_nullAdapter]
  exact ⟨rfl, rfl, rfl⟩

/-- C12: when `AcquireAdapter` receives a null adapter handle it issues no call
to the backend; whatever the calldata, it either issues no call or the
calldata is a non-null adapter handle on `AdapterRequestCompletedEvent`, it
has been stored in `Adapter`, and the one call issued is the device request on
that adapter; and an `Initialize` during which every adapter the backend
delivers is null issues no device request. -/
theorem C12_device_request_only_with_adapter [LinearOrderedField K] (s : State K) (event : EventId)
    (calldata : Ptr) (pumps : List (Pump K)) (b : Bool) (s' : State K)
    (rest : List (Pump K))
    (hnull : ∀ pump ∈ pumps, ∀ a, Completion.adapter a ∈ pump.completions → a = Ptr.null)
    (hrun : Initialize s pumps = some (b, s', rest)) :
    (AcquireAdapter s event Ptr.null).calls = s.calls ∧
    ((AcquireAdapter s event calldata).calls = s.calls ∨
      (calldata ≠ Ptr.null ∧ event = EventId.AdapterRequestCompletedEvent ∧
       (AcquireAdapter s event calldata).Adapter = calldata ∧
       (AcquireAdapter s event calldata).calls
          = s.calls ++ [BackendCall.RequestDevice calldata])) ∧
    (∀ a, BackendCall.RequestDevice a ∈ s'.calls → BackendCall.RequestDevice a ∈ s.calls) := by
  refine ⟨?_, ?_, ?_⟩
  · by_cases he : event = EventId.AdapterRequestCompletedEvent
    · rw [he, AcquireAdapter_null]
    · simp [AcquireAdapter, he]
  · by_cases he : event = EventId.AdapterRequestCompletedEvent
    · by_cases hc : calldata = Ptr.null
      · left
        rw [he, hc, AcquireAdapter_null]
      · right
        rw [he, AcquireAdapter_some s calldata hc]
        exact ⟨hc, rfl, rfl, rfl⟩
    · left
      simp [AcquireAdapter, he]
  · intro a ha
    cases hr : s.DeviceReady with
    | true =>
      simp [Initialize, hr] at hrun
      rw [hrun.2.1]; exact ha
    | false =>
      simp only [Initialize, hr, Bool.false_eq_true, if_false] at hrun
      split at hrun
      · simp at hrun
      · next t rest' hw =>
        simp at hrun
        rw [← hrun.2.1] at ha
        have h2 := waitLoop_no_RequestDevice pumps _ _ _ _ hnull hw a ha
        simpa [AddInstanceRef] using h2

/-- C12 at a fresh session whose adapter request is answered with a null
adapter, with adapter 1 as the calldata of the second part. -/
theorem C12_device_request_only_with_adapter_witness :
    (AcquireAdapter (freshSession : State ℚ) EventId.AdapterRequestCompletedEvent
        Ptr.null).calls = (freshSession : State ℚ).calls ∧
    ((AcquireAdapter (freshSession : State ℚ) EventId.AdapterRequestCompletedEvent
        (Ptr.adapter 1)).calls = (freshSession : State ℚ).calls ∨
      (Ptr.adapter 1 ≠ Ptr.null ∧
       EventId.AdapterRequestCompletedEvent = EventId.AdapterRequestCompletedEvent ∧
       (AcquireAdapter (freshSession : State ℚ) EventId.AdapterRequestCompletedEvent
          (Ptr.adapter 1)).Adapter = Ptr.adapter 1 ∧
       (AcquireAdapter (freshSession : State ℚ) EventId.AdapterRequestCompletedEvent
          (Ptr.adapter 1)).calls
          = (freshSession : State ℚ).calls ++ [BackendCall.RequestDevice (Ptr.adapter 1)])) ∧
    (∀ a, BackendCall.RequestDevice a ∈
        (⟨Ptr.null, Ptr.addrDeviceReady, true, 5, 1,
          [BackendCall.RequestAdapter, BackendCall.ProcessEvents], 0⟩ : State ℚ).calls →
      BackendCall.RequestDevice a ∈ (freshSession : State ℚ).calls) :=
  C12_device_request_only_with_adapter freshSession EventId.AdapterRequestCompletedEvent
    (Ptr.adapter 1) pumpsNullAdapter true _ []
    (by
      intro pump hp a ha
      simp only [pumpsNullAdapter, List.mem_singleton] at hp
      subst hp
      simpa using ha)
    Initialize_nullAdapter

/-- C13: for every session whose `DeviceReady` flag is already true,
`Initialize()` returns true and changes nothing: the instance count, the calls
issued to the backend (no adapter request, no event pump), both handles and
the pumps still to come are as before. -/
theorem C13_initialize_when_ready [LinearOrderedField K] (s : State K) (pumps : List (Pump K))
    (h : s.DeviceReady = true) : Initialize s pumps = some (true, s, pumps) := by
  simp [Initialize, h]

/-- C13 at a ready session. -/
theorem C13_initialize_when_ready_witness :
    (readySession : State ℚ).DeviceReady = true ∧
    Initialize (readySession : State ℚ) pumpsGood = some (true, readySession, pumpsGood) :=
  ⟨rfl, C13_initialize_when_ready readySession pumpsGood rfl⟩

/-- C14, refuted as stated: on a backend that is idle during the first call
(which times out) and delivers adapter and device during the second, the first
`Initialize()` returns false and the second returns true, and the instance
count is 1 after the first call and 2 after the second. -/
theorem C14_counterexample :
    Initialize (freshSession : State ℚ) pumpsRetry
      = some (false, ⟨Ptr.null, Ptr.null, false, 5, 1,
          [BackendCall.RequestAdapter, BackendCall.ProcessEvents], 1⟩, pumpsGood) ∧
    Initialize (⟨Ptr.null, Ptr.null, false, 5, 1,
          [BackendCall.RequestAdapter, BackendCall.ProcessEvents], 1⟩ : State ℚ) pumpsGood
      = some (true, ⟨Ptr.adapter 1, Ptr.device 2, true, 5, 2,
          [BackendCall.RequestAdapter, BackendCall.ProcessEvents,
           BackendCall.RequestAdapter, BackendCall.ProcessEvents,
           BackendCall.RequestDevice (Ptr.adapter 1), BackendCall.ProcessEvents], 1⟩, []) :=
  ⟨Initialize_retry_first, Initialize_retry_second⟩

/-- C14, amended: for every session and every backend behaviour, if a call of
`Initialize()` returns true, a second call without a `Finalize()` in between
returns true as well and changes nothing: the state, the instance count
included, is the one the first call left, and no pump is taken. -/
theorem C14_initialize_twice_after_success [LinearOrderedField K] (s : State K) (pumps : List (Pump K))
    (s₁ : State K) (rest pumps' : List (Pump K))
    (h : Initialize s pumps = some (true, s₁, rest)) :
    Initialize s₁ pumps' = some (true, s₁, pumps') ∧
    ∀ b s₂ rest', Initialize s₁ pumps' = some (b, s₂, rest') →
      b = true ∧ s₂.InstanceCount = s₁.InstanceCount := by
  have hr := Initialize_flag s pumps true s₁ rest h
  have h2 : Initialize s₁ pumps' = some (true, s₁, pumps') := by simp [Initialize, hr]
  refine ⟨h2, ?_⟩
  intro b s₂ rest' hb
  rw [h2] at hb
  simp at hb
  exact ⟨hb.1, by rw [hb.2.1]⟩

/-- C14 (amended) at a fresh session that gets adapter and device in time. -/
theorem C14_initialize_twice_after_success_witness :
    Initialize (⟨Ptr.adapter 1, Ptr.device 2, true, 5, 1,
          [BackendCall.RequestAdapter, BackendCall.ProcessEvents,
           BackendCall.RequestDevice (Ptr.adapter 1), BackendCall.ProcessEvents], 0⟩ : State ℚ)
        pumpsGood
      = some (true, ⟨Ptr.adapter 1, Ptr.device 2, true, 5, 1,
          [BackendCall.RequestAdapter, BackendCall.ProcessEvents,
           BackendCall.RequestDevice (Ptr.adapter 1), BackendCall.ProcessEvents], 0⟩,
          pumpsGood) :=
  (C14_initialize_twice_after_success freshSession pumpsGood _ [] pumpsGood
    Initialize_good).1

/-- C15: for every session that became ready through `Initialize()` (it was not
ready before the call and the call returned true), `Finalize()` sets the
adapter handle and the device handle to null, sets `DeviceReady` to false and
decrements the instance count by exactly one, so that the count equals its
value before that `Initialize()` call. -/
theorem C15_finalize_after_initialize [LinearOrderedField K] (s : State K) (pumps : List (Pump K))
    (s₁ : State K) (rest : List (Pump K)) (hr : s.DeviceReady = false)
    (h : Initialize s pumps = some (true, s₁, rest)) :
    (Finalize s₁).Adapter = Ptr.null ∧ (Finalize s₁).Device = Ptr.null ∧
    (Finalize s₁).DeviceReady = false ∧
    (Finalize s₁).InstanceCount + 1 = s₁.InstanceCount ∧
    (Finalize s₁).InstanceCount = s.InstanceCount := by
  have hf := Initialize_flag s pumps true s₁ rest h
  have hc := Initialize_InstanceCount s pumps true s₁ rest hr h
  simp [Finalize, ReleaseInstanceRef, hf, hc]

/-- C15 at a fresh session that gets adapter and device in time. -/
theorem C15_finalize_after_initialize_witness :
    (Finalize (⟨Ptr.adapter 1, Ptr.device 2, true, 5, 1,
        [BackendCall.RequestAdapter, BackendCall.ProcessEvents,
         BackendCall.RequestDevice (Ptr.adapter 1), BackendCall.ProcessEvents], 0⟩
        : State ℚ)).Adapter = Ptr.null ∧
    (Finalize (⟨Ptr.adapter 1, Ptr.device 2, true, 5, 1,
        [BackendCall.RequestAdapter, BackendCall.ProcessEvents,
         BackendCall.RequestDevice (Ptr.adapter 1), BackendCall.ProcessEvents], 0⟩
        : State ℚ)).Device = Ptr.null ∧
    (Finalize (⟨Ptr.adapter 1, Ptr.device 2, true, 5, 1,
        [BackendCall.RequestAdapter, BackendCall.ProcessEvents,
         BackendCall.RequestDevice (Ptr.adapter 1), BackendCall.ProcessEvents], 0⟩
        : State ℚ)).DeviceReady = false ∧
    (Finalize (⟨Ptr.adapter 1, Ptr.device 2, true, 5, 1,
        [BackendCall.RequestAdapter, BackendCall.ProcessEvents,
         BackendCall.RequestDevice (Ptr.adapter 1), BackendCall.ProcessEvents], 0⟩
        : State ℚ)).InstanceCount + 1 = 1 ∧
    (Finalize (⟨Ptr.adapter 1, Ptr.device 2, true, 5, 1,
        [BackendCall.RequestAdapter, BackendCall.ProcessEvents,
         BackendCall.RequestDevice (Ptr.adapter 1), BackendCall.ProcessEvents], 0⟩
        : State ℚ)).InstanceCount = (freshSession : State ℚ).InstanceCount :=
  C15_finalize_after_initialize freshSession pumpsGood _ [] rfl Initialize_good

/-- C16: for every session whose `DeviceReady` flag is false, `Finalize()` leaves
the whole state unchanged (handles, `DeviceReady`, instance count and all the
rest); and for every session `Finalize()` followed by `Finalize()` has the
effect of a single `Finalize()`, so the second one does not decrement the
instance count again. -/
theorem C16_finalize_idempotent (s : State K) :
    (s.DeviceReady = false → Finalize s = s) ∧
    Finalize (Finalize s) = Finalize s ∧
    (Finalize (Finalize s)).InstanceCount = (Finalize s).InstanceCount := by
  have h1 : ∀ t : State K, t.DeviceReady = false → Finalize t = t := by
    intro t ht
    simp [Finalize, ht]
  have h2 : (Finalize s).DeviceReady = false := by
    cases hr : s.DeviceReady <;> simp [Finalize, ReleaseInstanceRef, hr]
  exact ⟨h1 s, h1 _ h2, by rw [h1 _ h2]⟩

/-- C16 at a fresh session (not ready) and at a ready session. -/
theorem C16_finalize_idempotent_witness :
    Finalize (freshSession : State ℚ) = freshSession ∧
    Finalize (Finalize (readySession : State ℚ)) = Finalize readySession ∧
    (Finalize (Finalize (readySession : State ℚ))).InstanceCount = 0 :=
  ⟨(C16_finalize_idempotent freshSession).1 rfl, (C16_finalize_idempotent readySession).2.1,
    (C16_finalize_idempotent readySession).2.2.trans rfl⟩

/-- C17, evaluated at the failing input: a fresh session (instance count 0)
whose `Initialize()` times out on an idle backend returns false and is not
ready, yet the instance count is 1 afterwards, and still 1 after `Finalize()`. -/
theorem C17_failed_attempt_keeps_reference :
    (freshSession : State ℚ).InstanceCount = 0 ∧
    Initialize (freshSession : State ℚ) pumpsIdle
      = some (false, ⟨Ptr.null, Ptr.null, false, 5, 1,
          [BackendCall.RequestAdapter, BackendCall.ProcessEvents], 1⟩, []) ∧
    (Finalize (⟨Ptr.null, Ptr.null, false, 5, 1,
          [BackendCall.RequestAdapter, BackendCall.ProcessEvents], 1⟩ : State ℚ)).InstanceCount
      = 1 :=
  ⟨rfl, Initialize_idle, rfl⟩

/-- C18, evaluated at the failing input: after an `Initialize()` of a fresh
session whose adapter request is answered with a null adapter, `DeviceReady`
is true while the adapter handle is null and the device handle is the address
of the readiness flag, not a device that the backend delivered. -/
theorem C18_ready_without_handles :
    (Initialize (freshSession : State ℚ) pumpsNullAdapter).map
        (fun r => (r.2.1.DeviceReady, r.2.1.Adapter, r.2.1.Device))
      = some (true, Ptr.null, Ptr.addrDeviceReady) ∧
    ∀ id : Nat, Ptr.addrDeviceReady ≠ Ptr.device id := by
  rw [Initialize_nullAdapter]
  exact ⟨rfl, fun id h => by cases h⟩

/-- C19, refuted as stated: after an `Initialize()` in which adapter 1 was
acquired and the device request was answered with a null device (the call
times out and returns false), `Finalize()` leaves the adapter handle at
adapter 1, not null. -/
theorem C19_counterexample :
    Initialize (freshSession : State ℚ) pumpsNullDevice
      = some (false, ⟨Ptr.adapter 1, Ptr.null, false, 5, 1,
          [BackendCall.RequestAdapter, BackendCall.ProcessEvents,
           BackendCall.RequestDevice (Ptr.adapter 1), BackendCall.ProcessEvents], 1⟩, []) ∧
    (Finalize (⟨Ptr.adapter 1, Ptr.null, false, 5, 1,
          [BackendCall.RequestAdapter, BackendCall.ProcessEvents,
           BackendCall.RequestDevice (Ptr.adapter 1), BackendCall.ProcessEvents], 1⟩
        : State ℚ)).Adapter = Ptr.adapter 1 ∧
    Ptr.adapter 1 ≠ Ptr.null :=
  ⟨Initialize_nullDevice, rfl, fun h => by cases h⟩

/-- C19, amended: from every state of a session, `DeviceReady` is false after
`Finalize()`; if `DeviceReady` was true before, the adapter handle and the
device handle are both null afterwards; if it was false, `Finalize()` changes
nothing, so the handles are what they were. -/
theorem C19_finalize_outcome (s : State K) :
    (Finalize s).DeviceReady = false ∧
    (s.DeviceReady = true → (Finalize s).Adapter = Ptr.null ∧ (Finalize s).Device = Ptr.null) ∧
    (s.DeviceReady = false → Finalize s = s) := by
  refine ⟨?_, ?_, ?_⟩
  · cases hr : s.DeviceReady <;> simp [Finalize, ReleaseInstanceRef, hr]
  · intro hr
    simp [Finalize, ReleaseInstanceRef, hr]
  · intro hr
    simp [Finalize, hr]

/-- C19 (amended) at a ready session and at the session left by a null
device. -/
theorem C19_finalize_outcome_witness :
    (Finalize (readySession : State ℚ)).DeviceReady = false ∧
    ((Finalize (readySession : State ℚ)).Adapter = Ptr.null ∧
      (Finalize (readySession : State ℚ)).Device = Ptr.null) ∧
    Finalize (⟨Ptr.adapter 1, Ptr.null, false, 5, 1, [], 1⟩ : State ℚ)
      = ⟨Ptr.adapter 1, Ptr.null, false, 5, 1, [], 1⟩ :=
  ⟨(C19_finalize_outcome readySession).1, (C19_finalize_outcome readySession).2.1 rfl,
    (C19_finalize_outcome _).2.2 rfl⟩

/-- C20, evaluated at the failing input: a fresh session with timeout 5 ms gets
adapter 1 after 1 ms and device 2 in a pump of 10 ms; the waiting loop exits
through the timeout branch (one "timed out" error is reported, elapsed 11 ms),
yet `Initialize()` returns true and `DeviceReady` is true. -/
theorem C20_timeout_branch_returns_true :
    Initialize (freshSession : State ℚ) pumpsSlowDevice
      = some (true, ⟨Ptr.adapter 1, Ptr.device 2, true, 5, 1,
          [BackendCall.RequestAdapter, BackendCall.ProcessEvents,
           BackendCall.RequestDevice (Ptr.adapter 1), BackendCall.ProcessEvents], 1⟩, []) ∧
    (freshSession : State ℚ).TimeoutErrors = 0 :=
  ⟨Initialize_slowDevice, rfl⟩

end SessionClaims

end vtkWebGPUConfiguration

/-! # Properties of the projection and intersection utilities -/

namespace vtkPlane

open vtkMath

section Utilities

variable {K : Type} [LinearOrderedField K]

/-- The hand-written absolute value of `IntersectWithLine`. -/
theorem ite_neg_eq_abs (a : K) : (if a < 0 then -a else a) = |a| := by
  split_ifs with h
  · rw [abs_of_neg h]
  · rw [abs_of_nonneg (not_lt.1 h)]

/-- The tolerance of `IntersectWithLine` is `|num| * VTK_PLANE_TOL`. -/
theorem ite_neg_mul_tol (a : K) :
    (if a < 0 then -a * VTK_PLANE_TOL else a * VTK_PLANE_TOL) = |a| * VTK_PLANE_TOL := by
  split_ifs with h
  · rw [abs_of_neg h]
  · rw [abs_of_nonneg (not_lt.1 h)]

/-- `IntersectWithLine` in terms of `num = n.(p0 - p1)` and `den = n.(p2 - p1)`:
the parallel branch when `|den| ≤ |num| * 1e-6`, otherwise `t = num / den` and
`x = p1 + t (p2 - p1)`, with 1 returned exactly when `0 ≤ t ≤ 1`. -/
theorem IntersectWithLine_eq (M : K) (p1 p2 n p0 x : Vec3 K) :
    IntersectWithLine M p1 p2 n p0 x
      = if |Dot n (Subtract p2 p1)| ≤ |Dot n (Subtract p0 p1)| * VTK_PLANE_TOL then
          ⟨0, M, x⟩
        else if 0 ≤ Dot n (Subtract p0 p1) / Dot n (Subtract p2 p1) ∧
            Dot n (Subtract p0 p1) / Dot n (Subtract p2 p1) ≤ 1 then
          ⟨1, Dot n (Subtract p0 p1) / Dot n (Subtract p2 p1),
            Add p1 (MultiplyScalar (Subtract p2 p1)
              (Dot n (Subtract p0 p1) / Dot n (Subtract p2 p1)))⟩
        else
          ⟨0, Dot n (Subtract p0 p1) / Dot n (Subtract p2 p1),
            Add p1 (MultiplyScalar (Subtract p2 p1)
              (Dot n (Subtract p0 p1) / Dot n (Subtract p2 p1)))⟩ := by
  have hnum : Dot n p0 - (n.x * p1.x + n.y * p1.y + n.z * p1.z) = Dot n (Subtract p0 p1) := by
    simp only [vtkMath.Dot, Subtract]; ring
  have hden : n.x * (p2.x - p1.x) + n.y * (p2.y - p1.y) + n.z * (p2.z - p1.z)
      = Dot n (Subtract p2 p1) := by
    simp only [vtkMath.Dot, Subtract]
  simp only [IntersectWithLine, hnum, hden, ite_neg_eq_abs, ite_neg_mul_tol, ge_iff_le]
  have hx : (⟨p1.x + Dot n (Subtract p0 p1) / Dot n (Subtract p2 p1) * (p2.x - p1.x),
      p1.y + Dot n (Subtract p0 p1) / Dot n (Subtract p2 p1) * (p2.y - p1.y),
      p1.z + Dot n (Subtract p0 p1) / Dot n (Subtract p2 p1) * (p2.z - p1.z)⟩ : Vec3 K)
      = Add p1 (MultiplyScalar (Subtract p2 p1)
          (Dot n (Subtract p0 p1) / Dot n (Subtract p2 p1))) := by
    simp only [vtkMath.Add, MultiplyScalar, Subtract]
    ext <;> simp only <;> ring
  rw [hx]

/-- The tolerance is positive and below 1. -/
theorem VTK_PLANE_TOL_bounds : (0 : K) < VTK_PLANE_TOL ∧ (VTK_PLANE_TOL : K) < 1 := by
  unfold VTK_PLANE_TOL
  constructor <;> norm_num

/-- The tolerance test of `IntersectWithLine` rejects exactly the parallel
lines among those whose parameter `num / den` would lie in `[0, 1]`. -/
theorem tol_test_iff (num den : K) (h0 : 0 ≤ num / den) (h1 : num / den ≤ 1) :
    |den| ≤ |num| * VTK_PLANE_TOL ↔ den = 0 := by
  obtain ⟨tp, t1⟩ := VTK_PLANE_TOL_bounds (K := K)
  constructor
  · intro h
    by_contra hd
    have hpos : 0 < |den| := abs_pos.2 hd
    have hq : |num / den| ≤ 1 := by rw [abs_of_nonneg h0]; exact h1
    rw [abs_div, div_le_one hpos] at hq
    have : |num| * VTK_PLANE_TOL ≤ |den| * VTK_PLANE_TOL :=
      mul_le_mul_of_nonneg_right hq (le_of_lt tp)
    have : |den| * VTK_PLANE_TOL < |den| * 1 := mul_lt_mul_of_pos_left t1 hpos
    linarith
  · intro hd
    rw [hd, abs_zero]
    exact mul_nonneg (abs_nonneg _) (le_of_lt tp)

/-- The squared norm vanishes only for the zero vector. -/
theorem SquaredNorm_eq_zero (v : Vec3 K) : vtkMath.SquaredNorm v = 0 ↔ v = ⟨0, 0, 0⟩ := by
  constructor
  · intro h
    have hx := mul_self_nonneg v.x
    have hy := mul_self_nonneg v.y
    have hz := mul_self_nonneg v.z
    simp only [vtkMath.SquaredNorm] at h
    ext
    · exact mul_self_eq_zero.1 (by linarith)
    · exact mul_self_eq_zero.1 (by linarith)
    · exact mul_self_eq_zero.1 (by linarith)
  · intro h
    rw [h]
    simp [vtkMath.SquaredNorm]

end Utilities

section UtilityClaims

variable {K : Type} [LinearOrderedField K]

/-- C22: in exact arithmetic, for all `p1`, `p2`, `n` and `p0` the static
`IntersectWithLine` returns 1 exactly when the line is not parallel to the
plane (`n.(p2 - p1) ≠ 0`) and `t = n.(p0 - p1) / n.(p2 - p1)` satisfies
`0 ≤ t ≤ 1`, and returns 0 otherwise; when the line is parallel to the plane it
returns 0 and sets `t` to `VTK_DOUBLE_MAX`; so the tolerance test never rejects
a segment that crosses the plane at a parameter in `[0, 1]`. -/
theorem C22_intersect_with_line (M : K) (p1 p2 n p0 x : Vec3 K) :
    ((IntersectWithLine M p1 p2 n p0 x).ret = 1 ↔
      (Dot n (Subtract p2 p1) ≠ 0 ∧
        0 ≤ Dot n (Subtract p0 p1) / Dot n (Subtract p2 p1) ∧
        Dot n (Subtract p0 p1) / Dot n (Subtract p2 p1) ≤ 1)) ∧
    ((IntersectWithLine M p1 p2 n p0 x).ret = 1 ∨
      (IntersectWithLine M p1 p2 n p0 x).ret = 0) ∧
    (Dot n (Subtract p2 p1) = 0 →
      (IntersectWithLine M p1 p2 n p0 x).ret = 0 ∧
      (IntersectWithLine M p1 p2 n p0 x).t = M) := by
  rw [IntersectWithLine_eq]
  obtain ⟨tp, _⟩ := VTK_PLANE_TOL_bounds (K := K)
  refine ⟨?_, ?_, ?_⟩
  · constructor
    · intro h
      split_ifs at h with ha hb
      · simp at h
      · refine ⟨?_, hb.1, hb.2⟩
        intro hd
        apply ha
        rw [hd, abs_zero]
        exact mul_nonneg (abs_nonneg _) (le_of_lt tp)
      · simp at h
    · rintro ⟨hd, h0, h1⟩
      have ha : ¬ |Dot n (Subtract p2 p1)| ≤ |Dot n (Subtract p0 p1)| * VTK_PLANE_TOL :=
        fun h => hd ((tol_test_iff _ _ h0 h1).1 h)
      rw [if_neg ha, if_pos ⟨h0, h1⟩]
  · split_ifs
    · right; rfl
    · left; rfl
    · right; rfl
  · intro hd
    have ha : |Dot n (Subtract p2 p1)| ≤ |Dot n (Subtract p0 p1)| * VTK_PLANE_TOL := by
      rw [hd, abs_zero]
      exact mul_nonneg (abs_nonneg _) (le_of_lt tp)
    rw [if_pos ha]
    exact ⟨rfl, rfl⟩

/-- C23: in exact arithmetic, for every point `x`, `origin` and `normal`, the
static `GeneralizedProjectPoint` projects `x` onto the plane without requiring
a unit normal: if `normal` is not the zero vector, `xproj` lies on the plane
(`normal.(xproj - origin) = 0`) and `x - xproj` is a scalar multiple of
`normal`; if `normal` is the zero vector, `xproj = x`. -/
theorem C23_generalized_project_point (x origin normal : Vec3 K) :
    (normal ≠ ⟨0, 0, 0⟩ →
      Dot normal (Subtract (GeneralizedProjectPoint x origin normal) origin) = 0 ∧
      ∃ c : K, Subtract x (GeneralizedProjectPoint x origin normal)
        = MultiplyScalar normal c) ∧
    (normal = ⟨0, 0, 0⟩ → GeneralizedProjectPoint x origin normal = x) := by
  constructor
  · intro hn
    have h2 : vtkMath.SquaredNorm normal ≠ 0 := fun h => hn ((SquaredNorm_eq_zero normal).1 h)
    simp only [GeneralizedProjectPoint, h2, ne_eq, not_false_eq_true, if_true]
    constructor
    · simp only [vtkMath.SquaredNorm] at h2
      simp only [vtkMath.Dot, Subtract, vtkMath.SquaredNorm]
      field_simp
      ring
    · refine ⟨Dot normal (Subtract x origin) / vtkMath.SquaredNorm normal, ?_⟩
      simp only [vtkMath.Dot, Subtract, MultiplyScalar]
      ext <;> simp only <;> ring
  · intro hn
    have h2 : vtkMath.SquaredNorm normal = 0 := (SquaredNorm_eq_zero normal).2 hn
    simp [GeneralizedProjectPoint, h2]

/-- C23 at the normal `(0, 0, 2)`, which is not a unit vector, and at the zero
normal. -/
theorem C23_generalized_project_point_witness :
    (Dot (⟨0, 0, 2⟩ : Vec3 ℚ)
        (Subtract (GeneralizedProjectPoint ⟨1, 2, 3⟩ ⟨0, 0, 1⟩ ⟨0, 0, 2⟩) ⟨0, 0, 1⟩) = 0 ∧
      ∃ c : ℚ, Subtract ⟨1, 2, 3⟩ (GeneralizedProjectPoint ⟨1, 2, 3⟩ ⟨0, 0, 1⟩ ⟨0, 0, 2⟩)
        = MultiplyScalar ⟨0, 0, 2⟩ c) ∧
    GeneralizedProjectPoint (⟨1, 2, 3⟩ : Vec3 ℚ) ⟨0, 0, 1⟩ ⟨0, 0, 0⟩ = ⟨1, 2, 3⟩ :=
  ⟨(C23_generalized_project_point ⟨1, 2, 3⟩ ⟨0, 0, 1⟩ ⟨0, 0, 2⟩).1
      (fun h => by
        have hz := congrArg Vec3.z h
        norm_num at hz),
    (C23_generalized_project_point ⟨1, 2, 3⟩ ⟨0, 0, 1⟩ ⟨0, 0, 0⟩).2 rfl⟩

end UtilityClaims

end vtkPlane

/-! # Properties of the waiting loop, of `AcquireDevice` and of `Align` -/

namespace vtkWebGPUConfiguration

section WaitLoop

variable {K : Type}

end WaitLoop

section MoreSessionClaims

variable {K : Type}

/-- C26: for every session state, `AcquireDevice` invoked for
`DeviceRequestCompletedEvent` sets `DeviceReady` to false and leaves the stored
device handle (and everything else) untouched when the delivered handle is
null, and otherwise stores the delivered handle as the device handle and sets
`DeviceReady` to true; invoked for any other event id it changes nothing. -/
theorem C26_acquire_device (s : State K) (event : EventId) (calldata : Ptr) :
    AcquireDevice s EventId.DeviceRequestCompletedEvent Ptr.null
      = { s with DeviceReady := false } ∧
    (calldata ≠ Ptr.null →
      AcquireDevice s EventId.DeviceRequestCompletedEvent calldata
        = { s with DeviceReady := true, Device := calldata }) ∧
    (event ≠ EventId.DeviceRequestCompletedEvent → AcquireDevice s event calldata = s) := by
  refine ⟨by simp [AcquireDevice], ?_, ?_⟩
  · intro h
    simp [AcquireDevice, h]
  · intro h
    simp [AcquireDevice, h]

/-- C26 at a ready session: a null device, device 7, and the adapter event. -/
theorem C26_acquire_device_witness :
    AcquireDevice (readySession : State ℚ) EventId.DeviceRequestCompletedEvent Ptr.null
      = ⟨Ptr.adapter 1, Ptr.device 2, false, 5, 1,
          [BackendCall.RequestAdapter, BackendCall.ProcessEvents,
           BackendCall.RequestDevice (Ptr.adapter 1), BackendCall.ProcessEvents], 0⟩ ∧
    AcquireDevice (freshSession : State ℚ) EventId.DeviceRequestCompletedEvent (Ptr.device 7)
      = ⟨Ptr.null, Ptr.device 7, true, 5, 0, [], 0⟩ ∧
    AcquireDevice (freshSession : State ℚ) EventId.AdapterRequestCompletedEvent (Ptr.device 7)
      = freshSession :=
  ⟨(C26_acquire_device readySession EventId.DeviceRequestCompletedEvent Ptr.null).1,
    (C26_acquire_device freshSession EventId.DeviceRequestCompletedEvent (Ptr.device 7)).2.1
      (fun h => by cases h),
    (C26_acquire_device freshSession EventId.AdapterRequestCompletedEvent (Ptr.device 7)).2.2
      (fun h => by cases h)⟩

/-- C24, evaluated at the failing input: `Align(1, 3)` is 1, while
`ceil(1 / 3) * 3` is 3. -/
theorem C24_align_one_three : Align 1 3 = 1 ∧ ceilMultiple 1 3 = 3 := by
  refine ⟨by decide, ?_⟩
  have h : ⌈(1 : ℚ) / 3⌉₊ = 1 := by
    rw [Nat.ceil_eq_iff (by norm_num)]
    constructor <;> norm_num
  have h2 : ceilMultiple 1 3 = ⌈(1 : ℚ) / 3⌉₊ * 3 := by
    unfold ceilMultiple
    norm_num
  rw [h2, h]

end MoreSessionClaims

end vtkWebGPUConfiguration

/-! # Properties of the finite-plane intersection and of the fit -/

namespace vtkPlane

open vtkMath

section FinitePlane

/-- A line that starts on the plane and is not parallel to it: the call
returns 1 with `t = 0` and `x` the start point. -/
theorem IntersectWithLine_start {K : Type} [LinearOrderedField K] (M : K)
    (p1 p2 n p0 x : Vec3 K) (hnum : Dot n (Subtract p0 p1) = 0)
    (hden : Dot n (Subtract p2 p1) ≠ 0) :
    IntersectWithLine M p1 p2 n p0 x = ⟨1, 0, p1⟩ := by
  rw [IntersectWithLine_eq, hnum]
  have h : ¬ |Dot n (Subtract p2 p1)| ≤ |(0 : K)| * VTK_PLANE_TOL := by
    rw [abs_zero, zero_mul, not_le]
    exact abs_pos.2 hden
  rw [if_neg h]
  simp only [zero_div, le_refl, zero_le_one, and_self, if_true]
  congr 1
  simp only [vtkMath.Add, MultiplyScalar, Subtract]
  ext <;> simp

/-- C25, evaluated at the failing input: the plane through `(0,0,0)` with
normal `(1,1,0)` meets the unit square `(0,0,0)`, `(1,0,0)`, `(0,1,0)` in the
corner `(0,0,0)` only, yet `IntersectWithFinitePlane` returns 1, with both end
points `x0` and `x1` equal to that corner. -/
theorem C25_corner_touch_returns_one :
    IntersectWithFinitePlane ((10 : ℚ) ^ 308) ⟨1, 1, 0⟩ ⟨0, 0, 0⟩
        ⟨0, 0, 0⟩ ⟨1, 0, 0⟩ ⟨0, 1, 0⟩ ⟨9, 9, 9⟩ ⟨9, 9, 9⟩
      = ⟨1, ⟨0, 0, 0⟩, ⟨0, 0, 0⟩⟩ ∧
    ∀ s u : ℚ, 0 ≤ s → s ≤ 1 → 0 ≤ u → u ≤ 1 →
      Dot (⟨1, 1, 0⟩ : Vec3 ℚ)
        (Subtract (parallelogramPoint ⟨0, 0, 0⟩ ⟨1, 0, 0⟩ ⟨0, 1, 0⟩ s u) ⟨0, 0, 0⟩) = 0 →
      s = 0 ∧ u = 0 := by
  constructor
  · have h1 : ∀ x : Vec3 ℚ, IntersectWithLine ((10 : ℚ) ^ 308) ⟨0, 0, 0⟩ ⟨1, 0, 0⟩
        ⟨1, 1, 0⟩ ⟨0, 0, 0⟩ x = ⟨1, 0, ⟨0, 0, 0⟩⟩ := fun x =>
      IntersectWithLine_start _ _ _ _ _ _ (by simp [vtkMath.Dot, Subtract])
        (by simp [vtkMath.Dot, Subtract])
    have h2 : ∀ x : Vec3 ℚ, IntersectWithLine ((10 : ℚ) ^ 308) ⟨0, 0, 0⟩ ⟨0, 1, 0⟩
        ⟨1, 1, 0⟩ ⟨0, 0, 0⟩ x = ⟨1, 0, ⟨0, 0, 0⟩⟩ := fun x =>
      IntersectWithLine_start _ _ _ _ _ _ (by simp [vtkMath.Dot, Subtract])
        (by simp [vtkMath.Dot, Subtract])
    simp [IntersectWithFinitePlane, scanLine, h1, h2]
  · intro s u hs _ hu _ h
    simp only [vtkMath.Dot, Subtract, parallelogramPoint] at h
    constructor <;> linarith

end FinitePlane

end vtkPlane

namespace vtkPlane

open vtkMath

section Partition

variable {K : Type}

/-- The chunks of a partition of `[first, last)` put end to end are the points
of `[first, last)`, each once and in order. -/
theorem flatten_tiles (pts : List (Vec3 K)) (ranges : List (Nat × Nat)) :
    ∀ first last, tiles ranges first last →
      (ranges.map (fun r => pointRange pts r.1 r.2)).flatten = pointRange pts first last := by
  induction ranges with
  | nil =>
    intro first last h
    simp only [tiles] at h
    subst h
    simp [pointRange]
  | cons r rs ih =>
    intro first last h
    obtain ⟨h1, h2, h3, h4⟩ := h
    simp only [List.map_cons, List.flatten_cons]
    rw [ih _ _ h4, h1, pointRange_append pts _ _ _ h2 h3]

/-- The ranges of `smpRanges` partition the range they are cut from. -/
theorem tiles_smpRanges (cuts : List Nat) :
    ∀ first last, first ≤ last → tiles (smpRanges cuts first last) first last := by
  induction cuts with
  | nil =>
    intro first last h
    by_cases hlt : first < last
    · simp [smpRanges, hlt, tiles, h]
    · have : first = last := by omega
      simp [smpRanges, hlt, tiles, this]
  | cons k ks ih =>
    intro first last h
    by_cases hlt : first < last
    · have h2 : min (first + k) last ≤ last := by omega
      simp only [smpRanges, hlt, if_true, tiles]
      exact ⟨trivial, by omega, h2, ih _ _ h2⟩
    · have : first = last := by omega
      simp [smpRanges, hlt, tiles, this]

/-- Summing a per-point quantity chunk by chunk over a partition of the whole
index range and adding up the chunk sums gives its sum over all the points. -/
theorem sum_tiles [LinearOrderedField K] (pts : List (Vec3 K)) (ranges : List (Nat × Nat))
    (h : tiles ranges 0 pts.length) (φ : Vec3 K → K) :
    (ranges.map (fun r => ((pointRange pts r.1 r.2).map φ).sum)).sum = (pts.map φ).sum := by
  have hf := flatten_tiles pts ranges 0 pts.length h
  rw [pointRange_all] at hf
  have h2 := congrArg (fun l => (l.map φ).sum) hf
  simp only [List.map_flatten, List.sum_flatten, List.map_map] at h2
  rw [← h2]
  rfl

/-- The centroid pass over any partition yields the arithmetic mean. -/
theorem runOn_eq_centroid [LinearOrderedField K] (ranges : List (Nat × Nat))
    (pts : List (Vec3 K)) (h : tiles ranges 0 pts.length) :
    ComputePointsOrigin.runOn ranges pts = centroid pts := by
  rw [ComputePointsOrigin.runOn, ComputePointsOrigin.Reduce]
  simp only [foldl_Add, ComputePointsOrigin.origin_call_init, List.map_map, Function.comp_def,
    sum_tiles pts ranges h, zero_add]
  simp only [vtkMath.Add, vtkMath.MultiplyScalar, centroid, zero_add]
  ext <;> simp only [mul_comm]

/-- The covariance pass over any partition yields the six averaged moments. -/
theorem runOn_eq_covariance [LinearOrderedField K] (ranges : List (Nat × Nat))
    (pts : List (Vec3 K)) (o : Vec3 K) (h : tiles ranges 0 pts.length) :
    ComputeCovariance.runOn ranges pts o = covariance pts o := by
  rw [ComputeCovariance.runOn, ComputeCovariance.Reduce]
  simp only [foldl_cov, ComputeCovariance.cov_call_init, List.map_map, Function.comp_def,
    moment, sum_tiles pts ranges h, zero_add, covariance]
  simp only [div_eq_mul_inv, one_mul, mul_comm]

/-- The single chunk `[0, N)` is a partition. -/
theorem tiles_single (N : Nat) : tiles [(0, N)] 0 N := by
  simp [tiles]

end Partition

section FitClaims

variable {K : Type} [LinearOrderedField K]

/-- C27: in exact arithmetic, for every point sequence of length `N ≥ 1` and
every partition of the index range `[0, N)` into contiguous chunks processed
with per-chunk accumulators, the centroid pass yields the mean of the points
and the covariance pass yields the six values `(1/N) * sum of r_a * r_b` with
`r = p - origin`; both are the results for the single chunk `[0, N)`, and the
passes as `vtkSMPTools::For` runs them (`run`, for every cut) yield the same. -/
theorem C27_chunk_independent (pts : List (Vec3 K)) (origin : Vec3 K)
    (ranges₁ ranges₂ : List (Nat × Nat)) (cuts₁ cuts₂ : List Nat)
    (_hN : 1 ≤ pts.length) (h₁ : tiles ranges₁ 0 pts.length)
    (h₂ : tiles ranges₂ 0 pts.length) :
    ComputePointsOrigin.runOn ranges₁ pts = centroid pts ∧
    ComputePointsOrigin.runOn ranges₁ pts
      = ComputePointsOrigin.runOn [(0, pts.length)] pts ∧
    ComputeCovariance.runOn ranges₂ pts origin = covariance pts origin ∧
    ComputeCovariance.runOn ranges₂ pts origin
      = ComputeCovariance.runOn [(0, pts.length)] pts origin ∧
    ComputePointsOrigin.run cuts₁ pts = centroid pts ∧
    ComputeCovariance.run cuts₂ pts origin = covariance pts origin := by
  refine ⟨runOn_eq_centroid _ _ h₁, ?_, runOn_eq_covariance _ _ _ h₂, ?_,
    run_eq_centroid _ _, run_eq_covariance _ _ _⟩
  · rw [runOn_eq_centroid _ _ h₁, runOn_eq_centroid _ _ (tiles_single _)]
  · rw [runOn_eq_covariance _ _ _ h₂, runOn_eq_covariance _ _ _ (tiles_single _)]

/-- C27 at the corners of the unit square, cut into `[0,1) [1,3) [3,4)` for the
centroid and `[0,2) [2,4)` for the covariance. -/
theorem C27_chunk_independent_witness :
    ComputePointsOrigin.runOn [(0, 1), (1, 3), (3, 4)] (unitSquare : List (Vec3 ℚ))
      = centroid unitSquare ∧
    ComputePointsOrigin.runOn [(0, 1), (1, 3), (3, 4)] (unitSquare : List (Vec3 ℚ))
      = ComputePointsOrigin.runOn [(0, (unitSquare : List (Vec3 ℚ)).length)] unitSquare ∧
    ComputeCovariance.runOn [(0, 2), (2, 4)] (unitSquare : List (Vec3 ℚ)) ⟨1 / 2, 1 / 2, 0⟩
      = covariance unitSquare ⟨1 / 2, 1 / 2, 0⟩ ∧
    ComputeCovariance.runOn [(0, 2), (2, 4)] (unitSquare : List (Vec3 ℚ)) ⟨1 / 2, 1 / 2, 0⟩
      = ComputeCovariance.runOn [(0, (unitSquare : List (Vec3 ℚ)).length)] unitSquare
          ⟨1 / 2, 1 / 2, 0⟩ ∧
    ComputePointsOrigin.run [1, 2] (unitSquare : List (Vec3 ℚ)) = centroid unitSquare ∧
    ComputeCovariance.run [3] (unitSquare : List (Vec3 ℚ)) ⟨1 / 2, 1 / 2, 0⟩
      = covariance unitSquare ⟨1 / 2, 1 / 2, 0⟩ :=
  C27_chunk_independent unitSquare ⟨1 / 2, 1 / 2, 0⟩ [(0, 1), (1, 3), (3, 4)]
    [(0, 2), (2, 4)] [1, 2] [3] (by decide) (by simp [tiles, unitSquare])
    (by simp [tiles, unitSquare])

end FitClaims

end vtkPlane

namespace vtkPlane

open vtkMath

section Growth

variable {K : Type} [LinearOrderedField K]

/-- One block of the direction extraction, written out. -/
theorem axisBlock_eq (w : Vec3 K) (det : K) (a : Vec3 K) :
    axisBlock w det a
      = Add w (MultiplyScalar a (if Dot w a < 0 then -(det * det) else det * det)) := rfl

/-- The first block: the accumulator `{0, 0, 0}` has dot product 0 with every
candidate, so the candidate is added with the positive weight. -/
theorem axisBlock_zero (det : K) (a : Vec3 K) :
    axisBlock (⟨0, 0, 0⟩ : Vec3 K) det a = MultiplyScalar a (det * det) := by
  have h : ¬ Dot (⟨0, 0, 0⟩ : Vec3 K) a < 0 := by simp [vtkMath.Dot]
  rw [axisBlock_eq, if_neg h]
  simp only [vtkMath.Add, MultiplyScalar]
  ext <;> simp

/-- A block adds at least `det^4 |a|^2` to the squared length of the
accumulator. -/
theorem axisBlock_dot (w : Vec3 K) (det : K) (a : Vec3 K) :
    Dot w w + (det * det) * (det * det) * Dot a a
      ≤ Dot (axisBlock w det a) (axisBlock w det a) := by
  rw [axisBlock_eq]
  have hsq : 0 ≤ det * det := mul_self_nonneg det
  split_ifs with h
  · have h2 : 0 ≤ (det * det) * (-(Dot w a)) := mul_nonneg hsq (by linarith)
    simp only [vtkMath.Dot, vtkMath.Add, MultiplyScalar] at h2 ⊢
    nlinarith [h2]
  · have h2 : 0 ≤ (det * det) * Dot w a := mul_nonneg hsq (not_lt.1 h)
    simp only [vtkMath.Dot, vtkMath.Add, MultiplyScalar] at h2 ⊢
    nlinarith [h2]

/-- In exact arithmetic the square root is monotone on non-negative numbers. -/
theorem sqrt_le_sqrt_of_exact {env : MathEnv K} (hex : env.Exact) (a b : K) (ha : 0 ≤ a)
    (hab : a ≤ b) : env.sqrt a ≤ env.sqrt b := by
  by_contra h
  have hlt : env.sqrt b < env.sqrt a := not_le.1 h
  have hb0 := hex.sqrt_nonneg b (le_trans ha hab)
  have h1 := hex.sqrt_mul_self a ha
  have h2 := hex.sqrt_mul_self b (le_trans ha hab)
  have : env.sqrt b * env.sqrt b < env.sqrt a * env.sqrt a :=
    mul_self_lt_mul_self hb0 hlt
  linarith

/-- A dot product of a vector with itself is not negative. -/
theorem dot_self_nonneg (v : Vec3 K) : 0 ≤ Dot v v := by
  have hx := mul_self_nonneg v.x
  have hy := mul_self_nonneg v.y
  have hz := mul_self_nonneg v.z
  simp only [vtkMath.Dot]
  linarith

/-- The squared length of the accumulated weighted direction is at least the
sum of the sixth powers of the three principal minors. -/
theorem weightedDir_dot (c : Cov6 K) :
    (c.yy * c.zz - c.yz * c.yz) ^ 6 + (c.xx * c.zz - c.xz * c.xz) ^ 6
        + (c.xx * c.yy - c.xy * c.xy) ^ 6
      ≤ Dot (weightedDir c) (weightedDir c) := by
  have key : ∀ (w : Vec3 K) (det : K) (a : Vec3 K), det * det ≤ Dot a a →
      Dot w w + det ^ 6 ≤ Dot (axisBlock w det a) (axisBlock w det a) := by
    intro w det a ha
    have h1 := axisBlock_dot w det a
    have h2 : (det * det) * (det * det) * (det * det)
        ≤ (det * det) * (det * det) * Dot a a :=
      mul_le_mul_of_nonneg_left ha (mul_nonneg (mul_self_nonneg _) (mul_self_nonneg _))
    have h3 : det ^ 6 = (det * det) * (det * det) * (det * det) := by ring
    linarith
  have comp : ∀ u v t : K, u * u ≤ Dot (⟨u, v, t⟩ : Vec3 K) ⟨u, v, t⟩ ∧
      v * v ≤ Dot (⟨u, v, t⟩ : Vec3 K) ⟨u, v, t⟩ ∧
      t * t ≤ Dot (⟨u, v, t⟩ : Vec3 K) ⟨u, v, t⟩ := by
    intro u v t
    have hu := mul_self_nonneg u
    have hv := mul_self_nonneg v
    have ht := mul_self_nonneg t
    simp only [vtkMath.Dot]
    refine ⟨by linarith, by linarith, by linarith⟩
  have k1 := key (⟨0, 0, 0⟩ : Vec3 K) (c.yy * c.zz - c.yz * c.yz)
    ⟨c.yy * c.zz - c.yz * c.yz, c.xz * c.yz - c.xy * c.zz, c.xy * c.yz - c.xz * c.yy⟩
    (comp _ _ _).1
  have k2 := key (axisBlock (⟨0, 0, 0⟩ : Vec3 K) (c.yy * c.zz - c.yz * c.yz)
    ⟨c.yy * c.zz - c.yz * c.yz, c.xz * c.yz - c.xy * c.zz, c.xy * c.yz - c.xz * c.yy⟩)
    (c.xx * c.zz - c.xz * c.xz)
    ⟨c.xz * c.yz - c.xy * c.zz, c.xx * c.zz - c.xz * c.xz, c.xy * c.xz - c.yz * c.xx⟩
    (comp _ _ _).2.1
  have k3 := key (axisBlock (axisBlock (⟨0, 0, 0⟩ : Vec3 K) (c.yy * c.zz - c.yz * c.yz)
    ⟨c.yy * c.zz - c.yz * c.yz, c.xz * c.yz - c.xy * c.zz, c.xy * c.yz - c.xz * c.yy⟩)
    (c.xx * c.zz - c.xz * c.xz)
    ⟨c.xz * c.yz - c.xy * c.zz, c.xx * c.zz - c.xz * c.xz, c.xy * c.xz - c.yz * c.xx⟩)
    (c.xx * c.yy - c.xy * c.xy)
    ⟨c.xy * c.yz - c.xz * c.yy, c.xy * c.xz - c.yz * c.xx, c.xx * c.yy - c.xy * c.xy⟩
    (comp _ _ _).2.2
  have z0 : Dot (⟨0, 0, 0⟩ : Vec3 K) ⟨0, 0, 0⟩ = 0 := by simp [vtkMath.Dot]
  rw [z0] at k1
  simp only [weightedDir]
  linarith

end Growth

end vtkPlane

namespace vtkPlane

open vtkMath

section Minors

variable {K : Type} [LinearOrderedField K]

/-- For collinear points the three principal minors of the covariance matrix
about the mean vanish. -/
theorem minors_collinear (pts : List (Vec3 K)) (hne : pts ≠ []) (h : Collinear pts) :
    (covariance pts (centroid pts)).yy * (covariance pts (centroid pts)).zz
      - (covariance pts (centroid pts)).yz * (covariance pts (centroid pts)).yz = 0 ∧
    (covariance pts (centroid pts)).xx * (covariance pts (centroid pts)).zz
      - (covariance pts (centroid pts)).xz * (covariance pts (centroid pts)).xz = 0 ∧
    (covariance pts (centroid pts)).xx * (covariance pts (centroid pts)).yy
      - (covariance pts (centroid pts)).xy * (covariance pts (centroid pts)).xy = 0 := by
  obtain ⟨d, hd⟩ := collinear_centered pts hne h
  have hz : ∀ f g : Vec3 K → K, f ⟨0, 0, 0⟩ = 0 →
      crossMoment f g pts (centroid pts) = 0 := by
    intro f g hf
    apply crossMoment_eq_zero
    intro p hp q hq
    obtain ⟨s, hs⟩ := hd p hp
    obtain ⟨t, ht⟩ := hd q hq
    rw [hs, ht, cross_parallel, hf, zero_mul]
  obtain ⟨h1, h2, h3, _, _, _⟩ := adj_covariance pts (centroid pts)
  rw [hz _ _ rfl, mul_zero] at h1 h2 h3
  exact ⟨h1, h2, h3⟩

/-- For points that are not collinear one of the three principal minors of the
covariance matrix about the mean is positive. -/
theorem minors_not_collinear (pts : List (Vec3 K)) (hne : pts ≠ []) (h : ¬ Collinear pts) :
    0 < (covariance pts (centroid pts)).yy * (covariance pts (centroid pts)).zz
      - (covariance pts (centroid pts)).yz * (covariance pts (centroid pts)).yz ∨
    0 < (covariance pts (centroid pts)).xx * (covariance pts (centroid pts)).zz
      - (covariance pts (centroid pts)).xz * (covariance pts (centroid pts)).xz ∨
    0 < (covariance pts (centroid pts)).xx * (covariance pts (centroid pts)).yy
      - (covariance pts (centroid pts)).xy * (covariance pts (centroid pts)).xy := by
  obtain ⟨p, hp, q, hq, hc⟩ := exists_cross_ne_zero pts (centroid pts) h
  obtain ⟨h1, h2, h3, _, _, _⟩ := adj_covariance pts (centroid pts)
  have hN : 0 < (pts.length : K) := by
    have : 0 < pts.length := List.length_pos.2 hne
    exact_mod_cast this
  have hν : 0 < (1 / (pts.length : K)) ^ 2 / 2 := by positivity
  have hcomp : (cross (Subtract p (centroid pts)) (Subtract q (centroid pts))).x ≠ 0 ∨
      (cross (Subtract p (centroid pts)) (Subtract q (centroid pts))).y ≠ 0 ∨
      (cross (Subtract p (centroid pts)) (Subtract q (centroid pts))).z ≠ 0 := by
    by_contra hall
    push_neg at hall
    apply hc
    ext
    · exact hall.1
    · exact hall.2.1
    · exact hall.2.2
  rcases hcomp with hx | hy | hz
  · left
    rw [h1]
    exact mul_pos hν (crossMoment_self_pos Vec3.x pts _ p q hp hq hx)
  · right; left
    rw [h2]
    exact mul_pos hν (crossMoment_self_pos Vec3.y pts _ p q hp hq hy)
  · right; right
    rw [h3]
    exact mul_pos hν (crossMoment_self_pos Vec3.z pts _ p q hp hq hz)

/-- With a positive principal minor the length of the weighted direction is
not zero, in exact arithmetic. -/
theorem Norm_weightedDir_ne_zero {env : MathEnv K} (hex : env.Exact) (c : Cov6 K)
    (h : c.yy * c.zz - c.yz * c.yz ≠ 0 ∨ c.xx * c.zz - c.xz * c.xz ≠ 0 ∨
      c.xx * c.yy - c.xy * c.xy ≠ 0) :
    Norm env (weightedDir c) ≠ 0 := by
  intro h0
  have hsq := Norm_mul_self hex (weightedDir c)
  rw [h0, mul_zero] at hsq
  have hlow := weightedDir_dot c
  rw [← hsq] at hlow
  have e1 : 0 ≤ (c.yy * c.zz - c.yz * c.yz) ^ 6 := by positivity
  have e2 : 0 ≤ (c.xx * c.zz - c.xz * c.xz) ^ 6 := by positivity
  have e3 : 0 ≤ (c.xx * c.yy - c.xy * c.xy) ^ 6 := by positivity
  rcases h with h | h | h
  · have : 0 < (c.yy * c.zz - c.yz * c.yz) ^ 6 := by positivity
    linarith
  · have : 0 < (c.xx * c.zz - c.xz * c.xz) ^ 6 := by positivity
    linarith
  · have : 0 < (c.xx * c.yy - c.xy * c.xy) ^ 6 := by positivity
    linarith

/-- Shifting two points by the same vector leaves their difference unchanged. -/
theorem Subtract_Add_Add (p c t : Vec3 K) :
    Subtract (vtkMath.Add p t) (vtkMath.Add c t) = Subtract p c := by
  simp only [Subtract, vtkMath.Add]
  ext <;> simp only <;> ring

/-- The coordinate sums of shifted points. -/
theorem sum_translate (pts : List (Vec3 K)) (t : Vec3 K) :
    ((translate pts t).map Vec3.x).sum = (pts.map Vec3.x).sum + (pts.length : K) * t.x ∧
    ((translate pts t).map Vec3.y).sum = (pts.map Vec3.y).sum + (pts.length : K) * t.y ∧
    ((translate pts t).map Vec3.z).sum = (pts.map Vec3.z).sum + (pts.length : K) * t.z := by
  induction pts with
  | nil => simp [translate]
  | cons p pts ih =>
    obtain ⟨hx, hy, hz⟩ := ih
    simp only [translate] at hx hy hz
    simp only [translate, List.map_cons, List.sum_cons, List.length_cons, Nat.cast_succ]
    rw [hx, hy, hz]
    simp only [vtkMath.Add]
    refine ⟨by ring, by ring, by ring⟩

/-- The mean of shifted points is the shifted mean. -/
theorem centroid_translate (pts : List (Vec3 K)) (t : Vec3 K) (hne : pts ≠ []) :
    centroid (translate pts t) = vtkMath.Add (centroid pts) t := by
  have hN : (pts.length : K) ≠ 0 := by
    have : pts.length ≠ 0 := fun h0 => hne (List.length_eq_zero.1 h0)
    exact_mod_cast this
  obtain ⟨hx, hy, hz⟩ := sum_translate pts t
  have hl : (translate pts t).length = pts.length := by simp [translate]
  simp only [centroid, hx, hy, hz, hl, vtkMath.Add]
  ext <;> simp only <;> field_simp <;> ring

/-- The covariance of shifted points about a shifted origin is unchanged. -/
theorem covariance_translate (pts : List (Vec3 K)) (c t : Vec3 K) :
    covariance (translate pts t) (vtkMath.Add c t) = covariance pts c := by
  have hl : (translate pts t).length = pts.length := by simp [translate]
  have hm : ∀ f g : Vec3 K → K,
      moment f g (translate pts t) (vtkMath.Add c t) = moment f g pts c := by
    intro f g
    simp only [moment, translate, List.map_map, Function.comp_def, Subtract_Add_Add]
  simp only [covariance, hl, hm]

end Minors

end vtkPlane

namespace vtkPlane

open vtkMath

section MoreFitClaims

variable {K : Type} [LinearOrderedField K]

/-- C28 as amended: in the direction-extraction step the three axis candidates
are processed in the order x, y, z starting from `{0, 0, 0}`; each candidate is
weighted by the square of its own 2x2 determinant, negated exactly when its dot
product with the accumulator as it stands before the candidate is added is
strictly negative (not when it is zero, hence never for the first candidate);
as a consequence, in exact arithmetic (an ordered field, with an exact square
root for the norm), the squared length and the Euclidean norm of the
accumulator do not decrease from one candidate to the next. -/
theorem C28_direction_extraction (env : MathEnv K) (hex : env.Exact) (c : Cov6 K)
    (w : Vec3 K) (det : K) (a : Vec3 K) :
    weightedDir c
      = axisBlock
          (axisBlock
            (axisBlock ⟨0, 0, 0⟩ (c.yy * c.zz - c.yz * c.yz)
              ⟨c.yy * c.zz - c.yz * c.yz, c.xz * c.yz - c.xy * c.zz,
                c.xy * c.yz - c.xz * c.yy⟩)
            (c.xx * c.zz - c.xz * c.xz)
            ⟨c.xz * c.yz - c.xy * c.zz, c.xx * c.zz - c.xz * c.xz,
              c.xy * c.xz - c.yz * c.xx⟩)
          (c.xx * c.yy - c.xy * c.xy)
          ⟨c.xy * c.yz - c.xz * c.yy, c.xy * c.xz - c.yz * c.xx,
            c.xx * c.yy - c.xy * c.xy⟩ ∧
    (Dot w a < 0 → axisBlock w det a = Add w (MultiplyScalar a (-(det * det)))) ∧
    (¬ Dot w a < 0 → axisBlock w det a = Add w (MultiplyScalar a (det * det))) ∧
    axisBlock (⟨0, 0, 0⟩ : Vec3 K) det a = MultiplyScalar a (det * det) ∧
    Dot w w ≤ Dot (axisBlock w det a) (axisBlock w det a) ∧
    Norm env w ≤ Norm env (axisBlock w det a) := by
  have hgrow : Dot w w ≤ Dot (axisBlock w det a) (axisBlock w det a) := by
    have h1 := axisBlock_dot w det a
    have h2 : 0 ≤ (det * det) * (det * det) * Dot a a :=
      mul_nonneg (mul_nonneg (mul_self_nonneg _) (mul_self_nonneg _)) (dot_self_nonneg a)
    linarith
  refine ⟨rfl, ?_, ?_, axisBlock_zero det a, hgrow, ?_⟩
  · intro h
    rw [axisBlock_eq, if_pos h]
  · intro h
    rw [axisBlock_eq, if_neg h]
  · have h := sqrt_le_sqrt_of_exact hex _ _ (dot_self_nonneg w) hgrow
    simpa [vtkMath.Norm, vtkMath.Dot] using h

/-- C28 in real arithmetic at the accumulator `(1, 0, 0)` and the candidate
`(-1, 2, 0)` with determinant 2, whose dot product with the accumulator is
negative. -/
theorem C28_direction_extraction_witness :
    axisBlock (⟨1, 0, 0⟩ : Vec3 ℝ) 2 ⟨-1, 2, 0⟩
      = Add ⟨1, 0, 0⟩ (MultiplyScalar ⟨-1, 2, 0⟩ (-(2 * 2))) ∧
    Dot (⟨1, 0, 0⟩ : Vec3 ℝ) ⟨1, 0, 0⟩
      ≤ Dot (axisBlock (⟨1, 0, 0⟩ : Vec3 ℝ) 2 ⟨-1, 2, 0⟩)
          (axisBlock (⟨1, 0, 0⟩ : Vec3 ℝ) 2 ⟨-1, 2, 0⟩) ∧
    Norm (exactEnv Real.sqrt) (⟨1, 0, 0⟩ : Vec3 ℝ)
      ≤ Norm (exactEnv Real.sqrt) (axisBlock (⟨1, 0, 0⟩ : Vec3 ℝ) 2 ⟨-1, 2, 0⟩) :=
  ⟨(C28_direction_extraction (exactEnv Real.sqrt) exactEnv_real ⟨1, 0, 0, 1, 0, 1⟩
      ⟨1, 0, 0⟩ 2 ⟨-1, 2, 0⟩).2.1 (by norm_num [vtkMath.Dot]),
    (C28_direction_extraction (exactEnv Real.sqrt) exactEnv_real ⟨1, 0, 0, 1, 0, 1⟩
      ⟨1, 0, 0⟩ 2 ⟨-1, 2, 0⟩).2.2.2.2.1,
    (C28_direction_extraction (exactEnv Real.sqrt) exactEnv_real ⟨1, 0, 0, 1, 0, 1⟩
      ⟨1, 0, 0⟩ 2 ⟨-1, 2, 0⟩).2.2.2.2.2⟩

/-- C29: in exact arithmetic, for every point set of at least 3 points,
`ComputeBestFittingPlane` returns true if and only if the points are not all
collinear, and that is the case if and only if one of the three principal 2x2
minors of the covariance matrix it computed is not zero; so every
non-collinear input succeeds, coplanar or not. -/
theorem C29_success_iff_not_collinear (env : MathEnv K) (hex : env.Exact)
    (cuts₁ cuts₂ : List Nat) (pts : List (Vec3 K)) (origin normal : Vec3 K)
    (h3 : 3 ≤ pts.length) :
    ((ComputeBestFittingPlane env cuts₁ cuts₂ pts origin normal).success = true
      ↔ ¬ Collinear pts) ∧
    (¬ Collinear pts ↔
      ((ComputeCovariance.run cuts₂ pts (ComputePointsOrigin.run cuts₁ pts)).yy
          * (ComputeCovariance.run cuts₂ pts (ComputePointsOrigin.run cuts₁ pts)).zz
        - (ComputeCovariance.run cuts₂ pts (ComputePointsOrigin.run cuts₁ pts)).yz
          * (ComputeCovariance.run cuts₂ pts (ComputePointsOrigin.run cuts₁ pts)).yz ≠ 0 ∨
       (ComputeCovariance.run cuts₂ pts (ComputePointsOrigin.run cuts₁ pts)).xx
          * (ComputeCovariance.run cuts₂ pts (ComputePointsOrigin.run cuts₁ pts)).zz
        - (ComputeCovariance.run cuts₂ pts (ComputePointsOrigin.run cuts₁ pts)).xz
          * (ComputeCovariance.run cuts₂ pts (ComputePointsOrigin.run cuts₁ pts)).xz ≠ 0 ∨
       (ComputeCovariance.run cuts₂ pts (ComputePointsOrigin.run cuts₁ pts)).xx
          * (ComputeCovariance.run cuts₂ pts (ComputePointsOrigin.run cuts₁ pts)).yy
        - (ComputeCovariance.run cuts₂ pts (ComputePointsOrigin.run cuts₁ pts)).xy
          * (ComputeCovariance.run cuts₂ pts (ComputePointsOrigin.run cuts₁ pts)).xy ≠ 0)) := by
  have hne : pts ≠ [] := by
    intro h0
    rw [h0] at h3
    simp at h3
  rw [run_eq_centroid, run_eq_covariance]
  have hminor : ¬ Collinear pts ↔
      ((covariance pts (centroid pts)).yy * (covariance pts (centroid pts)).zz
        - (covariance pts (centroid pts)).yz * (covariance pts (centroid pts)).yz ≠ 0 ∨
       (covariance pts (centroid pts)).xx * (covariance pts (centroid pts)).zz
        - (covariance pts (centroid pts)).xz * (covariance pts (centroid pts)).xz ≠ 0 ∨
       (covariance pts (centroid pts)).xx * (covariance pts (centroid pts)).yy
        - (covariance pts (centroid pts)).xy * (covariance pts (centroid pts)).xy ≠ 0) := by
    constructor
    · intro hnc
      rcases minors_not_collinear pts hne hnc with h | h | h
      · exact Or.inl (ne_of_gt h)
      · exact Or.inr (Or.inl (ne_of_gt h))
      · exact Or.inr (Or.inr (ne_of_gt h))
    · intro hm hcol
      obtain ⟨z1, z2, z3⟩ := minors_collinear pts hne hcol
      rcases hm with h | h | h
      · exact h z1
      · exact h z2
      · exact h z3
  refine ⟨⟨?_, ?_⟩, hminor⟩
  · intro hs hcol
    obtain ⟨_, _, hnz⟩ := fit_success env cuts₁ cuts₂ pts origin normal hs
    apply hnz
    rw [weightedDir_collinear pts hne hcol]
    simpa [vtkMath.Norm] using sqrt_zero_of_exact hex
  · intro hnc
    have hnz := Norm_weightedDir_ne_zero hex _ (hminor.1 hnc)
    rw [fit_of_good env cuts₁ cuts₂ pts origin normal h3 (hex.finite _) hnz]

/-- C29 in real arithmetic at the six points `(±1,0,0)`, `(0,±1,0)`, `(0,0,±2)`,
which do not lie in one plane: the call succeeds and the points are not
collinear. -/
theorem C29_success_iff_not_collinear_witness :
    (ComputeBestFittingPlane (exactEnv Real.sqrt) [] [] (octahedron : List (Vec3 ℝ))
        ⟨7, 8, 9⟩ ⟨5, 5, 5⟩).success = true ∧
    ¬ Collinear (octahedron : List (Vec3 ℝ)) :=
  ⟨(fit_octahedron exactEnv_real [] [] ⟨7, 8, 9⟩ ⟨5, 5, 5⟩).2 ▸ rfl,
    (C29_success_iff_not_collinear (exactEnv Real.sqrt) exactEnv_real [] [] octahedron
      ⟨7, 8, 9⟩ ⟨5, 5, 5⟩ (by decide)).1.1
      ((fit_octahedron exactEnv_real [] [] ⟨7, 8, 9⟩ ⟨5, 5, 5⟩).2 ▸ rfl)⟩

/-- C30: `ComputeBestFittingPlane` is equivariant under translation: for every
point set and every vector `t`, fitting the points shifted by `t` returns the
same success flag and, for at least 3 points, the same normal and the origin
shifted by `t` (for every chunking and every prior content of the output
arrays). -/
theorem C30_translation_equivariant (env : MathEnv K)
    (cuts₁ cuts₂ cuts₁' cuts₂' : List Nat) (pts : List (Vec3 K))
    (t origin normal origin' normal' : Vec3 K) :
    (ComputeBestFittingPlane env cuts₁' cuts₂' (translate pts t) origin' normal').success
      = (ComputeBestFittingPlane env cuts₁ cuts₂ pts origin normal).success ∧
    (3 ≤ pts.length →
      (ComputeBestFittingPlane env cuts₁' cuts₂' (translate pts t) origin' normal').normal
        = (ComputeBestFittingPlane env cuts₁ cuts₂ pts origin normal).normal ∧
      (ComputeBestFittingPlane env cuts₁' cuts₂' (translate pts t) origin' normal').origin
        = Add (ComputeBestFittingPlane env cuts₁ cuts₂ pts origin normal).origin t) := by
  have hl : (translate pts t).length = pts.length := by simp [translate]
  by_cases h3 : pts.length < 3
  · rw [fit_of_lt env cuts₁ cuts₂ pts origin normal h3,
      fit_of_lt env cuts₁' cuts₂' (translate pts t) origin' normal' (by rw [hl]; exact h3)]
    exact ⟨rfl, fun h => absurd h (by omega)⟩
  · have hne : pts ≠ [] := by
      intro h0
      rw [h0] at h3
      simp at h3
    have hw : weightedDir (covariance (translate pts t) (centroid (translate pts t)))
        = weightedDir (covariance pts (centroid pts)) := by
      rw [centroid_translate pts t hne, covariance_translate]
    have h3' : 3 ≤ pts.length := by omega
    by_cases hbad : env.isFinite (Norm env (weightedDir (covariance pts (centroid pts))))
        = false ∨ Norm env (weightedDir (covariance pts (centroid pts))) = 0
    · rw [fit_of_faulty env cuts₁ cuts₂ pts origin normal h3' hbad,
        fit_of_faulty env cuts₁' cuts₂' (translate pts t) origin' normal'
          (by rw [hl]; exact h3') (by rw [hw]; exact hbad),
        centroid_translate pts t hne]
      exact ⟨rfl, fun _ => ⟨rfl, rfl⟩⟩
    · push_neg at hbad
      have hf : env.isFinite (Norm env (weightedDir (covariance pts (centroid pts)))) = true := by
        simpa using hbad.1
      rw [fit_of_good env cuts₁ cuts₂ pts origin normal h3' hf hbad.2,
        fit_of_good env cuts₁' cuts₂' (translate pts t) origin' normal'
          (by rw [hl]; exact h3') (by rw [hw]; exact hf) (by rw [hw]; exact hbad.2),
        hw, centroid_translate pts t hne]
      exact ⟨rfl, fun _ => ⟨rfl, rfl⟩⟩

/-- C30 in real arithmetic at the corners of the unit square shifted by
`(1, 2, 3)`. -/
theorem C30_translation_equivariant_witness :
    (ComputeBestFittingPlane (exactEnv Real.sqrt) [2] [1] (translate unitSquare ⟨1, 2, 3⟩)
        ⟨0, 0, 0⟩ ⟨1, 1, 1⟩).normal
      = (ComputeBestFittingPlane (exactEnv Real.sqrt) [] [] (unitSquare : List (Vec3 ℝ))
        ⟨7, 8, 9⟩ ⟨5, 5, 5⟩).normal ∧
    (ComputeBestFittingPlane (exactEnv Real.sqrt) [2] [1] (translate unitSquare ⟨1, 2, 3⟩)
        ⟨0, 0, 0⟩ ⟨1, 1, 1⟩).origin
      = Add (ComputeBestFittingPlane (exactEnv Real.sqrt) [] [] (unitSquare : List (Vec3 ℝ))
        ⟨7, 8, 9⟩ ⟨5, 5, 5⟩).origin ⟨1, 2, 3⟩ :=
  (C30_translation_equivariant (exactEnv Real.sqrt) [] [] [2] [1] unitSquare ⟨1, 2, 3⟩
    ⟨7, 8, 9⟩ ⟨5, 5, 5⟩ ⟨0, 0, 0⟩ ⟨1, 1, 1⟩).2 (by decide)

end MoreFitClaims

end vtkPlane

namespace vtkWebGPUConfiguration

section AlignPow

/-- Masking a 64-bit value with `2^64 - 2^k` clears its `k` low bits. -/
theorem and_mask_eq (x k : Nat) (hk : k ≤ 64) (hx : x < 2 ^ 64) :
    x &&& (2 ^ 64 - 2 ^ k) = 2 ^ k * (x / 2 ^ k) := by
  have hm : 2 ^ 64 - 2 ^ k = 2 ^ k * (2 ^ (64 - k) - 1) := by
    rw [Nat.mul_sub, ← pow_add, Nat.add_sub_cancel' hk, mul_one]
  rw [hm]
  apply Nat.eq_of_testBit_eq
  intro j
  rw [Nat.testBit_and, Nat.testBit_mul_pow_two, Nat.testBit_mul_pow_two,
    Nat.testBit_two_pow_sub_one, ← Nat.shiftRight_eq_div_pow, Nat.testBit_shiftRight]
  by_cases hj : k ≤ j
  · have e : k + (j - k) = j := Nat.add_sub_cancel' hj
    rw [e]
    by_cases h64 : j < 64
    · have : j - k < 64 - k := by omega
      simp [hj, this]
    · have hlt : x < 2 ^ j :=
        lt_of_lt_of_le hx (Nat.pow_le_pow_right (by decide) (not_lt.1 h64))
      have : ¬ j - k < 64 - k := by omega
      simp [hj, this, Nat.testBit_lt_two_pow hlt]
  · simp [hj]

/-- On a power of two below `2^64` and without overflow of
`value + alignment - 1`, `Align` is `alignment * ⌊(value + alignment - 1) / alignment⌋`. -/
theorem Align_pow (value k : Nat) (hk : k < 64) (hv : value + 2 ^ k - 1 < 2 ^ 64) :
    Align value (2 ^ k) = 2 ^ k * ((value + 2 ^ k - 1) / 2 ^ k) := by
  have hpos : 0 < 2 ^ k := Nat.two_pow_pos k
  have hlt : 2 ^ k < 2 ^ 64 := Nat.pow_lt_pow_right (by decide) hk
  have h1 : (value + 2 ^ k + (2 ^ 64 - 1)) % 2 ^ 64 = value + 2 ^ k - 1 := by
    have : value + 2 ^ k + (2 ^ 64 - 1) = (value + 2 ^ k - 1) + 2 ^ 64 := by omega
    rw [this, Nat.add_mod_right, Nat.mod_eq_of_lt hv]
  have h2 : (2 ^ k + (2 ^ 64 - 1)) % 2 ^ 64 = 2 ^ k - 1 := by
    have : 2 ^ k + (2 ^ 64 - 1) = (2 ^ k - 1) + 2 ^ 64 := by omega
    rw [this, Nat.add_mod_right, Nat.mod_eq_of_lt (by omega)]
  have h3 : 2 ^ 64 - 1 - (2 ^ k - 1) = 2 ^ 64 - 2 ^ k := by omega
  unfold Align
  rw [h1, h2, h3]
  exact and_mask_eq _ k (le_of_lt hk) hv

/-- The result of `Align` on a power of two is itself within the range in which
`Align` does not overflow. -/
theorem Align_pow_room (x q k : Nat) (hk : k < 64) (hx : x < 2 ^ 64)
    (hq : 2 ^ k * q ≤ x) : 2 ^ k * q + 2 ^ k - 1 < 2 ^ 64 := by
  have hpos : 0 < 2 ^ k := Nat.two_pow_pos k
  have h64 : 2 ^ 64 = 2 ^ k * 2 ^ (64 - k) := by
    rw [← pow_add, Nat.add_sub_cancel' (le_of_lt hk)]
  have hq2 : q < 2 ^ (64 - k) := by
    apply Nat.lt_of_mul_lt_mul_left (a := 2 ^ k)
    rw [← h64]
    exact lt_of_le_of_lt hq hx
  have h5 : 2 ^ k * (q + 1) ≤ 2 ^ k * 2 ^ (64 - k) := Nat.mul_le_mul_left _ hq2
  rw [← h64, Nat.mul_add, Nat.mul_one] at h5
  omega

end AlignPow

section AlignClaims

/-- C31: for every alignment that is a power of two and every value with
`value + alignment - 1` not overflowing `size_t`, `Align(value, alignment)` is
the least multiple of `alignment` that is `≥ value`; hence
`value ≤ Align(value, alignment) < value + alignment`, and
`Align(Align(value, alignment), alignment) = Align(value, alignment)`. -/
theorem C31_align_power_of_two (value alignment : Nat) (hsz : alignment < 2 ^ 64)
    (hp : ∃ k, alignment = 2 ^ k) (hv : value + alignment - 1 < 2 ^ 64) :
    alignment ∣ Align value alignment ∧
    value ≤ Align value alignment ∧
    (∀ m, alignment ∣ m → value ≤ m → Align value alignment ≤ m) ∧
    Align value alignment < value + alignment ∧
    Align (Align value alignment) alignment = Align value alignment := by
  obtain ⟨k, rfl⟩ := hp
  have hk : k < 64 := (Nat.pow_lt_pow_iff_right (by decide)).1 hsz
  have hpos : 0 < 2 ^ k := Nat.two_pow_pos k
  have hA := Align_pow value k hk hv
  have hdm := Nat.div_add_mod (value + 2 ^ k - 1) (2 ^ k)
  have hml := Nat.mod_lt (value + 2 ^ k - 1) hpos
  have hle : 2 ^ k * ((value + 2 ^ k - 1) / 2 ^ k) ≤ value + 2 ^ k - 1 :=
    Nat.mul_div_le _ _
  have hroom := Align_pow_room (value + 2 ^ k - 1) ((value + 2 ^ k - 1) / 2 ^ k) k hk hv hle
  have hB := Align_pow (2 ^ k * ((value + 2 ^ k - 1) / 2 ^ k)) k hk hroom
  rw [hA]
  refine ⟨Dvd.intro _ rfl, by omega, ?_, by omega, ?_⟩
  · rintro m ⟨c, rfl⟩ hm
    apply Nat.mul_le_mul_left
    apply Nat.le_of_lt_succ
    rw [Nat.div_lt_iff_lt_mul hpos, Nat.succ_mul, Nat.mul_comm c]
    omega
  · rw [hB]
    congr 1
    rw [Nat.add_sub_assoc hpos, Nat.mul_add_div hpos,
      Nat.div_eq_of_lt (Nat.sub_lt hpos Nat.one_pos), Nat.add_zero]

/-- C31 at `value = 13`, `alignment = 8`: the result is 16, and it is below
the multiple 24. -/
theorem C31_align_power_of_two_witness :
    Align 13 8 = 16 ∧
    8 ∣ Align 13 8 ∧
    13 ≤ Align 13 8 ∧
    Align 13 8 ≤ 24 ∧
    Align 13 8 < 13 + 8 ∧
    Align (Align 13 8) 8 = Align 13 8 :=
  have t := C31_align_power_of_two 13 8 (by decide) ⟨3, by decide⟩ (by decide)
  ⟨by decide, t.1, t.2.1, t.2.2.1 24 (by decide) (by decide), t.2.2.2.1, t.2.2.2.2⟩

end AlignClaims

end vtkWebGPUConfiguration
namespace vtkPlane

open vtkMath

section LineClaims

variable {K : Type} [LinearOrderedField K]

/-- C32: in exact arithmetic, whenever the static `IntersectWithLine` does not
take the parallel branch (`|den| ≤ |num| * 1e-6` fails), the point `x` it
writes equals `p1 + t * (p2 - p1)` for the `t` it writes and lies on the plane
(`n.(x - p0) = 0`), whether it returns 1 or 0; when it takes the parallel
branch, `x` is left unmodified. -/
theorem C32_intersection_point (M : K) (p1 p2 n p0 x : Vec3 K) :
    (¬ |Dot n (Subtract p2 p1)| ≤ |Dot n (Subtract p0 p1)| * VTK_PLANE_TOL →
      (IntersectWithLine M p1 p2 n p0 x).x
        = Add p1 (MultiplyScalar (Subtract p2 p1) (IntersectWithLine M p1 p2 n p0 x).t) ∧
      Dot n (Subtract (IntersectWithLine M p1 p2 n p0 x).x p0) = 0 ∧
      ((IntersectWithLine M p1 p2 n p0 x).ret = 1 ∨
        (IntersectWithLine M p1 p2 n p0 x).ret = 0)) ∧
    (|Dot n (Subtract p2 p1)| ≤ |Dot n (Subtract p0 p1)| * VTK_PLANE_TOL →
      (IntersectWithLine M p1 p2 n p0 x).x = x ∧
      (IntersectWithLine M p1 p2 n p0 x).ret = 0 ∧
      (IntersectWithLine M p1 p2 n p0 x).t = M) := by
  rw [IntersectWithLine_eq]
  obtain ⟨tp, _⟩ := VTK_PLANE_TOL_bounds (K := K)
  constructor
  · intro ha
    have hd : Dot n (Subtract p2 p1) ≠ 0 := by
      intro hd
      apply ha
      rw [hd, abs_zero]
      exact mul_nonneg (abs_nonneg _) (le_of_lt tp)
    have hp : Dot n (Subtract (Add p1 (MultiplyScalar (Subtract p2 p1)
        (Dot n (Subtract p0 p1) / Dot n (Subtract p2 p1)))) p0) = 0 := by
      have e : Dot n (Subtract (Add p1 (MultiplyScalar (Subtract p2 p1)
          (Dot n (Subtract p0 p1) / Dot n (Subtract p2 p1)))) p0)
          = Dot n (Subtract p2 p1) * (Dot n (Subtract p0 p1) / Dot n (Subtract p2 p1))
            - Dot n (Subtract p0 p1) := by
        simp only [Dot, Subtract, vtkMath.Add, MultiplyScalar]
        ring
      rw [e, mul_div_cancel₀ _ hd, sub_self]
    rw [if_neg ha]
    split_ifs
    · exact ⟨rfl, hp, Or.inl rfl⟩
    · exact ⟨rfl, hp, Or.inr rfl⟩
  · intro ha
    rw [if_pos ha]
    exact ⟨rfl, rfl, rfl⟩

end LineClaims

end vtkPlane
namespace vtkPlane

open vtkMath

section Cache

variable {K : Type} [LinearOrderedField K]

/-- `ComputeInternalNormal` changes `InternalNormal` only. -/
theorem ComputeInternalNormal_fields (s : Plane K) :
    (ComputeInternalNormal s).Normal = s.Normal ∧
    (ComputeInternalNormal s).Origin = s.Origin ∧
    (ComputeInternalNormal s).Offset = s.Offset ∧
    (ComputeInternalNormal s).AxisAligned = s.AxisAligned ∧
    (ComputeInternalNormal s).InternalOrigin = s.InternalOrigin ∧
    (ComputeInternalNormal s).MTime = s.MTime := by
  unfold ComputeInternalNormal
  split_ifs <;> exact ⟨rfl, rfl, rfl, rfl, rfl, rfl⟩

/-- `ComputeInternalNormal` reads `Normal` and `AxisAligned` only. -/
theorem ComputeInternalNormal_congr (s t : Plane K) (hN : s.Normal = t.Normal)
    (hA : s.AxisAligned = t.AxisAligned) :
    (ComputeInternalNormal s).InternalNormal = (ComputeInternalNormal t).InternalNormal := by
  unfold ComputeInternalNormal
  rw [hN, hA]
  split_ifs <;> rfl

/-- `ComputeInternalOrigin` changes `InternalOrigin` only. -/
theorem ComputeInternalOrigin_fields (s : Plane K) :
    (ComputeInternalOrigin s).Normal = s.Normal ∧
    (ComputeInternalOrigin s).Origin = s.Origin ∧
    (ComputeInternalOrigin s).Offset = s.Offset ∧
    (ComputeInternalOrigin s).AxisAligned = s.AxisAligned ∧
    (ComputeInternalOrigin s).InternalNormal = s.InternalNormal ∧
    (ComputeInternalOrigin s).MTime = s.MTime := by
  unfold ComputeInternalOrigin
  simp only
  split_ifs <;> exact ⟨rfl, rfl, rfl, rfl, rfl, rfl⟩

/-- In exact arithmetic the guard `Offset != 0.0` of `ComputeInternalOrigin`
makes no difference: the result is `Origin + Offset * InternalNormal`. -/
theorem ComputeInternalOrigin_value (s : Plane K) :
    (ComputeInternalOrigin s).InternalOrigin
      = Add s.Origin (MultiplyScalar s.InternalNormal s.Offset) := by
  unfold ComputeInternalOrigin
  simp only
  split_ifs with h
  · simp only [vtkMath.Add, MultiplyScalar]
    ext <;> simp only <;> ring
  · have h0 : s.Offset = 0 := not_not.1 h
    simp only [vtkMath.Add, MultiplyScalar, h0, mul_zero, add_zero]

/-- After `ComputeInternalNormal` and then `ComputeInternalOrigin` the cached
fields are consistent, whatever they were before and whatever is done to the
modification time. -/
theorem Consistent_of_updates (s t : Plane K)
    (hN : t.Normal = s.Normal) (hA : t.AxisAligned = s.AxisAligned)
    (hO : t.Origin = s.Origin) (hF : t.Offset = s.Offset)
    (hCachedN : t.InternalNormal = (ComputeInternalNormal s).InternalNormal)
    (hCachedO : t.InternalOrigin = Add s.Origin (MultiplyScalar t.InternalNormal s.Offset)) :
    Consistent t := by
  refine ⟨?_, ?_⟩
  · rw [hCachedN]
    exact (ComputeInternalNormal_congr t s hN hA).symm
  · rw [hCachedO, hO, hF]

/-- `InternalUpdates` establishes consistency. -/
theorem Consistent_InternalUpdates (s : Plane K) : Consistent (InternalUpdates s) := by
  obtain ⟨n1, n2, n3, n4, _, _⟩ := ComputeInternalNormal_fields s
  obtain ⟨o1, o2, o3, o4, o5, _⟩ := ComputeInternalOrigin_fields (ComputeInternalNormal s)
  apply Consistent_of_updates s
  · exact o1.trans n1
  · exact o4.trans n4
  · exact o2.trans n2
  · exact o3.trans n3
  · exact o5
  · show (ComputeInternalOrigin (ComputeInternalNormal s)).InternalOrigin = _
    rw [ComputeInternalOrigin_value, n2, n3]
    show _ = Add s.Origin (MultiplyScalar
      (ComputeInternalOrigin (ComputeInternalNormal s)).InternalNormal s.Offset)
    rw [o5]

/-- `SetOrigin` keeps the cached fields consistent. -/
theorem Consistent_SetOrigin (s : Plane K) (h : Consistent s) (x y z : K) :
    Consistent (SetOrigin s x y z) := by
  unfold SetOrigin
  split_ifs
  · exact Consistent_InternalUpdates _
  · exact h

/-- `SetNormal` keeps the cached fields consistent. -/
theorem Consistent_SetNormal (s : Plane K) (h : Consistent s) (x y z : K) :
    Consistent (SetNormal s x y z) := by
  unfold SetNormal
  split_ifs
  · exact Consistent_InternalUpdates _
  · exact h

/-- `SetOffset` keeps the cached fields consistent. -/
theorem Consistent_SetOffset (s : Plane K) (h : Consistent s) (a : K) :
    Consistent (SetOffset s a) := by
  unfold SetOffset
  split_ifs
  · exact Consistent_InternalUpdates _
  · exact h

/-- `SetAxisAligned` keeps the cached fields consistent. -/
theorem Consistent_SetAxisAligned (s : Plane K) (h : Consistent s) (a : Bool) :
    Consistent (SetAxisAligned s a) := by
  unfold SetAxisAligned
  split_ifs
  · exact Consistent_InternalUpdates _
  · exact h

/-- `Push` keeps the cached fields consistent; a non-zero push establishes
consistency by itself. -/
theorem Consistent_Push (s : Plane K) (h : Consistent s) (distance : K) :
    Consistent (Push s distance) := by
  unfold Push
  split_ifs with hd
  · exact h
  · obtain ⟨n1, _, n3, n4, _, _⟩ := ComputeInternalNormal_fields s
    simp only
    generalize hp : ({ ComputeInternalNormal s with Origin :=
      ⟨(ComputeInternalNormal s).Origin.x + distance * (ComputeInternalNormal s).InternalNormal.x,
       (ComputeInternalNormal s).Origin.y + distance * (ComputeInternalNormal s).InternalNormal.y,
       (ComputeInternalNormal s).Origin.z + distance * (ComputeInternalNormal s).InternalNormal.z⟩ }
      : Plane K) = p
    have pN : p.Normal = s.Normal := by rw [← hp]; exact n1
    have pA : p.AxisAligned = s.AxisAligned := by rw [← hp]; exact n4
    have pI : p.InternalNormal = (ComputeInternalNormal s).InternalNormal := by rw [← hp]
    obtain ⟨o1, o2, o3, o4, o5, _⟩ := ComputeInternalOrigin_fields p
    apply Consistent_of_updates p
    · exact o1
    · exact o4
    · exact o2
    · exact o3
    · show (ComputeInternalOrigin p).InternalNormal = _
      rw [o5, pI]
      exact ComputeInternalNormal_congr s p pN.symm pA.symm
    · show (ComputeInternalOrigin p).InternalOrigin
        = Add p.Origin (MultiplyScalar (ComputeInternalOrigin p).InternalNormal p.Offset)
      rw [ComputeInternalOrigin_value, o5]

end Cache

section CacheClaims

variable {K : Type} [LinearOrderedField K]

/-- C33: the cached state of a `vtkPlane` is kept consistent by every mutator,
in exact arithmetic: if `InternalNormal` equals the value
`ComputeInternalNormal` derives from `(Normal, AxisAligned)` and
`InternalOrigin = Origin + Offset * InternalNormal` before a call to
`SetOrigin`, `SetNormal`, `SetOffset`, `SetAxisAligned`, `Push` or `DeepCopy`,
then both equalities hold after the call, for every argument. -/
theorem C33_mutators_keep_cache (s : Plane K) (h : Consistent s) :
    (∀ x y z : K, Consistent (SetOrigin s x y z)) ∧
    (∀ origin : Vec3 K, Consistent (SetOriginArray s origin)) ∧
    (∀ x y z : K, Consistent (SetNormal s x y z)) ∧
    (∀ normal : Vec3 K, Consistent (SetNormalArray s normal)) ∧
    (∀ a : K, Consistent (SetOffset s a)) ∧
    (∀ a : Bool, Consistent (SetAxisAligned s a)) ∧
    (∀ distance : K, Consistent (Push s distance)) ∧
    (∀ plane : Plane K, Consistent (DeepCopy s plane)) := by
  refine ⟨Consistent_SetOrigin s h, fun o => Consistent_SetOrigin s h _ _ _,
    Consistent_SetNormal s h, fun n => Consistent_SetNormal s h _ _ _,
    Consistent_SetOffset s h, Consistent_SetAxisAligned s h, Consistent_Push s h, ?_⟩
  intro plane
  unfold DeepCopy
  exact Consistent_SetOffset _
    (Consistent_SetAxisAligned _
      (Consistent_SetOrigin _ (Consistent_SetNormal s h _ _ _) _ _ _) _) _

/-- C33 at a plane with normal `(1, -2, 2)`, axis alignment on, origin
`(1, 1, 1)` and offset 3, for one call of each mutator. -/
theorem C33_mutators_keep_cache_witness :
    Consistent (samplePlane : Plane ℚ) ∧
    Consistent (SetOrigin (samplePlane : Plane ℚ) 0 0 0) ∧
    Consistent (SetNormal (samplePlane : Plane ℚ) 5 0 0) ∧
    Consistent (SetOffset (samplePlane : Plane ℚ) 0) ∧
    Consistent (SetAxisAligned (samplePlane : Plane ℚ) false) ∧
    Consistent (Push (samplePlane : Plane ℚ) 2) ∧
    Consistent (DeepCopy (samplePlane : Plane ℚ) otherPlane) :=
  have h : Consistent (samplePlane : Plane ℚ) := by
    constructor
    · simp only [samplePlane, ComputeInternalNormal]
      norm_num
    · simp only [samplePlane, vtkMath.Add, MultiplyScalar]
      norm_num
  ⟨h, (C33_mutators_keep_cache samplePlane h).1 0 0 0,
    (C33_mutators_keep_cache samplePlane h).2.2.1 5 0 0,
    (C33_mutators_keep_cache samplePlane h).2.2.2.2.1 0,
    (C33_mutators_keep_cache samplePlane h).2.2.2.2.2.1 false,
    (C33_mutators_keep_cache samplePlane h).2.2.2.2.2.2.1 2,
    (C33_mutators_keep_cache samplePlane h).2.2.2.2.2.2.2 otherPlane⟩

end CacheClaims

end vtkPlane
namespace IEEE

section DblOrder

variable {K : Type} [LinearOrderedField K]

/-- The absolute value of a `double` is NaN only for NaN. -/
theorem Dbl.fabs_ne_nan (a : Dbl K) (h : a ≠ Dbl.nan) : a.fabs ≠ Dbl.nan := by
  cases a <;> simp [Dbl.fabs] at h ⊢

/-- The absolute value discards the sign. -/
theorem Dbl.fabs_neg (a : Dbl K) : a.neg.fabs = a.fabs := by
  cases a <;> simp [Dbl.fabs, Dbl.neg]

/-- Two `double`s that are not NaN compare one way or the other. -/
theorem Dbl.ge_total (a b : Dbl K) (ha : a ≠ Dbl.nan) (hb : b ≠ Dbl.nan) :
    a.ge b = true ∨ b.ge a = true := by
  cases a <;> cases b <;> simp [Dbl.ge] at ha hb ⊢
  exact le_total _ _

/-- The comparison `>=` of `double`s is transitive. -/
theorem Dbl.ge_trans (a b c : Dbl K) (h₁ : a.ge b = true) (h₂ : b.ge c = true) :
    a.ge c = true := by
  cases a <;> cases b <;> cases c <;> simp [Dbl.ge] at h₁ h₂ ⊢
  exact le_trans h₂ h₁

end DblOrder

end IEEE

namespace vtkPlane

open vtkMath IEEE

section AxisDoubles

variable {K : Type} [LinearOrderedField K]

/-- Among three `double`s that are not NaN one is at least the other two. -/
theorem exists_largest_dbl (a b c : Dbl K) (ha : a ≠ Dbl.nan) (hb : b ≠ Dbl.nan)
    (hc : c ≠ Dbl.nan) :
    (a.ge b = true ∧ a.ge c = true) ∨ (b.ge a = true ∧ b.ge c = true) ∨
      (c.ge a = true ∧ c.ge b = true) := by
  rcases Dbl.ge_total a b ha hb with hab | hab <;>
    rcases Dbl.ge_total b c hb hc with hbc | hbc <;>
    rcases Dbl.ge_total a c ha hc with hac | hac
  · exact Or.inl ⟨hab, hac⟩
  · exact Or.inl ⟨hab, Dbl.ge_trans _ _ _ hab hbc⟩
  · exact Or.inl ⟨hab, hac⟩
  · exact Or.inr (Or.inr ⟨hac, hbc⟩)
  · exact Or.inr (Or.inl ⟨hab, hbc⟩)
  · exact Or.inr (Or.inl ⟨hab, hbc⟩)
  · exact Or.inr (Or.inr ⟨Dbl.ge_trans _ _ _ hbc hab, hbc⟩)
  · exact Or.inr (Or.inr ⟨hac, hbc⟩)

/-- A component flag is 1 exactly when its test holds. -/
theorem flag_dbl_eq_one (t : Bool) :
    (if t = true then (Dbl.fin 1 : Dbl K) else Dbl.fin 0) = Dbl.fin 1 ↔ t = true := by
  cases t <;> simp

/-- The axis-aligned value of `ComputeInternalNormalDbl`. -/
theorem ComputeInternalNormalDbl_on (Normal : Vec3 (Dbl K)) :
    ComputeInternalNormalDbl true Normal
      = ⟨if (Normal.x.fabs.ge Normal.y.fabs && Normal.x.fabs.ge Normal.z.fabs) = true
            then Dbl.fin 1 else Dbl.fin 0,
         if (Normal.y.fabs.ge Normal.x.fabs && Normal.y.fabs.ge Normal.z.fabs) = true
            then Dbl.fin 1 else Dbl.fin 0,
         if (Normal.z.fabs.ge Normal.x.fabs && Normal.z.fabs.ge Normal.y.fabs) = true
            then Dbl.fin 1 else Dbl.fin 0⟩ := rfl

/-- On finite values `ComputeInternalNormalDbl` is the `ComputeInternalNormal`
of exact arithmetic. -/
theorem ComputeInternalNormalDbl_fin (s : Plane K) :
    ComputeInternalNormalDbl s.AxisAligned
        ⟨Dbl.fin s.Normal.x, Dbl.fin s.Normal.y, Dbl.fin s.Normal.z⟩
      = ⟨Dbl.fin (ComputeInternalNormal s).InternalNormal.x,
          Dbl.fin (ComputeInternalNormal s).InternalNormal.y,
          Dbl.fin (ComputeInternalNormal s).InternalNormal.z⟩ := by
  unfold ComputeInternalNormalDbl ComputeInternalNormal
  cases h : s.AxisAligned
  · simp
  · simp only [if_true, Dbl.fabs, Dbl.ge, Bool.and_eq_true, decide_eq_true_eq, ge_iff_le]
    ext
    · show _ = Dbl.fin (if _ then 1 else 0)
      split_ifs <;> rfl
    · show _ = Dbl.fin (if _ then 1 else 0)
      split_ifs <;> rfl
    · show _ = Dbl.fin (if _ then 1 else 0)
      split_ifs <;> rfl

end AxisDoubles

section AxisClaims

variable {K : Type} [LinearOrderedField K]

/-- C34, the claim as stated refuted: with `AxisAligned` on and the normal
`(NaN, 0, 0)` every `>=` test that involves the NaN is false, so all three
components of `InternalNormal` are set to 0 and none is 1. -/
theorem C34_counterexample :
    ComputeInternalNormalDbl true (⟨Dbl.nan, Dbl.fin 0, Dbl.fin 0⟩ : Vec3 (Dbl ℚ))
      = ⟨Dbl.fin 0, Dbl.fin 0, Dbl.fin 0⟩ ∧
    ¬ ((ComputeInternalNormalDbl true (⟨Dbl.nan, Dbl.fin 0, Dbl.fin 0⟩ : Vec3 (Dbl ℚ))).x
          = Dbl.fin 1 ∨
        (ComputeInternalNormalDbl true (⟨Dbl.nan, Dbl.fin 0, Dbl.fin 0⟩ : Vec3 (Dbl ℚ))).y
          = Dbl.fin 1 ∨
        (ComputeInternalNormalDbl true (⟨Dbl.nan, Dbl.fin 0, Dbl.fin 0⟩ : Vec3 (Dbl ℚ))).z
          = Dbl.fin 1) := by
  have h : ComputeInternalNormalDbl true (⟨Dbl.nan, Dbl.fin 0, Dbl.fin 0⟩ : Vec3 (Dbl ℚ))
      = ⟨Dbl.fin 0, Dbl.fin 0, Dbl.fin 0⟩ := by decide!
  rw [h]
  exact ⟨rfl, by decide!⟩

/-- C34 as amended: when `AxisAligned` is on, `ComputeInternalNormal` sets each
component of `InternalNormal` to 1 if the absolute value of the corresponding
`Normal` component is `>=` the absolute values of the other two, and to 0
otherwise. For every `Normal` without a NaN component, finite or infinite, at
least one component is 1, `InternalNormal` is a positive unit axis vector
whenever the largest absolute component is unique, the sign of `Normal` is
discarded, and every tied largest component is set to 1 (a component is 1
exactly when it is `>=` both others in absolute value). When `AxisAligned` is
off, `InternalNormal = Normal`. On finite components this is
`ComputeInternalNormal` of the plane in exact arithmetic. -/
theorem C34_axis_aligned_normal_without_nan (Normal : Vec3 (Dbl K))
    (hx : Normal.x ≠ Dbl.nan) (hy : Normal.y ≠ Dbl.nan) (hz : Normal.z ≠ Dbl.nan) :
    ComputeInternalNormalDbl true Normal
      = ⟨if (Normal.x.fabs.ge Normal.y.fabs && Normal.x.fabs.ge Normal.z.fabs) = true
            then Dbl.fin 1 else Dbl.fin 0,
         if (Normal.y.fabs.ge Normal.x.fabs && Normal.y.fabs.ge Normal.z.fabs) = true
            then Dbl.fin 1 else Dbl.fin 0,
         if (Normal.z.fabs.ge Normal.x.fabs && Normal.z.fabs.ge Normal.y.fabs) = true
            then Dbl.fin 1 else Dbl.fin 0⟩ ∧
    ((ComputeInternalNormalDbl true Normal).x = Dbl.fin 1 ∨
      (ComputeInternalNormalDbl true Normal).y = Dbl.fin 1 ∨
      (ComputeInternalNormalDbl true Normal).z = Dbl.fin 1) ∧
    (Normal.y.fabs.ge Normal.x.fabs = false → Normal.z.fabs.ge Normal.x.fabs = false →
      ComputeInternalNormalDbl true Normal = ⟨Dbl.fin 1, Dbl.fin 0, Dbl.fin 0⟩) ∧
    (Normal.x.fabs.ge Normal.y.fabs = false → Normal.z.fabs.ge Normal.y.fabs = false →
      ComputeInternalNormalDbl true Normal = ⟨Dbl.fin 0, Dbl.fin 1, Dbl.fin 0⟩) ∧
    (Normal.x.fabs.ge Normal.z.fabs = false → Normal.y.fabs.ge Normal.z.fabs = false →
      ComputeInternalNormalDbl true Normal = ⟨Dbl.fin 0, Dbl.fin 0, Dbl.fin 1⟩) ∧
    ((ComputeInternalNormalDbl true Normal).x = Dbl.fin 1 ↔
      Normal.x.fabs.ge Normal.y.fabs = true ∧ Normal.x.fabs.ge Normal.z.fabs = true) ∧
    ((ComputeInternalNormalDbl true Normal).y = Dbl.fin 1 ↔
      Normal.y.fabs.ge Normal.x.fabs = true ∧ Normal.y.fabs.ge Normal.z.fabs = true) ∧
    ((ComputeInternalNormalDbl true Normal).z = Dbl.fin 1 ↔
      Normal.z.fabs.ge Normal.x.fabs = true ∧ Normal.z.fabs.ge Normal.y.fabs = true) ∧
    ComputeInternalNormalDbl true ⟨Normal.x.neg, Normal.y.neg, Normal.z.neg⟩
      = ComputeInternalNormalDbl true Normal ∧
    ComputeInternalNormalDbl false Normal = Normal ∧
    (∀ s : Plane K,
      ComputeInternalNormalDbl s.AxisAligned
          ⟨Dbl.fin s.Normal.x, Dbl.fin s.Normal.y, Dbl.fin s.Normal.z⟩
        = ⟨Dbl.fin (ComputeInternalNormal s).InternalNormal.x,
            Dbl.fin (ComputeInternalNormal s).InternalNormal.y,
            Dbl.fin (ComputeInternalNormal s).InternalNormal.z⟩) := by
  have ax := Dbl.fabs_ne_nan _ hx
  have ay := Dbl.fabs_ne_nan _ hy
  have az := Dbl.fabs_ne_nan _ hz
  have hflag : ∀ t u : Bool,
      (if (t && u) = true then (Dbl.fin 1 : Dbl K) else Dbl.fin 0) = Dbl.fin 1 ↔
        t = true ∧ u = true := by
    intro t u
    rw [flag_dbl_eq_one, Bool.and_eq_true]
  refine ⟨rfl, ?_, ?_, ?_, ?_, hflag _ _, hflag _ _, hflag _ _, ?_, rfl,
    ComputeInternalNormalDbl_fin⟩
  · rcases exists_largest_dbl _ _ _ ax ay az with h | h | h
    · exact Or.inl ((hflag _ _).2 h)
    · exact Or.inr (Or.inl ((hflag _ _).2 h))
    · exact Or.inr (Or.inr ((hflag _ _).2 h))
  · intro h1 h2
    have g1 : Normal.x.fabs.ge Normal.y.fabs = true := by
      rcases Dbl.ge_total _ _ ax ay with g | g
      · exact g
      · rw [h1] at g; exact absurd g (by decide)
    have g2 : Normal.x.fabs.ge Normal.z.fabs = true := by
      rcases Dbl.ge_total _ _ ax az with g | g
      · exact g
      · rw [h2] at g; exact absurd g (by decide)
    rw [ComputeInternalNormalDbl_on, g1, g2, h1, h2]
    simp
  · intro h1 h2
    have g1 : Normal.y.fabs.ge Normal.x.fabs = true := by
      rcases Dbl.ge_total _ _ ay ax with g | g
      · exact g
      · rw [h1] at g; exact absurd g (by decide)
    have g2 : Normal.y.fabs.ge Normal.z.fabs = true := by
      rcases Dbl.ge_total _ _ ay az with g | g
      · exact g
      · rw [h2] at g; exact absurd g (by decide)
    rw [ComputeInternalNormalDbl_on, g1, g2, h1, h2]
    simp
  · intro h1 h2
    have g1 : Normal.z.fabs.ge Normal.x.fabs = true := by
      rcases Dbl.ge_total _ _ az ax with g | g
      · exact g
      · rw [h1] at g; exact absurd g (by decide)
    have g2 : Normal.z.fabs.ge Normal.y.fabs = true := by
      rcases Dbl.ge_total _ _ az ay with g | g
      · exact g
      · rw [h2] at g; exact absurd g (by decide)
    rw [ComputeInternalNormalDbl_on, g1, g2, h1, h2]
    simp
  · rw [ComputeInternalNormalDbl_on, ComputeInternalNormalDbl_on]
    simp only [Dbl.fabs_neg]

/-- C34 as amended, at the normal `(1, -2, 2)`, whose second and third
components tie for the largest absolute value: `InternalNormal` is
`(0, 1, 1)`, also for the opposite normal. -/
theorem C34_axis_aligned_normal_without_nan_witness :
    ComputeInternalNormalDbl true (⟨Dbl.fin 1, Dbl.fin (-2), Dbl.fin 2⟩ : Vec3 (Dbl ℚ))
      = ⟨Dbl.fin 0, Dbl.fin 1, Dbl.fin 1⟩ ∧
    ((ComputeInternalNormalDbl true (⟨Dbl.fin 1, Dbl.fin (-2), Dbl.fin 2⟩ : Vec3 (Dbl ℚ))).x
        = Dbl.fin 1 ∨
      (ComputeInternalNormalDbl true (⟨Dbl.fin 1, Dbl.fin (-2), Dbl.fin 2⟩ : Vec3 (Dbl ℚ))).y
        = Dbl.fin 1 ∨
      (ComputeInternalNormalDbl true (⟨Dbl.fin 1, Dbl.fin (-2), Dbl.fin 2⟩ : Vec3 (Dbl ℚ))).z
        = Dbl.fin 1) ∧
    ComputeInternalNormalDbl true (⟨Dbl.fin (-1), Dbl.fin 2, Dbl.fin (-2)⟩ : Vec3 (Dbl ℚ))
      = ComputeInternalNormalDbl true ⟨Dbl.fin 1, Dbl.fin (-2), Dbl.fin 2⟩ :=
  have t := C34_axis_aligned_normal_without_nan
    (⟨Dbl.fin 1, Dbl.fin (-2), Dbl.fin 2⟩ : Vec3 (Dbl ℚ)) (by decide) (by decide) (by decide)
  ⟨by decide!, t.2.1, by decide!⟩

end AxisClaims

end vtkPlane

namespace vtkPlane

open vtkMath

section ArrayForm

variable {K : Type}

/-- Storing `f pointId` at each index of a list, in any order: the record of
the stores grows by the list, the length of the array is kept, an index of the
list that is within the array holds `f` of it, and any other index is
untouched. -/
theorem store_fold (f : Nat → K) (idxs : List Nat) : ∀ out : OutArray K,
    (idxs.foldl (fun out pointId =>
        (⟨out.values.set pointId (f pointId), out.written ++ [pointId]⟩ : OutArray K))
      out).written = out.written ++ idxs ∧
    (idxs.foldl (fun out pointId =>
        (⟨out.values.set pointId (f pointId), out.written ++ [pointId]⟩ : OutArray K))
      out).values.length = out.values.length ∧
    (∀ i, i ∈ idxs → i < out.values.length →
      (idxs.foldl (fun out pointId =>
          (⟨out.values.set pointId (f pointId), out.written ++ [pointId]⟩ : OutArray K))
        out).values[i]? = some (f i)) ∧
    (∀ i, i ∉ idxs →
      (idxs.foldl (fun out pointId =>
          (⟨out.values.set pointId (f pointId), out.written ++ [pointId]⟩ : OutArray K))
        out).values[i]? = out.values[i]?) := by
  induction idxs with
  | nil =>
    intro out
    simp
  | cons j js ih =>
    intro out
    obtain ⟨h1, h2, h3, h4⟩ := ih ⟨out.values.set j (f j), out.written ++ [j]⟩
    simp only [List.foldl_cons]
    refine ⟨?_, ?_, ?_, ?_⟩
    · rw [h1]; simp
    · rw [h2]; simp
    · intro i hi hlt
      by_cases hmem : i ∈ js
      · exact h3 i hmem (by simpa using hlt)
      · have hij : i = j := by
          rcases List.mem_cons.1 hi with h | h
          · exact h
          · exact absurd h hmem
        rw [h4 i hmem, List.getElem?_set, if_pos hij.symm, if_pos (hij ▸ hlt), hij]
    · intro i hi
      have hj : j ≠ i := fun h => hi (h ▸ List.mem_cons_self _ _)
      have hjs : i ∉ js := fun h => hi (List.mem_cons_of_mem _ h)
      rw [h4 i hjs, List.getElem?_set, if_neg hj]

/-- The worker stores, at each index that the calls `[begin, end)` of `ranges`
visit in turn, the converted value of the plane function with the worker's
copies of the normal and the origin. -/
theorem CutFunctionWorker_call_eq [LinearOrderedField K] (s : Plane K) (toAPI toValue : K → K)
    (input : List (Vec3 K)) (ranges : List (Nat × Nat)) : ∀ out : OutArray K,
    CutFunctionWorker.call toAPI toValue s.InternalNormal s.InternalOrigin ranges input out
      = (ranges.flatMap (fun r => List.range' r.1 (r.2 - r.1))).foldl
          (fun out pointId =>
            (⟨out.values.set pointId
                (toValue (EvaluateFunction
                  { s with
                    InternalNormal :=
                      ⟨toAPI s.InternalNormal.x, toAPI s.InternalNormal.y,
                        toAPI s.InternalNormal.z⟩
                    InternalOrigin :=
                      ⟨toAPI s.InternalOrigin.x, toAPI s.InternalOrigin.y,
                        toAPI s.InternalOrigin.z⟩ }
                  (input.getD pointId ⟨0, 0, 0⟩))),
              out.written ++ [pointId]⟩ : OutArray K))
          out := by
  induction ranges with
  | nil => intro out; rfl
  | cons r rs ih =>
    intro out
    rw [List.flatMap_cons, List.foldl_append]
    exact ih _

/-- The calls of a partition of `[first, last)` into contiguous chunks visit
the indices `first, ..., last - 1` in increasing order. -/
theorem visited_tiles (ranges : List (Nat × Nat)) : ∀ first last : Nat,
    tiles ranges first last →
    ranges.flatMap (fun r => List.range' r.1 (r.2 - r.1)) = List.range' first (last - first) := by
  induction ranges with
  | nil =>
    intro first last h
    simp only [tiles] at h
    simp [h]
  | cons r rs ih =>
    intro first last h
    obtain ⟨h1, h2, h3, h4⟩ := h
    rw [List.flatMap_cons, ih r.2 last h4, h1]
    have e : r.2 = first + (r.2 - first) := by omega
    nth_rewrite 2 [e]
    rw [List.range'_append_1]
    congr 1
    omega

/-- The calls of a partition of `[0, n)`, carried out in any order, visit each
index below `n` once and no other index. -/
theorem visited_perm (ranges tiling : List (Nat × Nat)) (n : Nat)
    (hperm : ranges.Perm tiling) (htile : tiles tiling 0 n) :
    (ranges.flatMap (fun r => List.range' r.1 (r.2 - r.1))).Perm (List.range' 0 n) := by
  have h := List.Perm.flatMap_right (fun r : Nat × Nat => List.range' r.1 (r.2 - r.1)) hperm
  rw [visited_tiles tiling 0 n htile, Nat.sub_zero] at h
  exact h

/-- The values the worker leaves in the output, for calls that are a partition
of `[0, numTuples)` carried out in any order. -/
theorem CutFunctionWorker_values [LinearOrderedField K] (s : Plane K) (toAPI toValue : K → K)
    (ranges tiling : List (Nat × Nat)) (input : List (Vec3 K)) (output : OutArray K)
    (hperm : ranges.Perm tiling) (htile : tiles tiling 0 input.length)
    (hlen : input.length ≤ output.values.length) (i : Nat) :
    (CutFunctionWorker.call toAPI toValue s.InternalNormal s.InternalOrigin ranges input
        output).values[i]?
      = if i < input.length then
          some (toValue (EvaluateFunction
            { s with
              InternalNormal :=
                ⟨toAPI s.InternalNormal.x, toAPI s.InternalNormal.y, toAPI s.InternalNormal.z⟩
              InternalOrigin :=
                ⟨toAPI s.InternalOrigin.x, toAPI s.InternalOrigin.y, toAPI s.InternalOrigin.z⟩ }
            (input.getD i ⟨0, 0, 0⟩)))
        else output.values[i]? := by
  rw [CutFunctionWorker_call_eq]
  have hP := visited_perm ranges tiling input.length hperm htile
  obtain ⟨_, _, h3, h4⟩ := store_fold
    (fun p => toValue (EvaluateFunction
      { s with
        InternalNormal :=
          ⟨toAPI s.InternalNormal.x, toAPI s.InternalNormal.y, toAPI s.InternalNormal.z⟩
        InternalOrigin :=
          ⟨toAPI s.InternalOrigin.x, toAPI s.InternalOrigin.y, toAPI s.InternalOrigin.z⟩ }
      (input.getD p ⟨0, 0, 0⟩)))
    (ranges.flatMap (fun r => List.range' r.1 (r.2 - r.1))) output
  have hmem : i ∈ ranges.flatMap (fun r => List.range' r.1 (r.2 - r.1)) ↔ i < input.length := by
    rw [hP.mem_iff, List.mem_range'_1]
    omega
  split_ifs with hi
  · exact h3 i (hmem.2 hi) (lt_of_lt_of_le hi hlen)
  · exact h4 i (fun h => hi (hmem.1 h))

/-- The record of the stores of the worker: each index below `numTuples` once
more than before, every other index as before. -/
theorem CutFunctionWorker_written [LinearOrderedField K] (s : Plane K)
    (toAPI toValue : K → K) (ranges tiling : List (Nat × Nat)) (input : List (Vec3 K))
    (output : OutArray K) (hperm : ranges.Perm tiling)
    (htile : tiles tiling 0 input.length) (i : Nat) :
    (CutFunctionWorker.call toAPI toValue s.InternalNormal s.InternalOrigin ranges input
        output).written.count i
      = output.written.count i + if i < input.length then 1 else 0 := by
  rw [CutFunctionWorker_call_eq]
  have hP := visited_perm ranges tiling input.length hperm htile
  obtain ⟨h1, _, _, _⟩ := store_fold
    (fun p => toValue (EvaluateFunction
      { s with
        InternalNormal :=
          ⟨toAPI s.InternalNormal.x, toAPI s.InternalNormal.y, toAPI s.InternalNormal.z⟩
        InternalOrigin :=
          ⟨toAPI s.InternalOrigin.x, toAPI s.InternalOrigin.y, toAPI s.InternalOrigin.z⟩ }
      (input.getD p ⟨0, 0, 0⟩)))
    (ranges.flatMap (fun r => List.range' r.1 (r.2 - r.1))) output
  rw [h1, List.count_append, hP.count_eq]
  congr 1
  split_ifs with hi
  · exact List.count_eq_one_of_mem (List.nodup_range' 0 input.length)
      (List.mem_range'_1.2 ⟨Nat.zero_le _, by omega⟩)
  · exact List.count_eq_zero_of_not_mem (fun h => hi (by
      have := (List.mem_range'_1.1 h).2
      omega))

/-- The two paths of the array form. -/
theorem EvaluateFunctionArray_paths [LinearOrderedField K] (s : Plane K) (toValue : K → K)
    (ranges : List (Nat × Nat)) (input : List (Vec3 K)) (output : OutArray K) :
    EvaluateFunctionArray s toValue true ranges input output
      = CutFunctionWorker.call toValue toValue s.InternalNormal s.InternalOrigin ranges input
          output ∧
    EvaluateFunctionArray s toValue false ranges input output
      = CutFunctionWorker.call (fun v => v) toValue s.InternalNormal s.InternalOrigin ranges
          input output :=
  ⟨rfl, rfl⟩

/-- Whatever the path, the array form is a run of the worker with some
conversion of the normal and the origin. -/
theorem EvaluateFunctionArray_worker [LinearOrderedField K] (s : Plane K) (toValue : K → K)
    (dispatched : Bool) (ranges : List (Nat × Nat)) (input : List (Vec3 K))
    (output : OutArray K) :
    ∃ toAPI : K → K, EvaluateFunctionArray s toValue dispatched ranges input output
      = CutFunctionWorker.call toAPI toValue s.InternalNormal s.InternalOrigin ranges input
          output := by
  cases dispatched
  · exact ⟨fun v => v, rfl⟩
  · exact ⟨toValue, rfl⟩

end ArrayForm

section ArrayClaims

variable {K : Type} [LinearOrderedField K]

/-- C35, the claim as stated refuted: with an output array of `float` on the
typed path, the plane with normal `(1, 0, 0)` through `(2^24 + 1, 0, 0)` and the
input tuples `(2^24 + 1, 0, 0)` and `(0, 0, 0)`, the worker holds the origin
rounded to `2^24` and the array form leaves `1` and `-2^24`, while the scalar
form gives `0` and `-(2^24 + 1)`. -/
theorem C35_counterexample :
    (EvaluateFunctionArray (farPlane : Plane ℚ) IEEE.binary32 true [(0, 2)] farPoints
        ⟨[0, 0], []⟩).values = [1, -16777216] ∧
    (farPoints : List (Vec3 ℚ)).map (EvaluateFunction farPlane) = [0, -16777217] ∧
    ¬ (∀ i (hi : i < (farPoints : List (Vec3 ℚ)).length),
        (EvaluateFunctionArray (farPlane : Plane ℚ) IEEE.binary32 true [(0, 2)] farPoints
          ⟨[0, 0], []⟩).values[i]? = some (EvaluateFunction farPlane farPoints[i])) := by
  have h1 : (EvaluateFunctionArray (farPlane : Plane ℚ) IEEE.binary32 true [(0, 2)] farPoints
      ⟨[0, 0], []⟩).values = [1, -16777216] := by decide!
  have h2 : (farPoints : List (Vec3 ℚ)).map (EvaluateFunction farPlane) = [0, -16777217] := by
    decide!
  refine ⟨h1, h2, fun h => ?_⟩
  have h0 := h 0 (by decide)
  rw [h1] at h0
  revert h0
  decide!

/-- C35 as amended: the array form agrees with the scalar form when the output
array holds `double`s, so that nothing is converted. For every input array of
3-component tuples, every output array with room for them and every index `i`
below the number of tuples, the `i`-th output value then equals
`EvaluateFunction(input[i]) = InternalNormal . (input[i] - InternalOrigin)`, on
either path of the dispatch. For an output array of another value type the
`i`-th value is the converted plane function, taken with the normal and origin
converted as well on the typed path and unconverted on the other. In every case
this holds for every split of the index range into `[begin, end)` sub-ranges
carried out in any order, the output is the one of the single call
`[0, numTuples)`, values past the tuples are untouched, and every output index
below the number of tuples is written exactly once. -/
theorem C35_array_matches_scalar_on_doubles (s : Plane K) (toValue : K → K)
    (dispatched : Bool) (ranges tiling : List (Nat × Nat)) (input : List (Vec3 K))
    (output : OutArray K) (hperm : ranges.Perm tiling)
    (htile : tiles tiling 0 input.length) (hlen : input.length ≤ output.values.length) :
    (∀ i (hi : i < input.length),
      (EvaluateFunctionArray s (fun v => v) dispatched ranges input output).values[i]?
        = some (EvaluateFunction s input[i])) ∧
    (∀ x : Vec3 K,
      EvaluateFunction s x = Dot s.InternalNormal (Subtract x s.InternalOrigin)) ∧
    (∀ i (hi : i < input.length),
      (EvaluateFunctionArray s toValue true ranges input output).values[i]?
        = some (toValue (EvaluateFunction
            { s with
              InternalNormal :=
                ⟨toValue s.InternalNormal.x, toValue s.InternalNormal.y,
                  toValue s.InternalNormal.z⟩
              InternalOrigin :=
                ⟨toValue s.InternalOrigin.x, toValue s.InternalOrigin.y,
                  toValue s.InternalOrigin.z⟩ }
            input[i]))) ∧
    (∀ i (hi : i < input.length),
      (EvaluateFunctionArray s toValue false ranges input output).values[i]?
        = some (toValue (EvaluateFunction s input[i]))) ∧
    (∀ i, input.length ≤ i →
      (EvaluateFunctionArray s toValue dispatched ranges input output).values[i]?
        = output.values[i]?) ∧
    (EvaluateFunctionArray s toValue dispatched ranges input output).values
      = (EvaluateFunctionArray s toValue dispatched [(0, input.length)] input output).values ∧
    (∀ i, (EvaluateFunctionArray s toValue dispatched ranges input output).written.count i
      = output.written.count i + if i < input.length then 1 else 0) := by
  obtain ⟨pt, pf⟩ := EvaluateFunctionArray_paths s toValue ranges input output
  obtain ⟨toAPI, hw⟩ := EvaluateFunctionArray_worker s toValue dispatched ranges input output
  refine ⟨?_, fun x => rfl, ?_, ?_, ?_, ?_, ?_⟩
  · intro i hi
    cases dispatched
    · rw [(EvaluateFunctionArray_paths s (fun v => v) ranges input output).2,
        CutFunctionWorker_values s _ _ ranges tiling input output hperm htile hlen,
        if_pos hi, List.getD_eq_getElem _ _ hi]
    · rw [(EvaluateFunctionArray_paths s (fun v => v) ranges input output).1,
        CutFunctionWorker_values s _ _ ranges tiling input output hperm htile hlen,
        if_pos hi, List.getD_eq_getElem _ _ hi]
  · intro i hi
    rw [pt, CutFunctionWorker_values s _ _ ranges tiling input output hperm htile hlen,
      if_pos hi, List.getD_eq_getElem _ _ hi]
  · intro i hi
    rw [pf, CutFunctionWorker_values s _ _ ranges tiling input output hperm htile hlen,
      if_pos hi, List.getD_eq_getElem _ _ hi]
  · intro i hi
    rw [hw, CutFunctionWorker_values s _ _ ranges tiling input output hperm htile hlen,
      if_neg (not_lt.2 hi)]
  · apply List.ext_getElem?
    intro i
    cases dispatched
    · rw [pf, (EvaluateFunctionArray_paths s toValue [(0, input.length)] input output).2,
        CutFunctionWorker_values s _ _ ranges tiling input output hperm htile hlen,
        CutFunctionWorker_values s _ _ [(0, input.length)] [(0, input.length)] input
          output (List.Perm.refl _) (tiles_single _) hlen]
    · rw [pt, (EvaluateFunctionArray_paths s toValue [(0, input.length)] input output).1,
        CutFunctionWorker_values s _ _ ranges tiling input output hperm htile hlen,
        CutFunctionWorker_values s _ _ [(0, input.length)] [(0, input.length)] input
          output (List.Perm.refl _) (tiles_single _) hlen]
  · intro i
    rw [hw]
    exact CutFunctionWorker_written s _ _ ranges tiling input output hperm htile i

/-- C35 as amended, at the corners of the unit square and a plane with internal
normal `(0, 1, 1)` and internal origin `(1, 4, 4)`, with the call `[2, 4)`
carried out before `[0, 2)` and an output array of five `double`s. -/
theorem C35_array_matches_scalar_on_doubles_witness :
    (EvaluateFunctionArray (samplePlane : Plane ℚ) (fun v => v) true [(2, 4), (0, 2)]
        unitSquare ⟨[9, 9, 9, 9, 9], []⟩).values[2]?
      = some (EvaluateFunction (samplePlane : Plane ℚ) ⟨1, 1, 0⟩) ∧
    (EvaluateFunctionArray (samplePlane : Plane ℚ) (fun v => v) true [(2, 4), (0, 2)]
        unitSquare ⟨[9, 9, 9, 9, 9], []⟩).values[4]? = some 9 ∧
    (EvaluateFunctionArray (samplePlane : Plane ℚ) (fun v => v) true [(2, 4), (0, 2)]
        unitSquare ⟨[9, 9, 9, 9, 9], []⟩).values
      = (EvaluateFunctionArray (samplePlane : Plane ℚ) (fun v => v) true [(0, 4)] unitSquare
        ⟨[9, 9, 9, 9, 9], []⟩).values ∧
    (EvaluateFunctionArray (samplePlane : Plane ℚ) (fun v => v) true [(2, 4), (0, 2)]
        unitSquare ⟨[9, 9, 9, 9, 9], []⟩).written.count 3 = 1 ∧
    (EvaluateFunctionArray (samplePlane : Plane ℚ) (fun v => v) true [(2, 4), (0, 2)]
        unitSquare ⟨[9, 9, 9, 9, 9], []⟩).written = [2, 3, 0, 1] ∧
    (EvaluateFunctionArray (samplePlane : Plane ℚ) (fun v => v) true [(2, 4), (0, 2)]
        unitSquare ⟨[9, 9, 9, 9, 9], []⟩).values = [-8, -8, -7, -7, 9] :=
  have t := C35_array_matches_scalar_on_doubles (samplePlane : Plane ℚ) (fun v => v) true
    [(2, 4), (0, 2)] [(0, 2), (2, 4)] unitSquare ⟨[9, 9, 9, 9, 9], []⟩
    (List.Perm.swap (0, 2) (2, 4) []) (by simp [tiles, unitSquare]) (by decide)
  ⟨t.1 2 (by decide), t.2.2.2.2.1 4 (by decide), t.2.2.2.2.2.1, t.2.2.2.2.2.2 3, rfl,
    by decide!⟩

end ArrayClaims

end vtkPlane

namespace vtkPlane

open vtkMath IEEE

section RoundedClaims

/-- Without rounding a block of the direction extraction is `axisBlock`. -/
theorem axisBlockRounded_exact {K : Type} [LinearOrderedField K] (w : Vec3 K) (det : K)
    (a : Vec3 K) : axisBlockRounded (fun v => v) w det a = axisBlock w det a := by
  simp only [axisBlockRounded, axisBlock, vtkMath.Dot, vtkMath.Add, MultiplyScalar]

/-- Without rounding the last accumulator of the trace is `weightedDir`. -/
theorem weightedDirTrace_exact {K : Type} [LinearOrderedField K] (c : Cov6 K) :
    (weightedDirTrace (fun v => v) c).afterZ = weightedDir c := by
  simp only [weightedDirTrace, weightedDir, axisBlockRounded_exact]

/-- C28, the claim as stated refuted in `double` arithmetic. For the points
`(1, 135, -3)`, `(1, 23, -1)`, `(0, -47, 4)`, `(1, -34, -3)` the centroid and
the six covariance values are small dyadic numbers that the two passes compute
without rounding. In the block of the y axis the dot product is positive, so
the candidate is not flipped, yet the rounded sum lowers the first component
of the accumulator by `8/2048` where the weighted candidate has `-5/2048`: the
squared Euclidean length of the accumulator after the block is below the one
before it, and so is the squared length as `double` arithmetic computes it. -/
theorem C28_counterexample :
    ComputePointsOrigin.run [] (skewPoints : List (Vec3 ℚ)) = ⟨3 / 4, 77 / 4, -3 / 4⟩ ∧
    ComputeCovariance.run [] (skewPoints : List (Vec3 ℚ)) ⟨3 / 4, 77 / 4, -3 / 4⟩
      = ⟨3 / 16, 265 / 16, -19 / 16, 82547 / 16, -1825 / 16, 131 / 16⟩ ∧
    (weightedDirTrace binary64
        (⟨3 / 16, 265 / 16, -19 / 16, 82547 / 16, -1825 / 16, 131 / 16⟩ : Cov6 ℚ)).afterX
      = ⟨1598427288657119 / 64, -4374669368205 / 32768, 7414845845639065 / 2048⟩ ∧
    (weightedDirTrace binary64
        (⟨3 / 16, 265 / 16, -19 / 16, 82547 / 16, -1825 / 16, 131 / 16⟩ : Cov6 ℚ)).afterY
      = ⟨6393709154628475 / 256, -4374669368141 / 32768, 463427865352445 / 128⟩ ∧
    Dot (⟨6393709154628475 / 256, -4374669368141 / 32768, 463427865352445 / 128⟩ : Vec3 ℚ)
        ⟨6393709154628475 / 256, -4374669368141 / 32768, 463427865352445 / 128⟩
      < Dot (⟨1598427288657119 / 64, -4374669368205 / 32768, 7414845845639065 / 2048⟩ : Vec3 ℚ)
        ⟨1598427288657119 / 64, -4374669368205 / 32768, 7414845845639065 / 2048⟩ ∧
    binary64 (binary64 (binary64 ((6393709154628475 / 256) * (6393709154628475 / 256))
          + binary64 ((-4374669368141 / 32768) * (-4374669368141 / 32768)))
        + binary64 ((463427865352445 / 128) * (463427865352445 / 128)))
      < binary64 (binary64 (binary64 ((1598427288657119 / 64) * (1598427288657119 / 64))
          + binary64 ((-4374669368205 / 32768) * (-4374669368205 / 32768)))
        + binary64 ((7414845845639065 / 2048) * (7414845845639065 / 2048))) := by
  refine ⟨?_, ?_, ?_, ?_, ?_, ?_⟩
  · decide!
  · decide!
  · decide!
  · decide!
  · decide!
  · decide!

end RoundedClaims

end vtkPlane
